import Mathlib

/-!
# kcc-mcp-server: field inserter and migration phase model

A shallow embedding of `internal/tools/add_field.go` and
`internal/tools/migration_status.go`.

Go strings are byte sequences; they are embedded as lists of byte values.
Go string literals are UTF-8, so a literal is embedded through `lit`.
-/

set_option autoImplicit false

namespace KccMcp

/-- A Go `string`: an immutable sequence of bytes (each value below 256). -/
abbrev GoString := List Nat

/-- UTF-8 encoding of one code point, as the Go compiler stores literals. -/
def utf8EncodeChar (c : Char) : GoString :=
  let v := c.toNat
  if v < 0x80 then [v]
  else if v < 0x800 then [0xC0 + v / 64, 0x80 + v % 64]
  else if v < 0x10000 then [0xE0 + v / 4096, 0x80 + (v / 64) % 64, 0x80 + v % 64]
  else [0xF0 + v / 262144, 0x80 + (v / 4096) % 64, 0x80 + (v / 64) % 64, 0x80 + v % 64]

/-- The bytes of a Go string literal. -/
def lit (s : String) : GoString := s.toList.flatMap utf8EncodeChar

namespace strings

/-- Go `strings.Split(s, sep)` for a one-byte separator `sep`: the substrings
between the separators, in order; never empty (`Split("", sep)` is `[""]`). -/
def Split : GoString → Nat → List GoString
  | [], _ => [[]]
  | c :: cs, sep =>
    if c = sep then [] :: Split cs sep
    else
      match Split cs sep with
      | [] => [[c]]
      | l :: ls => (c :: l) :: ls

/-- Go `strings.Join(elems, sep)`. -/
def Join : List GoString → GoString → GoString
  | [], _ => []
  | [a], _ => a
  | a :: b :: rest, sep => a ++ sep ++ Join (b :: rest) sep

/-- Go `strings.HasPrefix(s, prefix)`. -/
def HasPrefix : GoString → GoString → Bool
  | _, [] => true
  | [], _ :: _ => false
  | c :: cs, p :: ps => decide (c = p) && HasPrefix cs ps

/-- Go `strings.Contains(s, substr)`: `substr` occurs in `s` at some byte offset. -/
def Contains : GoString → GoString → Bool
  | [], substr => HasPrefix [] substr
  | c :: cs, substr => HasPrefix (c :: cs) substr || Contains cs substr

/-- The UTF-8 encodings of the code points for which Go `unicode.IsSpace` holds:
TAB, LF, VT, FF, CR, SPACE, U+0085, U+00A0, U+1680, U+2000..U+200A, U+2028,
U+2029, U+202F, U+205F, U+3000. -/
def spaceEncodings : List GoString :=
  [[0x09], [0x0A], [0x0B], [0x0C], [0x0D], [0x20],
   [0xC2, 0x85], [0xC2, 0xA0], [0xE1, 0x9A, 0x80],
   [0xE2, 0x80, 0x80], [0xE2, 0x80, 0x81], [0xE2, 0x80, 0x82], [0xE2, 0x80, 0x83],
   [0xE2, 0x80, 0x84], [0xE2, 0x80, 0x85], [0xE2, 0x80, 0x86], [0xE2, 0x80, 0x87],
   [0xE2, 0x80, 0x88], [0xE2, 0x80, 0x89], [0xE2, 0x80, 0x8A],
   [0xE2, 0x80, 0xA8], [0xE2, 0x80, 0xA9], [0xE2, 0x80, 0xAF],
   [0xE2, 0x81, 0x9F], [0xE3, 0x80, 0x80]]

/-- Length of the white-space code point that starts `s`, if there is one. -/
def leadingSpace (s : GoString) : Option Nat :=
  (spaceEncodings.find? (fun e => HasPrefix s e)).map List.length

/-- Go `strings.TrimLeftFunc(s, unicode.IsSpace)`; `fuel` bounds the number of
code points removed and is taken as the length of `s` by `TrimSpace`. -/
def trimLeftSpace : Nat → GoString → GoString
  | 0, s => s
  | fuel + 1, s =>
    match leadingSpace s with
    | some n => trimLeftSpace fuel (s.drop n)
    | none => s

/-- Go `strings.TrimRightFunc(s, unicode.IsSpace)`: a white-space code point
ends `s` exactly when its reversed encoding starts the reversed string. -/
def trimRightSpace : Nat → GoString → GoString
  | 0, s => s
  | fuel + 1, s =>
    match (spaceEncodings.find? (fun e => HasPrefix s.reverse e.reverse)).map List.length with
    | some n => trimRightSpace fuel (s.take (s.length - n))
    | none => s

/-- Go `strings.TrimSpace(s)`: `s` without its leading and trailing white
space, as defined by Unicode. -/
def TrimSpace (s : GoString) : GoString :=
  let t := trimLeftSpace s.length s
  trimRightSpace t.length t

/-- Go `utf8.RuneError`, the replacement character U+FFFD. -/
def RuneError : Nat := 0xFFFD

/-- Go `utf8.DecodeRuneInString` on a non-empty string: the first code point
and its width in bytes; an invalid or incomplete encoding gives
`(RuneError, 1)`. -/
def DecodeRune (s : GoString) : Nat × Nat :=
  let cont (b : Nat) : Bool := decide (0x80 ≤ b ∧ b ≤ 0xBF)
  match s with
  | [] => (RuneError, 0)
  | s0 :: t =>
    if s0 < 0x80 then (s0, 1)
    else if 0xC2 ≤ s0 ∧ s0 ≤ 0xDF then
      match t with
      | s1 :: _ => if cont s1 then ((s0 % 32) * 64 + s1 % 64, 2) else (RuneError, 1)
      | _ => (RuneError, 1)
    else if 0xE0 ≤ s0 ∧ s0 ≤ 0xEF then
      match t with
      | s1 :: s2 :: _ =>
        let lo := if s0 = 0xE0 then 0xA0 else 0x80
        let hi := if s0 = 0xED then 0x9F else 0xBF
        if lo ≤ s1 ∧ s1 ≤ hi ∧ cont s2 then
          ((s0 % 16) * 4096 + (s1 % 64) * 64 + s2 % 64, 3)
        else (RuneError, 1)
      | _ => (RuneError, 1)
    else if 0xF0 ≤ s0 ∧ s0 ≤ 0xF4 then
      match t with
      | s1 :: s2 :: s3 :: _ =>
        let lo := if s0 = 0xF0 then 0x90 else 0x80
        let hi := if s0 = 0xF4 then 0x8F else 0xBF
        if lo ≤ s1 ∧ s1 ≤ hi ∧ cont s2 ∧ cont s3 then
          ((s0 % 8) * 262144 + (s1 % 64) * 4096 + (s2 % 64) * 64 + s3 % 64, 4)
        else (RuneError, 1)
      | _ => (RuneError, 1)
    else (RuneError, 1)

/-- Go `utf8.AppendRune`: the UTF-8 encoding of a code point; a surrogate or a
value above U+10FFFF is written as `RuneError`. -/
def EncodeRune (r : Nat) : GoString :=
  if r < 0x80 then [r]
  else if r < 0x800 then [0xC0 + r / 64, 0x80 + r % 64]
  else if (0xD800 ≤ r ∧ r ≤ 0xDFFF) ∨ 0x10FFFF < r then [0xEF, 0xBF, 0xBD]
  else if r < 0x10000 then [0xE0 + r / 4096, 0x80 + (r / 64) % 64, 0x80 + r % 64]
  else [0xF0 + r / 262144, 0x80 + (r / 4096) % 64, 0x80 + (r / 64) % 64, 0x80 + r % 64]

/-- The code points a Go `range` loop over the string yields; `fuel` bounds
their number and is taken as the length of the string. -/
def runes : Nat → GoString → List Nat
  | 0, _ => []
  | _, [] => []
  | fuel + 1, c :: cs =>
    let d := DecodeRune (c :: cs)
    d.1 :: runes fuel (cs.drop (d.2 - 1))

/-- Go `unicode.ToLower`: ASCII is handled by the code, every other code point
through the Unicode case tables of the Go library, here `caseTable`. -/
def unicodeToLower (caseTable : Nat → Nat) (r : Nat) : Nat :=
  if r ≤ 0x7F then
    if 0x41 ≤ r ∧ r ≤ 0x5A then r + 0x20 else r
  else caseTable r

/-- Go `strings.ToLower(s)`: every code point of `s` mapped by
`unicode.ToLower` and encoded again; a byte that is not part of a valid
encoding comes out as `RuneError`. -/
def ToLower (caseTable : Nat → Nat) (s : GoString) : GoString :=
  (runes s.length s).flatMap (fun r => EncodeRune (unicodeToLower caseTable r))


/-- Go `strings.ToLower` on the one-byte string `str[:1]` holding the byte `c`:
an ASCII upper-case letter is lowered, any other ASCII byte is kept, and a byte
from 0x80 on is not valid UTF-8 by itself, so `strings.Map` writes the
replacement character U+FFFD (bytes EF BF BD) in its place. -/
def ToLowerByte (c : Nat) : GoString :=
  if c < 0x80 then
    if 0x41 ≤ c ∧ c ≤ 0x5A then [c + 0x20] else [c]
  else [0xEF, 0xBF, 0xBD]

end strings

/-! ## add_field.go -/

/-- AddFieldParams contains parameters for adding a field. -/
structure AddFieldParams where
  Resource : GoString
  FieldName : GoString
  FieldType : GoString
  ProtoPath : GoString
  ParentType : GoString
  Description : GoString
  JSONName : GoString
  deriving Repr, DecidableEq

/-- The function getGoType determines the Go type for a field. -/
def getGoType (fieldType resource fieldName : GoString) : Except GoString GoString :=
  if fieldType = lit "string" then .ok (lit "*string")
  else if fieldType = lit "int64" then .ok (lit "*int64")
  else if fieldType = lit "bool" then .ok (lit "*bool")
  else if fieldType = lit "array" then .ok (lit "[]string")
  else if fieldType = lit "object" then .ok (lit "*" ++ resource ++ lit "_" ++ fieldName)
  else .error (lit "unsupported field type: " ++ fieldType)

/-- The function buildFieldDefinition builds the field definition with annotations. -/
def buildFieldDefinition (fieldName goType jsonName protoPath description : GoString) :
    GoString :=
  let lines : List GoString := []
  let lines := if description ≠ [] then lines ++ [lit "\t// " ++ description] else lines
  let lines := lines ++ [lit "\t// +kcc:proto=" ++ protoPath]
  let lines := lines ++
    [lit "\t" ++ fieldName ++ lit " " ++ goType ++ lit " `json:\"" ++ jsonName ++
      lit ",omitempty\"`"]
  strings.Join lines (lit "\n")

/-- The loop of findInsertionPoint over the remaining lines; `i` is the index of
the first of them, `inStruct` and `lastFieldLine` are the loop variables. -/
def findInsertionPointLoop (marker : GoString) :
    List GoString → Nat → Bool → Int → Int
  | [], _, _, _ => -1
  | line :: rest, i, inStruct, lastFieldLine =>
    if strings.Contains line marker then
      findInsertionPointLoop marker rest (i + 1) true lastFieldLine
    else if inStruct then
      let lastFieldLine :=
        if strings.Contains line (lit "`json:") then (i : Int) else lastFieldLine
      if strings.TrimSpace line = lit "\x7d" then lastFieldLine + 1
      else findInsertionPointLoop marker rest (i + 1) inStruct lastFieldLine
    else findInsertionPointLoop marker rest (i + 1) inStruct lastFieldLine

/-- The opening marker looked for by findInsertionPoint. -/
def structMarker (parentType : GoString) : GoString :=
  lit "type " ++ parentType ++ lit " struct \x7b"

/-- The function findInsertionPoint finds where to insert the new field. -/
def findInsertionPoint (content parentType : GoString) : Int :=
  findInsertionPointLoop (structMarker parentType) (strings.Split content 0x0A) 0 false (-1)

/-- The function toCamelCase converts PascalCase to camelCase. -/
def toCamelCase (str : GoString) : GoString :=
  match str with
  | [] => str
  | c :: rest => strings.ToLowerByte c ++ rest

/-- What a call of AddField does: the `(string, error)` pair it returns and the
data it hands to `os.WriteFile` (`none` when `os.WriteFile` is not called). -/
structure AddFieldOutcome where
  result : Except GoString GoString
  written : Option GoString
  deriving Repr

/-- The JSON name AddField uses (default: camelCase field name). -/
def jsonNameOf (params : AddFieldParams) : GoString :=
  if params.JSONName = [] then toCamelCase params.FieldName else params.JSONName

/-- The target type AddField searches for. -/
def parentTypeOf (params : AddFieldParams) : GoString :=
  if params.ParentType = [] then params.Resource ++ lit "Spec" else params.ParentType

/-- AddField adds a field to a KCC resource types file.  The file at
`filepath.Join(repoPath, typesFile)` is represented by what `os.ReadFile`
returns for it (`readResult`: its content, or the text of the error) and by
what `os.WriteFile` returns (`writeErr`: `none` for success). -/
def AddField (readResult : Except GoString GoString) (writeErr : Option GoString)
    (typesFile : GoString) (params : AddFieldParams) : AddFieldOutcome :=
  match readResult with
  | .error err => ⟨.error (lit "failed to read file: " ++ err), none⟩
  | .ok content =>
    match getGoType params.FieldType params.Resource params.FieldName with
    | .error err => ⟨.error err, none⟩
    | .ok goType =>
      let jsonName := jsonNameOf params
      let fieldDef :=
        buildFieldDefinition params.FieldName goType jsonName params.ProtoPath
          params.Description
      let parentType := parentTypeOf params
      let insertionPoint := findInsertionPoint content parentType
      if insertionPoint = -1 then
        ⟨.error (lit "could not find parent type: " ++ parentType ++
          lit "\n\nMake sure the type exists in " ++ typesFile), none⟩
      else
        let lines := strings.Split content 0x0A
        let newLines : List GoString := []
        let newLines := newLines ++ lines.take insertionPoint.toNat
        let newLines := newLines ++ [fieldDef]
        let newLines := newLines ++ lines.drop insertionPoint.toNat
        let content := strings.Join newLines (lit "\n")
        match writeErr with
        | some err => ⟨.error (lit "failed to write file: " ++ err), some content⟩
        | none =>
          ⟨.ok ([0xC3, 0xA2, 0xC5, 0x93, 0xE2, 0x80, 0xA6] ++ lit " Added field to " ++
            typesFile ++ lit "\n\n" ++ fieldDef), some content⟩

/-! ## detect_controller_type.go, find_resource.go (declarations) -/

/-- ControllerTypeInfo contains information about a resource's controller type. -/
structure ControllerTypeInfo where
  Resource : GoString
  Type_ : GoString
  Location : Option GoString
  MigrationNeeded : Bool
  HasDirectTypes : Bool
  HasTerraformTypes : Bool
  HasProto : Bool
  ProtoLocation : Option GoString
  Service : Option GoString
  Version : Option GoString
  deriving Repr, DecidableEq

/-! ## migration_status.go -/

/-- A Go `map[string]bool`, as the list of its entries. -/
abbrev BoolMap := List (GoString × Bool)

/-- The Go map assignment `m[key] = value`. -/
def BoolMap.set (m : BoolMap) (key : GoString) (value : Bool) : BoolMap :=
  if m.any (fun e => e.1 = key) then
    m.map (fun e => if e.1 = key then (key, value) else e)
  else m ++ [(key, value)]

/-- The Go map read `m[key]` with its presence flag. -/
def BoolMap.get? (m : BoolMap) (key : GoString) : Option Bool :=
  (m.find? (fun e => e.1 = key)).map Prod.snd

/-- PhaseStatus represents the status of a migration phase. -/
structure PhaseStatus where
  Number : Nat
  Name : GoString
  Status : GoString
  FilesExist : BoolMap
  deriving Repr, DecidableEq

/-- MigrationStatus represents the overall migration status. -/
structure MigrationStatus where
  Resource : GoString
  OverallProgress : GoString
  CurrentPhase : PhaseStatus
  Phases : List PhaseStatus
  NextAction : GoString
  CanAddFields : Bool
  deriving Repr, DecidableEq

/-- The local type phaseDefinition of GetMigrationStatus; `files` is the
`map[string]string` literal, as the list of its entries. -/
structure phaseDefinition where
  number : Nat
  name : GoString
  files : List (GoString × GoString)
  deriving Repr, DecidableEq

/-- Go `fmt.Sprintf("%d", n)` for a non-negative `n`. -/
def fmtInt (n : Nat) : GoString := (Nat.toDigits 10 n).map Char.toNat

/-- The protocol-definition path probed by phase 1. -/
def protoLocationOf (info : ControllerTypeInfo) (service : GoString) : GoString :=
  match info.ProtoLocation with
  | some loc => loc
  | none => lit "mockgcp/third_party/googleapis/google/cloud/" ++ service ++ lit "/v1/*.proto"

/-- The expected files for each phase (the slice literal `phases`). -/
def phases (protoLocation service version resourceLower : GoString) : List phaseDefinition :=
  [ { number := 1, name := lit "Proto Definitions",
      files := [(lit "proto", protoLocation)] },
    { number := 2, name := lit "API Types",
      files := [(lit "types",
        lit "apis/" ++ service ++ lit "/" ++ version ++ lit "/" ++ resourceLower ++
          lit "_types.go")] },
    { number := 3, name := lit "Identity Handler",
      files := [(lit "identity",
        lit "apis/" ++ service ++ lit "/" ++ version ++ lit "/" ++ resourceLower ++
          lit "_identity.go")] },
    { number := 4, name := lit "Mapper",
      files := [(lit "mapper",
        lit "pkg/controller/direct/" ++ service ++ lit "/mapper.generated.go")] },
    { number := 5, name := lit "Controller",
      files := [(lit "controller",
        lit "pkg/controller/direct/" ++ service ++ lit "/" ++ resourceLower ++
          lit "_controller.go")] },
    { number := 6, name := lit "MockGCP",
      files := [(lit "mockgcp",
        lit "mockgcp/mock" ++ service ++ lit "/" ++ resourceLower ++ lit ".go")] },
    { number := 7, name := lit "Test Fixtures",
      files := [
        (lit "create_yaml",
          lit "pkg/test/resourcefixture/testdata/basic/" ++ service ++ lit "/" ++ version ++
            lit "/" ++ resourceLower ++ lit "/create.yaml"),
        (lit "update_yaml",
          lit "pkg/test/resourcefixture/testdata/basic/" ++ service ++ lit "/" ++ version ++
            lit "/" ++ resourceLower ++ lit "/update.yaml")] } ]

/-- The loop variables of the inner loop over `phase.files`. -/
structure probeState where
  filesExist : BoolMap
  allExist : Bool
  someExist : Bool

/-- One pass of the inner loop of GetMigrationStatus over `phase.files`.
The oracle `fileExists` answers for a repository-relative path `p` what
`fileExists(filepath.Join(repoPath, p))` returns. -/
def probeFiles (fileExists : GoString → Bool) (files : List (GoString × GoString)) :
    probeState :=
  files.foldl
    (fun st kv =>
      let exists_ := fileExists kv.2
      { filesExist := st.filesExist.set kv.1 exists_,
        someExist := if exists_ then true else st.someExist,
        allExist := if !exists_ then false else st.allExist })
    { filesExist := [], allExist := true, someExist := false }

/-- The body of the outer loop of GetMigrationStatus: the status of one phase. -/
def phaseStatusOf (fileExists : GoString → Bool) (phase : phaseDefinition) : PhaseStatus :=
  let st := probeFiles fileExists phase.files
  let status :=
    if st.allExist then lit "completed"
    else if st.someExist then lit "in_progress"
    else lit "not_started"
  { Number := phase.number, Name := phase.name, Status := status,
    FilesExist := st.filesExist }

/-- The current phase: the first that is not completed, else the last one. -/
def currentPhaseOf (phasesStatus : List PhaseStatus) : PhaseStatus :=
  match phasesStatus.find? (fun p => p.Status ≠ lit "completed") with
  | some p => p
  | none => phasesStatus.getLastD { Number := 0, Name := [], Status := [], FilesExist := [] }

/-- The count of completed phases. -/
def completedCount (phasesStatus : List PhaseStatus) : Nat :=
  phasesStatus.foldl (fun completed p =>
    if p.Status = lit "completed" then completed + 1 else completed) 0

/-- The next action recommended for the current phase. -/
def nextActionOf (currentPhase : PhaseStatus) : GoString :=
  if currentPhase.Status = lit "not_started" then
    match currentPhase.Number with
    | 1 => lit "Check proto definitions exist in mockgcp/third_party/googleapis"
    | 2 => lit "Use kcc_scaffold_types to create API types file"
    | 3 => lit "Use kcc_scaffold_identity to create identity handler"
    | 4 => lit "Run kcc_generate_mapper to generate mapper functions"
    | 5 => lit "Use kcc_scaffold_controller to create controller"
    | 6 => lit "Use kcc_scaffold_mockgcp to create MockGCP implementation"
    | 7 => lit "Create test fixtures (create.yaml and update.yaml)"
    | _ => []
  else if currentPhase.Status = lit "in_progress" then
    lit "Complete phase " ++ fmtInt currentPhase.Number ++ lit ": " ++ currentPhase.Name
  else []

/-- GetMigrationStatus checks the migration status for a resource.
`detect` is what `DetectControllerType(repoPath, resource)` returns,
`fileExists` the existence of a repository-relative path, and `caseTable`
the Unicode case table `strings.ToLower` reads. -/
def GetMigrationStatus (caseTable : Nat → Nat)
    (detect : Except GoString ControllerTypeInfo) (fileExists : GoString → Bool)
    (resource : GoString) : Except GoString MigrationStatus :=
  match detect with
  | .error err => .error err
  | .ok info =>
    if info.Type_ = lit "direct" then
      .ok { Resource := resource,
            OverallProgress := lit "Migration complete",
            CurrentPhase :=
              { Number := 7, Name := lit "Complete", Status := lit "completed",
                FilesExist := [] },
            Phases := [],
            NextAction := lit "Migration complete. Use kcc_add_field to add new fields.",
            CanAddFields := true }
    else
      match info.Service, info.Version with
      | some service, some version =>
        let resourceLower := strings.ToLower caseTable resource
        let protoLocation := protoLocationOf info service
        let phasesStatus :=
          (phases protoLocation service version resourceLower).map (phaseStatusOf fileExists)
        let currentPhase := currentPhaseOf phasesStatus
        let completed := completedCount phasesStatus
        let total := phasesStatus.length
        .ok { Resource := resource,
              OverallProgress := fmtInt completed ++ lit "/" ++ fmtInt total ++ lit " phases",
              CurrentPhase := currentPhase,
              Phases := phasesStatus,
              NextAction := nextActionOf currentPhase,
              CanAddFields := decide (completed ≥ 4) }
      | _, _ =>
        .error (lit "could not determine service/version for " ++ resource)

/-! ## Library functions used by the classifier, the locator and the planner -/

/-- Go `strings.HasSuffix(s, suffix)`. -/
def strings.HasSuffix (s suffix : GoString) : Bool :=
  strings.HasPrefix s.reverse suffix.reverse

/-- Go `strings.TrimSuffix(s, suffix)`. -/
def strings.TrimSuffix (s suffix : GoString) : GoString :=
  if strings.HasSuffix s suffix then s.take (s.length - suffix.length) else s

namespace filepath

/-- One step of Go `filepath.Clean` on a slash-separated path: `out` holds the
elements written so far, last one first.  An empty element and `.` are
dropped; `..` removes the last element written, unless there is none or it is
itself `..`, in which case `..` is written when the path is not rooted. -/
def cleanStep (rooted : Bool) (out : List GoString) (elem : GoString) : List GoString :=
  if elem = [] then out
  else if elem = lit "." then out
  else if elem = lit ".." then
    match out with
    | [] => if rooted then out else [elem]
    | top :: below => if top = lit ".." then elem :: out else below
  else elem :: out

/-- Go `filepath.Clean(path)` for slash-separated paths. -/
def Clean (path : GoString) : GoString :=
  if path = [] then lit "."
  else
    let rooted := strings.HasPrefix path (lit "/")
    let out := ((strings.Split path 0x2F).foldl (cleanStep rooted) []).reverse
    if rooted then lit "/" ++ strings.Join out (lit "/")
    else if out = [] then lit "."
    else strings.Join out (lit "/")

/-- Go `filepath.Join(elem...)`: the elements from the first non-empty one on,
joined by slashes and cleaned; the empty string when all are empty. -/
def Join (elem : List GoString) : GoString :=
  match elem.dropWhile (fun e => decide (e = [])) with
  | [] => []
  | rest => Clean (strings.Join rest (lit "/"))

end filepath

/-- What a Go call returns or does: a value, an error, or a run-time panic. -/
inductive GoResult (α : Type) where
  | ok (val : α)
  | error (msg : GoString)
  | panic (msg : GoString)
  deriving Repr, DecidableEq

/-- The text of the run-time panic raised by dereferencing a nil pointer. -/
def nilDereference : GoString :=
  lit "runtime error: invalid memory address or nil pointer dereference"

/-- What `exec.Command("sh", "-c", cmd)` with `Dir = repoPath` gives through
`Output()`: the standard output of the command, or the text of the error. -/
abbrev Shell := GoString → Except GoString GoString

/-- A Go `map[string]string`, as the list of its entries. -/
abbrev StrMap := List (GoString × GoString)

/-- The Go map read `m[key]`: the empty string when the key is absent. -/
def StrMap.get (m : StrMap) (key : GoString) : GoString :=
  ((m.find? (fun e => e.1 = key)).map Prod.snd).getD []

/-- The value a call returned, when it returned one. -/
def GoResult.toOption {α : Type} : GoResult α → Option α
  | .ok val => some val
  | _ => none

/-! ## find_resource.go -/

/-- ResourceLocation represents the location of KCC resource files. -/
structure ResourceLocation where
  Resource : GoString
  Service : GoString
  Version : GoString
  TypesFile : GoString
  ControllerFile : GoString
  MapperFile : GoString
  TestFixturesDir : GoString
  FilesExist : BoolMap
  deriving Repr, DecidableEq

/-- The function removeEmpty removes empty strings from a slice. -/
def removeEmpty (strs : List GoString) : List GoString :=
  strs.filter (fun s => decide (s ≠ []))

/-- The matches read from the output of a `find` command:
`removeEmpty(strings.Split(strings.TrimSpace(string(output)), "\n"))`. -/
def parseMatches (output : GoString) : List GoString :=
  removeEmpty (strings.Split (strings.TrimSpace output) 0x0A)

/-- The command FindResource runs to find the types file. -/
def findCmd (resourceLower : GoString) : GoString :=
  lit "find apis/ -name \"*" ++ resourceLower ++ lit "*types.go\" 2>/dev/null || true"

/-- FindResource locates files for a KCC resource.  The shell `sh` runs in the
repository root and `fileExists` answers for a repository-relative path `p`
what `fileExists(filepath.Join(repoPath, p))` returns. -/
def FindResource (caseTable : Nat → Nat) (sh : Shell) (fileExists : GoString → Bool)
    (resource : GoString) : Except GoString ResourceLocation :=
  let resourceLower := strings.ToLower caseTable resource
  match sh (findCmd resourceLower) with
  | .error err => .error (lit "failed to search for types file: " ++ err)
  | .ok output =>
    let typesFiles := parseMatches output
    match typesFiles with
    | [] =>
      .error (lit "Resource not found: " ++ resource ++ lit "\n\nSearched for: apis/**/*" ++
        resourceLower ++
        lit "*types.go\n\nMake sure the resource exists and has a direct controller.")
    | typesFile :: _ =>
      let pathParts := strings.Split typesFile 0x2F
      if pathParts.length < 4 then
        .error (lit "unexpected types file path format: " ++ typesFile)
      else
        let service := pathParts.getD 1 []
        let version := pathParts.getD 2 []
        let resourceName := strings.TrimSuffix (pathParts.getD 3 []) (lit "_types.go")
        let controllerFile :=
          filepath.Join [lit "pkg", lit "controller", lit "direct", service,
            resourceName ++ lit "_controller.go"]
        let mapperFile :=
          filepath.Join [lit "pkg", lit "controller", lit "direct", service,
            lit "mapper.generated.go"]
        let testFixturesDir :=
          filepath.Join [lit "pkg", lit "test", lit "resourcefixture", lit "testdata",
            lit "basic", service, version, resourceName]
        let filesExist : BoolMap :=
          [(lit "types", fileExists typesFile),
           (lit "controller", fileExists controllerFile),
           (lit "mapper", fileExists mapperFile),
           (lit "test_fixtures", fileExists testFixturesDir)]
        .ok { Resource := resourceName, Service := service, Version := version,
              TypesFile := typesFile, ControllerFile := controllerFile,
              MapperFile := mapperFile, TestFixturesDir := testFixturesDir,
              FilesExist := filesExist }

/-! ## detect_controller_type.go -/

/-- The command that searches the direct tree. -/
def directTypesCmd (resourceLower : GoString) : GoString :=
  lit "find apis/ -name \"*" ++ resourceLower ++ lit "*_types.go\" 2>/dev/null || true"

/-- The command that searches the legacy tree. -/
def tfTypesCmd (resourceLower : GoString) : GoString :=
  lit "find pkg/clients/generated/ -name \"*" ++ resourceLower ++
    lit "*types.go\" 2>/dev/null || true"

/-- The command that searches the protocol definitions of a service. -/
def protoCmd (service : GoString) : GoString :=
  lit "find mockgcp/third_party/googleapis -path \"*/" ++ service ++
    lit "/*\" -name \"*.proto\" 2>/dev/null | head -5 || true"

/-- Service and version read from a location: the segments `i` and `j` of the
slash-separated path when it has at least `n` segments, else both unset. -/
def serviceVersion (location : GoString) (n i j : Nat) :
    Option GoString × Option GoString :=
  let parts := strings.Split location 0x2F
  if parts.length ≥ n then (some (parts.getD i []), some (parts.getD j []))
  else (none, none)

/-- The check for proto definitions: `hasProto` and `protoLocation`. -/
def probeProto (sh : Shell) (service : Option GoString) : Bool × Option GoString :=
  match service with
  | none => (false, none)
  | some svc =>
    match sh (protoCmd svc) with
    | .error _ => (false, none)
    | .ok protoOutput =>
      match parseMatches protoOutput with
      | [] => (false, none)
      | first :: _ => (true, some first)

/-- DetectControllerType detects if a resource uses direct controller or
Terraform.  The shell `sh` runs in the repository root. -/
def DetectControllerType (caseTable : Nat → Nat) (sh : Shell) (resource : GoString) :
    Except GoString ControllerTypeInfo :=
  let resourceLower := strings.ToLower caseTable resource
  match sh (directTypesCmd resourceLower) with
  | .error err => .error (lit "failed to search for direct types: " ++ err)
  | .ok directOutput =>
    let directTypesFiles := parseMatches directOutput
    match sh (tfTypesCmd resourceLower) with
    | .error err => .error (lit "failed to search for terraform types: " ++ err)
    | .ok tfOutput =>
      let tfTypesFiles := parseMatches tfOutput
      let hasDirectTypes := decide (directTypesFiles.length > 0)
      let hasTerraformTypes := decide (tfTypesFiles.length > 0)
      let found : GoString × Option GoString × Option GoString × Option GoString :=
        match directTypesFiles, tfTypesFiles with
        | location :: _, _ =>
          (lit "direct", some location, (serviceVersion location 4 1 2).1,
            (serviceVersion location 4 1 2).2)
        | [], location :: _ =>
          (lit "terraform", some location, (serviceVersion location 6 4 5).1,
            (serviceVersion location 6 4 5).2)
        | [], [] => (lit "unknown", none, none, none)
      let controllerType := found.1
      let location := found.2.1
      let service := found.2.2.1
      let version := found.2.2.2
      let proto := probeProto sh service
      .ok { Resource := resource,
            Type_ := controllerType,
            Location := location,
            MigrationNeeded := decide (controllerType = lit "terraform"),
            HasDirectTypes := hasDirectTypes,
            HasTerraformTypes := hasTerraformTypes,
            HasProto := proto.1,
            ProtoLocation := proto.2,
            Service := service,
            Version := version }

/-! ## plan_migration.go -/

/-- MigrationPhase represents a single phase in the migration. -/
structure MigrationPhase where
  Phase : Nat
  Name : GoString
  Description : GoString
  Tasks : List GoString
  EstimatedTime : GoString
  deriving Repr, DecidableEq

/-- ProtoInfo contains proto package information. -/
structure ProtoInfo where
  Service : GoString
  Version : GoString
  ProtoPackage : GoString
  ProtoMessage : GoString
  deriving Repr, DecidableEq

/-- MigrationPlan represents the complete migration plan. -/
structure MigrationPlan where
  Resource : GoString
  CurrentType : GoString
  NeedsMigration : Bool
  Phases : List MigrationPhase
  TargetFiles : StrMap
  ProtoInfo : Option ProtoInfo
  NextAction : GoString
  deriving Repr, DecidableEq

/-- The map literal `targetFiles` of PlanMigration. -/
def targetFilesOf (service version resourceLower : GoString) : StrMap :=
  [ (lit "types_file",
      lit "apis/" ++ service ++ lit "/" ++ version ++ lit "/" ++ resourceLower ++
        lit "_types.go"),
    (lit "identity_file",
      lit "apis/" ++ service ++ lit "/" ++ version ++ lit "/" ++ resourceLower ++
        lit "_identity.go"),
    (lit "controller_file",
      lit "pkg/controller/direct/" ++ service ++ lit "/" ++ resourceLower ++
        lit "_controller.go"),
    (lit "mapper_file",
      lit "pkg/controller/direct/" ++ service ++ lit "/mapper.generated.go"),
    (lit "mockgcp_file",
      lit "mockgcp/mock" ++ service ++ lit "/" ++ resourceLower ++ lit ".go"),
    (lit "test_fixtures_dir",
      lit "pkg/test/resourcefixture/testdata/basic/" ++ service ++ lit "/" ++ version ++
        lit "/" ++ resourceLower) ]

/-- The first task of phase 1. -/
def protoTaskOf (info : ControllerTypeInfo) : GoString :=
  match info.HasProto, info.ProtoLocation with
  | true, some loc => lit "✅ Proto exists at " ++ loc
  | _, _ => lit "⚠️  Check if proto exists in mockgcp/third_party/googleapis"

/-- The slice literal `phases` of PlanMigration. -/
def planPhases (resource protoTask : GoString) (targetFiles : StrMap) :
    List MigrationPhase :=
  [ { Phase := 1, Name := lit "Proto Definitions",
      Description := lit "Ensure proto definitions exist for the resource",
      Tasks := [protoTask, lit "Identify proto package and message name",
        lit "Note any custom fields needed"],
      EstimatedTime := lit "1-2 hours" },
    { Phase := 2, Name := lit "API Types (KRM)",
      Description := lit "Create Kubernetes resource model types",
      Tasks := [lit "Create " ++ targetFiles.get (lit "types_file"),
        lit "Define Spec struct with all fields",
        lit "Add +kcc:proto= annotations for each field",
        lit "Define nested types if needed",
        lit "Follow naming conventions (PascalCase)"],
      EstimatedTime := lit "4-6 hours" },
    { Phase := 3, Name := lit "Identity Handler",
      Description := lit "Create resource name parsing and construction",
      Tasks := [lit "Create " ++ targetFiles.get (lit "identity_file"),
        lit "Implement resource name format (e.g., projects/\x7bproject\x7d/...)",
        lit "Add parent identity handling",
        lit "Implement String() method"],
      EstimatedTime := lit "2-3 hours" },
    { Phase := 4, Name := lit "Mapper Generation",
      Description := lit "Generate KRM ↔ Proto conversion functions",
      Tasks := [lit "Run ./dev/tasks/generate-mapper " ++ resource,
        lit "Verify " ++ targetFiles.get (lit "mapper_file") ++ lit " updated",
        lit "Check for any mapper errors"],
      EstimatedTime := lit "30 minutes" },
    { Phase := 5, Name := lit "Controller Implementation",
      Description := lit "Implement CRUD operations",
      Tasks := [lit "Create " ++ targetFiles.get (lit "controller_file"),
        lit "Implement Find() method",
        lit "Implement Create() method",
        lit "Implement Update() method with field mask",
        lit "Implement Delete() method",
        lit "Implement Export() method",
        lit "Add reference resolution (if needed)"],
      EstimatedTime := lit "6-8 hours" },
    { Phase := 6, Name := lit "MockGCP Implementation",
      Description := lit "Create mock GCP server for testing",
      Tasks := [lit "Create " ++ targetFiles.get (lit "mockgcp_file"),
        lit "Implement Get method",
        lit "Implement List method",
        lit "Implement Create method with LRO",
        lit "Implement Update method with LRO",
        lit "Implement Delete method with LRO",
        lit "Add resource name parsing"],
      EstimatedTime := lit "4-6 hours" },
    { Phase := 7, Name := lit "Test Fixtures",
      Description := lit "Create test cases",
      Tasks := [lit "Create " ++ targetFiles.get (lit "test_fixtures_dir") ++ lit "/",
        lit "Create create.yaml with initial resource",
        lit "Create update.yaml with changed fields",
        lit "Add _http.log for HTTP golden files",
        lit "Run tests and update golden files"],
      EstimatedTime := lit "2-3 hours" } ]

/-- The version written into ProtoInfo. -/
def protoVersionOf (version : GoString) : GoString :=
  if version = lit "v1alpha1" ∨ version = lit "v1beta1" then lit "v1" else version

/-- PlanMigration creates a detailed migration plan for a resource.  `detect`
is what `DetectControllerType(repoPath, resource)` returns; dereferencing
`info.Location` when it is nil is a run-time panic. -/
def PlanMigration (caseTable : Nat → Nat) (detect : Except GoString ControllerTypeInfo)
    (resource : GoString) : GoResult MigrationPlan :=
  match detect with
  | .error err => .error err
  | .ok info =>
    if !info.MigrationNeeded then
      match info.Location with
      | none => .panic nilDereference
      | some location =>
        .error (resource ++ lit " is already a direct controller at " ++ location ++
          lit ".\nNo migration needed. Use kcc_add_field to add fields.")
    else
      match info.Service, info.Version with
      | some service, some version =>
        let resourceLower := strings.ToLower caseTable resource
        let targetFiles := targetFilesOf service version resourceLower
        let protoTask := protoTaskOf info
        let phases := planPhases resource protoTask targetFiles
        let protoInfo : ProtoInfo :=
          { Service := service,
            Version := protoVersionOf version,
            ProtoPackage := lit "google.cloud." ++ service ++ lit ".v1",
            ProtoMessage := resource }
        let nextAction :=
          if info.HasProto then
            lit "Start with Phase 2: Create API types using kcc_scaffold_types"
          else lit "Check Phase 1: Verify proto definitions exist"
        .ok { Resource := resource,
              CurrentType := info.Type_,
              NeedsMigration := true,
              Phases := phases,
              TargetFiles := targetFiles,
              ProtoInfo := some protoInfo,
              NextAction := nextAction }
      | _, _ =>
        match info.Location with
        | none => .panic nilDereference
        | some location =>
          .error (lit "could not determine service/version for " ++ resource ++
            lit ".\nFound at: " ++ location)

/-! ## config.go (declarations) -/

/-- KCCConfig represents the configuration for the KCC MCP Server; the fields
of its nested structs `Git` and `Rules` are listed directly. -/
structure KCCConfig where
  AuthorName : GoString
  AuthorEmail : GoString
  KCCRepoPath : GoString
  BlockAIAttribution : Bool
  RequireConventionalCommits : Bool
  deriving Repr, DecidableEq

/-! ## git_validator.go -/

/-- The slice literal `bannedTerms` of ValidateCommitMessage. -/
def bannedTerms : List GoString :=
  [lit "claude",
   lit "anthropic",
   lit "gemini",
   lit "openai",
   lit "gpt",
   lit "chatgpt",
   lit "co-authored-by: claude",
   lit "co-authored-by: gemini",
   lit "co-authored-by: chatgpt",
   lit "noreply@anthropic.com",
   lit "noreply@openai.com",
   lit "🤖 generated",
   lit "ai-generated",
   lit "generated with claude",
   lit "generated with gemini"]

/-- The error text of ValidateCommitMessage for a term. -/
def blockedError (term : GoString) : GoString :=
  lit "❌ BLOCKED: Commit message contains \x27" ++ term ++
    lit "\x27\n\nAI attribution is not allowed in k8s-config-connector contributions.\nRemove all references to AI tools from commit messages.\n\nThis rule is enforced for ALL contributors."

/-- The loop of ValidateCommitMessage over a list of terms: the error for the
first term the lower-cased message contains, `none` (the nil error) when there
is no such term. -/
def checkTerms (terms : List GoString) (lowerMessage : GoString) : Option GoString :=
  match terms with
  | [] => none
  | term :: rest =>
    if strings.Contains lowerMessage term then some (blockedError term)
    else checkTerms rest lowerMessage

/-- ValidateCommitMessage validates that commit messages do not contain AI
attribution; the result is the error, `none` for nil. -/
def ValidateCommitMessage (caseTable : Nat → Nat) (cfg : KCCConfig) (message : GoString) :
    Option GoString :=
  if !cfg.BlockAIAttribution then none
  else
    let lowerMessage := strings.ToLower caseTable message
    checkTerms bannedTerms lowerMessage

/-- ValidateConventionalCommit validates conventional commit format.  The
compiled regular expression is represented by its `MatchString`,
`conventionalPattern`. -/
def ValidateConventionalCommit (conventionalPattern : GoString → Bool) (cfg : KCCConfig)
    (message : GoString) : Option GoString :=
  if !cfg.RequireConventionalCommits then none
  else if !conventionalPattern message then
    let firstLine := (strings.Split message 0x0A).headD []
    some (lit "⚠️  Commit message does not follow conventional commit format.\n\nExpected format: <type>(<scope>): <description>\n\nTypes: feat, fix, docs, style, refactor, perf, test, chore\nExample: \"feat: Add defaultCustomErrorResponsePolicy to ComputeURLMap\"\n\nYour message: \"" ++
      firstLine ++ lit "\"")
  else none

/-- What `exec.Command("git", args...)` with `Dir = repoPath` gives: the
standard output, or the text of the error. -/
abbrev Git := List GoString → Except GoString GoString

/-- A git command that was run: its arguments and the variables added to its
environment. -/
structure GitCall where
  args : List GoString
  env : List GoString
  deriving Repr, DecidableEq

/-- ValidateGitConfig validates git config matches expected author: the error
and the git commands run. -/
def ValidateGitConfig (cfg : KCCConfig) (git : Git) (repoPath : GoString) :
    Option GoString × List GitCall :=
  let authorName := cfg.AuthorName
  let authorEmail := cfg.AuthorEmail
  let emailCall : GitCall := { args := [lit "config", lit "user.email"], env := [] }
  match git [lit "config", lit "user.email"] with
  | .error err => (some (lit "failed to check git config: " ++ err), [emailCall])
  | .ok currentEmailBytes =>
    let currentEmail := strings.TrimSpace currentEmailBytes
    let nameCall : GitCall := { args := [lit "config", lit "user.name"], env := [] }
    match git [lit "config", lit "user.name"] with
    | .error err =>
      (some (lit "failed to check git config: " ++ err), [emailCall, nameCall])
    | .ok currentNameBytes =>
      let currentName := strings.TrimSpace currentNameBytes
      if currentEmail ≠ authorEmail ∨ currentName ≠ authorName then
        (some (lit "⚠️  Git config mismatch!\n\nCurrent in repository: " ++ currentName ++
          lit " <" ++ currentEmail ++ lit ">\nExpected from config: " ++ authorName ++
          lit " <" ++ authorEmail ++ lit ">\n\nRun in " ++ repoPath ++
          lit ":\n  git config user.email \"" ++ authorEmail ++
          lit "\"\n  git config user.name \"" ++ authorName ++ lit "\""),
          [emailCall, nameCall])
      else (none, [emailCall, nameCall])

/-- The loop of CreateCommit that stages the given files, one `git add` each,
stopping at the first failure. -/
def stageFiles (git : Git) : List GoString → Option GoString × List GitCall
  | [] => (none, [])
  | file :: rest =>
    let call : GitCall := { args := [lit "add", file], env := [] }
    match git [lit "add", file] with
    | .error err =>
      (some (lit "failed to stage file " ++ file ++ lit ": " ++ err), [call])
    | .ok _ =>
      let r := stageFiles git rest
      (r.1, call :: r.2)

/-- CreateCommit creates a commit with validated identity: the error it
returns (`none` for nil) and the git commands it ran, in order. -/
def CreateCommit (caseTable : Nat → Nat) (conventionalPattern : GoString → Bool)
    (cfg : KCCConfig) (git : Git) (repoPath message : GoString) (files : List GoString) :
    Option GoString × List GitCall :=
  match ValidateCommitMessage caseTable cfg message with
  | some err => (some err, [])
  | none =>
    match ValidateConventionalCommit conventionalPattern cfg message with
    | some err => (some err, [])
    | none =>
      match ValidateGitConfig cfg git repoPath with
      | (some err, calls) => (some err, calls)
      | (none, calls) =>
        let staged : Option GoString × List GitCall :=
          if files.length > 0 then stageFiles git files
          else
            let call : GitCall := { args := [lit "add", lit "-A"], env := [] }
            match git [lit "add", lit "-A"] with
            | .error err => (some (lit "failed to stage changes: " ++ err), [call])
            | .ok _ => (none, [call])
        match staged with
        | (some err, stageCalls) => (some err, calls ++ stageCalls)
        | (none, stageCalls) =>
          let authorName := cfg.AuthorName
          let authorEmail := cfg.AuthorEmail
          let commit : GitCall :=
            { args := [lit "commit", lit "-m", message],
              env := [lit "GIT_AUTHOR_NAME=" ++ authorName,
                      lit "GIT_AUTHOR_EMAIL=" ++ authorEmail,
                      lit "GIT_COMMITTER_NAME=" ++ authorName,
                      lit "GIT_COMMITTER_EMAIL=" ++ authorEmail] }
          match git [lit "commit", lit "-m", message] with
          | .error err =>
            (some (lit "failed to create commit: " ++ err), calls ++ stageCalls ++ [commit])
          | .ok _ => (none, calls ++ stageCalls ++ [commit])

/-! ## scaffold_types.go, scaffold_identity.go, scaffold_controller.go, scaffold_mockgcp.go -/

/-- Go `filepath.Dir(path)` for slash-separated paths: the path up to its last
separator, cleaned. -/
def filepath.Dir (path : GoString) : GoString :=
  let n := (strings.Split path 0x2F).getLastD [] |>.length
  filepath.Clean (path.take (path.length - n))

/-- A call a scaffold function makes to change the file system. -/
inductive FsOp where
  | mkdirAll (path : GoString)
  | writeFile (path content : GoString)
  deriving Repr, DecidableEq

/-- What a call of a scaffold function does: the `(string, error)` pair it
returns and its calls of `os.MkdirAll` and `os.WriteFile`, in order. -/
structure ScaffoldOutcome where
  result : Except GoString GoString
  ops : List FsOp
  deriving Repr

/-- The common part of the four scaffold functions after the target path is
computed: refuse an existing target, else create the directory and write the
content.  `stat` answers `fileExists` for a full path; `mkdirErr` and
`writeErr` are what `os.MkdirAll` and `os.WriteFile` return (`none` for
success). -/
def scaffoldFile (stat : GoString → Bool) (mkdirErr writeErr : Option GoString)
    (targetPath existsError content success : GoString) : ScaffoldOutcome :=
  if stat targetPath then ⟨.error existsError, []⟩
  else
    match mkdirErr with
    | some err =>
      ⟨.error (lit "failed to create directory: " ++ err),
        [FsOp.mkdirAll (filepath.Dir targetPath)]⟩
    | none =>
      match writeErr with
      | some err =>
        ⟨.error (lit "failed to write file: " ++ err),
          [FsOp.mkdirAll (filepath.Dir targetPath), FsOp.writeFile targetPath content]⟩
      | none =>
        ⟨.ok success,
          [FsOp.mkdirAll (filepath.Dir targetPath), FsOp.writeFile targetPath content]⟩

/-- ScaffoldTypesParams contains parameters for scaffolding types. -/
structure ScaffoldTypesParams where
  Resource : GoString
  Service : GoString
  Version : GoString
  ProtoPackage : GoString
  ProtoMessage : GoString
  Description : GoString
  deriving Repr, DecidableEq

/-- ScaffoldTypes generates API types file.  The boilerplate text of the file,
`generateTypesTemplate(params)`, which carries the current year, is taken as
the parameter `generateTypesTemplate`. -/
def ScaffoldTypes (caseTable : Nat → Nat)
    (generateTypesTemplate : ScaffoldTypesParams → GoString) (stat : GoString → Bool)
    (mkdirErr writeErr : Option GoString) (repoPath : GoString)
    (params : ScaffoldTypesParams) : ScaffoldOutcome :=
  let resourceLower := strings.ToLower caseTable params.Resource
  let targetPath :=
    filepath.Join [repoPath, lit "apis", params.Service, params.Version,
      resourceLower ++ lit "_types.go"]
  scaffoldFile stat mkdirErr writeErr targetPath
    (lit "types file already exists: " ++ targetPath ++
      lit "\nUse kcc_add_field to add fields to existing types")
    (generateTypesTemplate params)
    (lit "✅ Created types file: apis/" ++ params.Service ++ lit "/" ++ params.Version ++
      lit "/" ++ resourceLower ++
      lit "_types.go\n\nNext steps:\n1. Fill in the Spec fields with proper +kcc:proto= annotations\n2. Add nested types if needed\n3. Run: ./dev/tasks/generate-mapper " ++
      params.Resource ++
      lit "\n4. Use: kcc_scaffold_identity to create identity handler")

/-- ScaffoldIdentityParams contains parameters for scaffolding identity handler. -/
structure ScaffoldIdentityParams where
  Resource : GoString
  Service : GoString
  Version : GoString
  ResourceNameFormat : GoString
  deriving Repr, DecidableEq

/-- ScaffoldIdentity generates identity handler file.  The boilerplate text
`generateIdentityTemplate(params)` is taken as a parameter. -/
def ScaffoldIdentity (caseTable : Nat → Nat)
    (generateIdentityTemplate : ScaffoldIdentityParams → GoString) (stat : GoString → Bool)
    (mkdirErr writeErr : Option GoString) (repoPath : GoString)
    (params : ScaffoldIdentityParams) : ScaffoldOutcome :=
  let resourceLower := strings.ToLower caseTable params.Resource
  let targetPath :=
    filepath.Join [repoPath, lit "apis", params.Service, params.Version,
      resourceLower ++ lit "_identity.go"]
  scaffoldFile stat mkdirErr writeErr targetPath
    (lit "identity file already exists: " ++ targetPath)
    (generateIdentityTemplate params)
    (lit "✅ Created identity file: apis/" ++ params.Service ++ lit "/" ++ params.Version ++
      lit "/" ++ resourceLower ++
      lit "_identity.go\n\nNext steps:\n1. Verify resource name format matches GCP API\n2. Adjust parsing logic if needed\n3. Use: kcc_scaffold_controller to create controller")

/-- ScaffoldControllerParams contains parameters for scaffolding controller. -/
structure ScaffoldControllerParams where
  Resource : GoString
  Service : GoString
  Version : GoString
  ProtoPackage : GoString
  ProtoMessage : GoString
  deriving Repr, DecidableEq

/-- ScaffoldController generates controller file.  The boilerplate text
`generateControllerTemplate(params)` is taken as a parameter. -/
def ScaffoldController (caseTable : Nat → Nat)
    (generateControllerTemplate : ScaffoldControllerParams → GoString)
    (stat : GoString → Bool) (mkdirErr writeErr : Option GoString) (repoPath : GoString)
    (params : ScaffoldControllerParams) : ScaffoldOutcome :=
  let resourceLower := strings.ToLower caseTable params.Resource
  let targetPath :=
    filepath.Join [repoPath, lit "pkg", lit "controller", lit "direct", params.Service,
      resourceLower ++ lit "_controller.go"]
  scaffoldFile stat mkdirErr writeErr targetPath
    (lit "controller file already exists: " ++ targetPath)
    (generateControllerTemplate params)
    (lit "✅ Created controller file: pkg/controller/direct/" ++ params.Service ++ lit "/" ++
      resourceLower ++
      lit "_controller.go\n\nNext steps:\n1. Implement GCP API calls in Find, Create, Update, Delete methods\n2. Add field mask logic for Update\n3. Implement reference resolution if needed\n4. Use: kcc_scaffold_mockgcp to create MockGCP implementation")

/-- ScaffoldMockGCPParams contains parameters for scaffolding MockGCP. -/
structure ScaffoldMockGCPParams where
  Resource : GoString
  Service : GoString
  ProtoPackage : GoString
  ProtoMessage : GoString
  ResourceNameFormat : GoString
  deriving Repr, DecidableEq

/-- ScaffoldMockGCP generates MockGCP implementation file.  The boilerplate
text `generateMockGCPTemplate(params)` is taken as a parameter. -/
def ScaffoldMockGCP (caseTable : Nat → Nat)
    (generateMockGCPTemplate : ScaffoldMockGCPParams → GoString) (stat : GoString → Bool)
    (mkdirErr writeErr : Option GoString) (repoPath : GoString)
    (params : ScaffoldMockGCPParams) : ScaffoldOutcome :=
  let resourceLower := strings.ToLower caseTable params.Resource
  let targetPath :=
    filepath.Join [repoPath, lit "mockgcp", lit "mock" ++ params.Service,
      resourceLower ++ lit ".go"]
  scaffoldFile stat mkdirErr writeErr targetPath
    (lit "MockGCP file already exists: " ++ targetPath)
    (generateMockGCPTemplate params)
    (lit "✅ Created MockGCP file: mockgcp/mock" ++ params.Service ++ lit "/" ++
      resourceLower ++ lit ".go\n\nNext steps:\n1. Register server in mockgcp/mock" ++
      params.Service ++
      lit "/service.go\n2. Create test fixtures in pkg/test/resourcefixture/testdata/\n3. Run tests with E2E_GCP_TARGET=mock")

/-! ## Notions used to state the properties -/

/-- The byte offset at which line `p` begins in the text whose lines are `lines`. -/
def lineStart (lines : List GoString) (p : Nat) : Nat :=
  ((lines.take p).map (fun l => l.length + 1)).sum

/-- The index of the first line that contains `marker`. -/
def openingLine (lines : List GoString) (marker : GoString) : Option Nat :=
  let o := lines.findIdx (fun l => strings.Contains l marker)
  if o < lines.length then some o else none

/-- The index of the line that closes the struct: the first line after the
opening line that trims to a closing brace. -/
def closingLine (lines : List GoString) (marker : GoString) : Option Nat :=
  match openingLine lines marker with
  | none => none
  | some o =>
    let k := (lines.drop (o + 1)).findIdx (fun l => strings.TrimSpace l = lit "\x7d")
    if o + 1 + k < lines.length then some (o + 1 + k) else none

/-- A field line as the scan tracks it: it carries the serialization-tag marker
and is not itself taken for an opening line. -/
def isFieldLine (marker line : GoString) : Bool :=
  strings.Contains line (lit "`json:") && !strings.Contains line marker

/-- Every element followed by the separator: the text before the first line
of a later part. -/
def strings.joinedPrefix (l : List GoString) (sep : GoString) : GoString :=
  l.flatMap (fun a => a ++ sep)

/-- The bytes that occur in the encoding of a white-space code point. -/
def strings.spaceBytes : List Nat := strings.spaceEncodings.flatten

/-- A path element that `filepath.Clean` keeps as it is: not empty, not `.`
and not `..`. -/
def isPlainElement (e : GoString) : Prop :=
  e ≠ [] ∧ e ≠ lit "." ∧ e ≠ lit ".."

/-- An ASCII upper-case letter lowered, any other byte kept. -/
def asciiLower (c : Nat) : Nat :=
  if 0x41 ≤ c ∧ c ≤ 0x5A then c + 0x20 else c

/-- The seven-entry banned list: `bannedTerms` without the entries that
contain an earlier entry. -/
def reducedTerms : List GoString :=
  [lit "claude", lit "anthropic", lit "gemini", lit "openai", lit "gpt",
   lit "🤖 generated", lit "ai-generated"]

/-- The check of ValidateCommitMessage run over the seven-entry list
`reducedTerms` in place of `bannedTerms`. -/
def ValidateCommitMessageReduced (caseTable : Nat → Nat) (cfg : KCCConfig)
    (message : GoString) : Option GoString :=
  if !cfg.BlockAIAttribution then none
  else checkTerms reducedTerms (strings.ToLower caseTable message)

/-- The base name of a slash-separated path: the text after its last slash. -/
def baseName (path : GoString) : GoString :=
  (strings.Split path 0x2F).getLastD []

/-- A name made only of ASCII letters, digits, `_`, `-` and `.`: it holds no
glob metacharacter of `find -name`, no character the shell reads specially
between double quotes, and no slash. -/
def isPlainName (s : GoString) : Bool :=
  s.all (fun b =>
    decide (0x61 ≤ b ∧ b ≤ 0x7A) || decide (0x41 ≤ b ∧ b ≤ 0x5A) ||
    decide (0x30 ≤ b ∧ b ≤ 0x39) || decide (b = 0x5F) || decide (b = 0x2D) ||
    decide (b = 0x2E))

/-- A text for which `isPlainName` holds.  Pasted between the double quotes of
a search command such a text reaches `find` as written, and in the pattern of
`-name` it stands for itself. -/
structure PlainName where
  val : GoString
  plain : isPlainName val = true

/-- The ending of the pattern in the searches of FindResource and of the
legacy tree. -/
def typesGo : PlainName := ⟨lit "types.go", by decide⟩

/-- The ending of the pattern in the search of the direct tree. -/
def underscoreTypesGo : PlainName := ⟨lit "_types.go", by decide⟩

/-- The test `-name "*<needle>*<ending>"` of the `find` utility on a base name,
for a needle and an ending that are plain names, so that the two stars are the
only metacharacters of the pattern: the base name ends with `ending` and the
part before it contains `needle`.  Bytes are compared as they are, so
upper-case and lower-case letters differ. -/
def nameMatches (needle ending : PlainName) (base : GoString) : Bool :=
  strings.HasSuffix base ending.val &&
    strings.Contains (base.take (base.length - ending.val.length)) needle.val

/-- What `find <root> -name "*<needle>*<ending>"`, run through `sh -c` in the
root of a repository that holds the paths `repo`, prints for plain names: every
path that starts with the start point `root` and whose base name passes the
test, each followed by a line break (the start point is printed as it was
given, as GNU find does). -/
def findOutput (repo : List GoString) (root : GoString) (needle ending : PlainName) :
    GoString :=
  ((repo.filter (fun p =>
      strings.HasPrefix p root && nameMatches needle ending (baseName p))).map
    (fun p => p ++ [0x0A])).flatten

/-- The text of the error of FindResource when nothing is found. -/
def notFoundError (resource resourceLower : GoString) : GoString :=
  lit "Resource not found: " ++ resource ++ lit "\n\nSearched for: apis/**/*" ++
    resourceLower ++
    lit "*types.go\n\nMake sure the resource exists and has a direct controller."

/-- A parameter set in which no text holds a line break. -/
def newlineFree (params : AddFieldParams) : Prop :=
  0x0A ∉ params.Resource ∧ 0x0A ∉ params.FieldName ∧ 0x0A ∉ params.FieldType ∧
  0x0A ∉ params.ProtoPath ∧ 0x0A ∉ params.ParentType ∧ 0x0A ∉ params.Description ∧
  0x0A ∉ params.JSONName

/-- The lines buildFieldDefinition joins: the comment with the description when
there is one, the annotation and the field. -/
def fieldLines (fieldName goType jsonName protoPath description : GoString) :
    List GoString :=
  (if description ≠ [] then [lit "\t// " ++ description] else []) ++
    [lit "\t// +kcc:proto=" ++ protoPath,
     lit "\t" ++ fieldName ++ lit " " ++ goType ++ lit " `json:\"" ++ jsonName ++
       lit ",omitempty\"`"]

/-! ## Inputs of the scenarios -/

deriving instance DecidableEq for Except

/-- The types file of the specification's scenario. -/
def widgetTypes : GoString :=
  lit "type WidgetSpec struct \x7b\n\tName *string `json:\"name\"`\n\x7d"

/-- The field of the specification's scenario. -/
def sizeField : AddFieldParams :=
  { Resource := lit "Widget", FieldName := lit "Size", FieldType := lit "int64",
    ProtoPath := lit "svcy.v1.Widget.size", ParentType := [], Description := [],
    JSONName := [] }

/-- The path of the types file in the scenarios. -/
def widgetTypesPath : GoString := lit "apis/svcy/v1/widget_types.go"

/-- The block rendered for `sizeField`. -/
def sizeBlock : GoString :=
  lit "\t// +kcc:proto=svcy.v1.Widget.size\n\tSize *int64 `json:\"size,omitempty\"`"

/-- A types file whose target struct has no field yet. -/
def emptyStructTypes : GoString :=
  lit "package v1\n\ntype WidgetSpec struct \x7b\n\x7d\n"

/-- A types file whose target struct ends with a comment line. -/
def commentedTypes : GoString :=
  lit "type WidgetSpec struct \x7b\n\tName *string `json:\"name\"`\n\t// more to come\n\x7d"

/-- The content expected after adding `sizeField` to `commentedTypes`. -/
def commentedTypesAfter : GoString :=
  lit "type WidgetSpec struct \x7b\n\tName *string `json:\"name\"`\n" ++ sizeBlock ++
    lit "\n\t// more to come\n\x7d"

/-- A types file without the target struct. -/
def otherTypes : GoString := lit "package v1\n\ntype GadgetSpec struct \x7b\n\x7d\n"

/-- The content expected after adding `sizeField` to `widgetTypes`. -/
def widgetTypesAfter : GoString :=
  lit "type WidgetSpec struct \x7b\n\tName *string `json:\"name\"`\n\t// +kcc:proto=svcy.v1.Widget.size\n\tSize *int64 `json:\"size,omitempty\"`\n\x7d"

/-- A field whose name begins with a letter outside ASCII. -/
def eclairField : AddFieldParams :=
  { Resource := lit "Widget", FieldName := lit "Éclair", FieldType := lit "string",
    ProtoPath := lit "svcy.v1.Widget.eclair", ParentType := [], Description := [],
    JSONName := [] }

/-- A resource on the legacy path, with a protocol definition found. -/
def widgetInfo : ControllerTypeInfo :=
  { Resource := lit "Widget", Type_ := lit "terraform",
    Location := some (lit "pkg/clients/generated/apis/svcy/v1/widget_types.go"),
    MigrationNeeded := true, HasDirectTypes := false, HasTerraformTypes := true,
    HasProto := true,
    ProtoLocation := some (lit "mockgcp/third_party/googleapis/google/cloud/svcy/v1/widget.proto"),
    Service := some (lit "svcy"), Version := some (lit "v1") }

/-- A repository in which the protocol definition and one of the two test
fixtures of `Widget` exist. -/
def widgetRepo (path : GoString) : Bool :=
  decide (path ∈
    [lit "mockgcp/third_party/googleapis/google/cloud/svcy/v1/widget.proto",
     lit "pkg/test/resourcefixture/testdata/basic/svcy/v1/widget/create.yaml"])

/-- A repository in which only the legacy tree holds a types file of `Widget`,
and a protocol definition of its service exists. -/
def widgetShell : Shell := fun cmd =>
  if cmd = tfTypesCmd (lit "widget") then
    .ok (lit "pkg/clients/generated/apis/svcy/v1/widget_types.go\n")
  else if cmd = protoCmd (lit "svcy") then
    .ok (lit "mockgcp/third_party/googleapis/google/cloud/svcy/v1/widget.proto\n")
  else .ok []

/-- A repository in which only the direct tree holds a types file of `FooBar`. -/
def foobarShell : Shell := fun cmd =>
  if cmd = directTypesCmd (lit "foobar") then .ok (lit "apis/svcx/v1/foobar_types.go\n")
  else .ok []

/-- A repository in which no search finds anything. -/
def emptyShell : Shell := fun _ => .ok []

/-- A repository in which only the legacy tree holds a types file of `Widget`,
under the version `v1beta2`. -/
def betaShell : Shell := fun cmd =>
  if cmd = tfTypesCmd (lit "widget") then
    .ok (lit "pkg/clients/generated/apis/svcy/v1beta2/widget_types.go\n")
  else .ok []

/-- A repository in which the protocol definition, the identity handler, the
mapper and the controller of `Widget` exist, and its API types file does not. -/
def partialRepo (path : GoString) : Bool :=
  decide (path ∈
    [lit "mockgcp/third_party/googleapis/google/cloud/svcy/v1/widget.proto",
     lit "apis/svcy/v1/widget_identity.go",
     lit "pkg/controller/direct/svcy/mapper.generated.go",
     lit "pkg/controller/direct/svcy/widget_controller.go"])

/-- A text made of white space only: a sequence of encoded white-space code
points. -/
def isWhiteSpaceOnly (s : GoString) : Prop :=
  ∃ ws : List GoString, (∀ w ∈ ws, w ∈ strings.spaceEncodings) ∧ s = ws.flatten

/-- A resource on the legacy path under the version `v1beta1`. -/
def betaInfo : ControllerTypeInfo :=
  { Resource := lit "Widget", Type_ := lit "terraform",
    Location := some (lit "pkg/clients/generated/apis/svcy/v1beta1/widget_types.go"),
    MigrationNeeded := true, HasDirectTypes := false, HasTerraformTypes := true,
    HasProto := false, ProtoLocation := none,
    Service := some (lit "svcy"), Version := some (lit "v1beta1") }

/-- A types file in which a comment line of the struct body carries both the
serialization-tag marker and the opening marker. -/
def remarkTypes : GoString :=
  lit "type WidgetSpec struct \x7b\n\tName *string `json:\"name\"`\n\t// was: type WidgetSpec struct \x7b Id *string `json:\"id\"` \x7d\n\x7d"

/-- A search that prints the one path `apis//svcx/v1/foobar_types.go`, with
the doubled slash a `find` prints that joins its start point `apis/` and the
entry below it by a slash. -/
def doubledSlashShell : Shell := fun _ => .ok (lit "apis//svcx/v1/foobar_types.go\n")

/-- The lower-cased resource name of the search scenarios. -/
def widgetName : PlainName := ⟨lit "widget", by decide⟩

/-- A repository whose one types file is spelled with a capital letter. -/
def capitalRepo : List GoString := [lit "apis/svcy/v1/Widget_types.go"]

/-- The shell in the repository `capitalRepo`: the three type-file searches for
`widget` print what `findOutput` gives, and every other search prints nothing,
as the repository holds no protocol definition. -/
def capitalShell : Shell := fun cmd =>
  if cmd = findCmd widgetName.val then
    .ok (findOutput capitalRepo (lit "apis/") widgetName typesGo)
  else if cmd = directTypesCmd widgetName.val then
    .ok (findOutput capitalRepo (lit "apis/") widgetName underscoreTypesGo)
  else if cmd = tfTypesCmd widgetName.val then
    .ok (findOutput capitalRepo (lit "pkg/clients/generated/") widgetName typesGo)
  else .ok []

/-- A repository whose one types file is spelled in lower case. -/
def lowerRepo : List GoString := [lit "apis/svcy/v1/widget_types.go"]

/-- The shell in the repository `lowerRepo`, which holds no protocol definition
either. -/
def lowerShell : Shell := fun cmd =>
  if cmd = findCmd widgetName.val then
    .ok (findOutput lowerRepo (lit "apis/") widgetName typesGo)
  else if cmd = directTypesCmd widgetName.val then
    .ok (findOutput lowerRepo (lit "apis/") widgetName underscoreTypesGo)
  else if cmd = tfTypesCmd widgetName.val then
    .ok (findOutput lowerRepo (lit "pkg/clients/generated/") widgetName typesGo)
  else .ok []

/-- A repository in which `Widget` is on the legacy path and its identity
handler, mapper, controller and test fixtures exist already. -/
def legacyRepo : List GoString :=
  [lit "pkg/clients/generated/apis/svcy/v1beta1/widget_types.go",
   lit "apis/svcy/v1beta1/widget_identity.go",
   lit "pkg/controller/direct/svcy/mapper.generated.go",
   lit "pkg/controller/direct/svcy/widget_controller.go",
   lit "pkg/test/resourcefixture/testdata/basic/svcy/v1beta1/widget/create.yaml"]

/-- The shell in the repository `legacyRepo`, which holds no protocol
definition. -/
def legacyShell : Shell := fun cmd =>
  if cmd = directTypesCmd widgetName.val then
    .ok (findOutput legacyRepo (lit "apis/") widgetName underscoreTypesGo)
  else if cmd = tfTypesCmd widgetName.val then
    .ok (findOutput legacyRepo (lit "pkg/clients/generated/") widgetName typesGo)
  else .ok []

/-- A repository in which the legacy tree holds the types file `wid2_types.go`
and the seven artifacts of the migration are spelled with the text
`wid$((1+1))`. -/
def arithRepo : List GoString :=
  [lit "pkg/clients/generated/apis/svcy/v1beta1/wid2_types.go",
   lit "mockgcp/third_party/googleapis/google/cloud/svcy/v1/widget.proto",
   lit "apis/svcy/v1beta1/wid$((1+1))_types.go",
   lit "apis/svcy/v1beta1/wid$((1+1))_identity.go",
   lit "pkg/controller/direct/svcy/mapper.generated.go",
   lit "pkg/controller/direct/svcy/wid$((1+1))_controller.go",
   lit "mockgcp/mocksvcy/wid$((1+1)).go",
   lit "pkg/test/resourcefixture/testdata/basic/svcy/v1beta1/wid$((1+1))/create.yaml",
   lit "pkg/test/resourcefixture/testdata/basic/svcy/v1beta1/wid$((1+1))/update.yaml"]

/-- The shell in the repository `arithRepo` for the resource name
`Wid$((1+1))`.  Between the double quotes of the command `sh` replaces
`$((1+1))` by `2` before `find` runs, so the search of the direct tree looks
for `*wid2*_types.go` and prints nothing, and the search of the legacy tree
looks for `*wid2*types.go` and prints the legacy types file; the search for
protocol definitions of `svcy` prints the one there is. -/
def arithShell : Shell := fun cmd =>
  if cmd = directTypesCmd (lit "wid$((1+1))") then .ok []
  else if cmd = tfTypesCmd (lit "wid$((1+1))") then
    .ok (lit "pkg/clients/generated/apis/svcy/v1beta1/wid2_types.go\n")
  else if cmd = protoCmd (lit "svcy") then
    .ok (lit "mockgcp/third_party/googleapis/google/cloud/svcy/v1/widget.proto\n")
  else .ok []

/-- A field whose description quotes the opening line of its parent type. -/
def quotingField : AddFieldParams :=
  { Resource := lit "Widget", FieldName := lit "Size", FieldType := lit "int64",
    ProtoPath := lit "google.cloud.svcy.v1.Widget.size", ParentType := [],
    Description := lit "moved out of type WidgetSpec struct \x7b", JSONName := [] }

/-- A types file in which an empty `WidgetSpec` follows a struct with a field. -/
def gadgetWidgetTypes : GoString :=
  lit "type GadgetSpec struct \x7b\n\tName *string `json:\"name\"`\n\x7d\n\ntype WidgetSpec struct \x7b\n\x7d\n"

/-- The file `gadgetWidgetTypes` after one call of AddField with `quotingField`. -/
def gadgetWidgetTypesOnce : GoString :=
  lit "\t// moved out of type WidgetSpec struct \x7b\n\t// +kcc:proto=google.cloud.svcy.v1.Widget.size\n\tSize *int64 `json:\"size,omitempty\"`\ntype GadgetSpec struct \x7b\n\tName *string `json:\"name\"`\n\x7d\n\ntype WidgetSpec struct \x7b\n\x7d\n"

/-- The file `gadgetWidgetTypes` after two calls of AddField with `quotingField`. -/
def gadgetWidgetTypesTwice : GoString :=
  lit "\t// moved out of type WidgetSpec struct \x7b\n\t// +kcc:proto=google.cloud.svcy.v1.Widget.size\n\tSize *int64 `json:\"size,omitempty\"`\ntype GadgetSpec struct \x7b\n\tName *string `json:\"name\"`\n\t// moved out of type WidgetSpec struct \x7b\n\t// +kcc:proto=google.cloud.svcy.v1.Widget.size\n\tSize *int64 `json:\"size,omitempty\"`\n\x7d\n\ntype WidgetSpec struct \x7b\n\x7d\n"

/-! ## Lemmas on the string library -/

namespace strings

theorem Split_ne_nil (s : GoString) (sep : Nat) : Split s sep ≠ [] := by
  induction s with
  | nil => simp [Split]
  | cons c cs ih =>
    unfold Split
    split
    · simp
    · split <;> simp

theorem Join_cons_of_ne_nil (a : GoString) (l : List GoString) (sep : GoString)
    (h : l ≠ []) : Join (a :: l) sep = a ++ sep ++ Join l sep := by
  cases l with
  | nil => exact absurd rfl h
  | cons b rest => rfl

theorem Join_Split (s : GoString) (sep : Nat) : Join (Split s sep) [sep] = s := by
  induction s with
  | nil => rfl
  | cons c cs ih =>
    unfold Split
    split
    · next h =>
      rw [Join_cons_of_ne_nil _ _ _ (Split_ne_nil cs sep), ih]
      simp [h]
    · split
      · next _ h => exact absurd h (Split_ne_nil cs sep)
      · next _ l ls h =>
        rw [h] at ih
        cases ls with
        | nil => simp [Join] at ih ⊢; exact ih
        | cons b rest =>
          simp only [Join] at ih ⊢
          rw [← ih]; simp

theorem Join_append (xs ys : List GoString) (sep : GoString) (h : ys ≠ []) :
    Join (xs ++ ys) sep = joinedPrefix xs sep ++ Join ys sep := by
  induction xs with
  | nil => simp [joinedPrefix]
  | cons a xs ih =>
    have hne : xs ++ ys ≠ [] := by simp [h]
    rw [List.cons_append, Join_cons_of_ne_nil _ _ _ hne, ih]
    simp [joinedPrefix]

theorem length_joinedPrefix (l : List GoString) (sep : Nat) :
    (joinedPrefix l [sep]).length = (l.map (fun a => a.length + 1)).sum := by
  induction l with
  | nil => rfl
  | cons a l ih =>
    simp only [joinedPrefix, List.flatMap_cons, List.length_append, List.map_cons,
      List.sum_cons] at ih ⊢
    rw [ih]; simp

theorem not_mem_of_mem_Split (s : GoString) (sep : Nat) :
    ∀ l ∈ Split s sep, sep ∉ l := by
  induction s with
  | nil => simp [Split]
  | cons c cs ih =>
    unfold Split
    split
    · intro l hl
      rcases List.mem_cons.1 hl with rfl | hl
      · simp
      · exact ih l hl
    · next hc =>
      split
      · intro l hl
        simp at hl; subst hl; simp; exact fun h => hc h.symm
      · next _ l0 ls h =>
        intro l hl
        rw [h] at ih
        rcases List.mem_cons.1 hl with rfl | hl
        · have := ih l0 (List.mem_cons_self _ _)
          simp; exact ⟨fun h => hc h.symm, this⟩
        · exact ih l (List.mem_cons_of_mem _ hl)

theorem Split_of_not_mem (l : GoString) (sep : Nat) (h : sep ∉ l) : Split l sep = [l] := by
  induction l with
  | nil => rfl
  | cons c cs ih =>
    have hc : c ≠ sep := fun e => h (by simp [e])
    have hcs : sep ∉ cs := fun e => h (List.mem_cons_of_mem _ e)
    unfold Split
    rw [if_neg hc, ih hcs]

theorem Split_append_sep (a b : GoString) (sep : Nat) :
    Split (a ++ sep :: b) sep = Split a sep ++ Split b sep := by
  induction a with
  | nil => simp [Split]
  | cons c cs ih =>
    rw [List.cons_append]
    by_cases hc : c = sep
    · rw [Split, if_pos hc, ih, Split, if_pos hc]; rfl
    · rw [Split, if_neg hc, ih, Split, if_neg hc]
      cases h : Split cs sep with
      | nil => exact absurd h (Split_ne_nil cs sep)
      | cons l ls => rfl

theorem Split_Join (ls : List GoString) (sep : Nat) (h : ls ≠ []) :
    Split (Join ls [sep]) sep = ls.flatMap (fun l => Split l sep) := by
  induction ls with
  | nil => exact absurd rfl h
  | cons a ls ih =>
    cases ls with
    | nil => simp [Join]
    | cons b rest =>
      rw [Join_cons_of_ne_nil _ _ _ (by simp), List.append_assoc, List.singleton_append,
        Split_append_sep, ih (by simp)]
      simp

theorem flatMap_Split_of_not_mem (ls : List GoString) (sep : Nat)
    (h : ∀ l ∈ ls, sep ∉ l) : ls.flatMap (fun l => Split l sep) = ls := by
  induction ls with
  | nil => rfl
  | cons a ls ih =>
    rw [List.flatMap_cons, Split_of_not_mem a sep (h a (List.mem_cons_self _ _)),
      ih (fun l hl => h l (List.mem_cons_of_mem _ hl))]
    rfl

/-- Splicing an element in front of line `p` inserts it, followed by one
separator, at the byte offset where line `p` begins. -/
theorem Join_insert (lines : List GoString) (f : GoString) (sep p : Nat)
    (hp : p < lines.length) :
    Join (lines.take p ++ [f] ++ lines.drop p) [sep] =
      (Join lines [sep]).take (lineStart lines p) ++ (f ++ [sep]) ++
        (Join lines [sep]).drop (lineStart lines p) := by
  have hd : lines.drop p ≠ [] := by
    intro h; have := congrArg List.length h; simp at this; omega
  have hl : Join lines [sep] = joinedPrefix (lines.take p) [sep] ++ Join (lines.drop p) [sep] := by
    conv_lhs => rw [← List.take_append_drop p lines]
    exact Join_append _ _ _ hd
  have hoff : lineStart lines p = (joinedPrefix (lines.take p) [sep]).length := by
    rw [length_joinedPrefix]; rfl
  rw [List.append_assoc, Join_append _ _ _ (by simp), List.singleton_append,
    Join_cons_of_ne_nil _ _ _ hd, hl, hoff, List.take_left, List.drop_left]
  simp

theorem lineStart_le (lines : List GoString) (sep p : Nat) (hp : p < lines.length) :
    lineStart lines p ≤ (Join lines [sep]).length := by
  have hd : lines.drop p ≠ [] := by
    intro h; have := congrArg List.length h; simp at this; omega
  have hl : Join lines [sep] = joinedPrefix (lines.take p) [sep] ++ Join (lines.drop p) [sep] := by
    conv_lhs => rw [← List.take_append_drop p lines]
    exact Join_append _ _ _ hd
  rw [hl, List.length_append, length_joinedPrefix]
  unfold lineStart
  omega

theorem HasPrefix_iff (s p : GoString) : HasPrefix s p = true ↔ p <+: s := by
  induction p generalizing s with
  | nil => simp [HasPrefix]
  | cons b ps ih =>
    cases s with
    | nil => simp [HasPrefix]
    | cons c cs =>
      simp only [HasPrefix, Bool.and_eq_true, decide_eq_true_eq, ih, List.cons_prefix_cons]
      constructor
      · rintro ⟨h1, h2⟩; exact ⟨h1.symm, h2⟩
      · rintro ⟨h1, h2⟩; exact ⟨h1.symm, h2⟩

theorem Contains_iff (s sub : GoString) : Contains s sub = true ↔ sub <:+: s := by
  induction s with
  | nil =>
    simp only [Contains, HasPrefix_iff, List.prefix_nil, List.infix_nil]
  | cons c cs ih =>
    simp only [Contains, Bool.or_eq_true, HasPrefix_iff, ih, List.infix_cons_iff]

theorem Contains_append (a s b : GoString) : Contains (a ++ s ++ b) s = true := by
  rw [Contains_iff]; exact ⟨a, b, rfl⟩

theorem mem_of_Contains (s sub : GoString) (h : Contains s sub = true) :
    ∀ b ∈ sub, b ∈ s := by
  rw [Contains_iff] at h
  exact fun b hb => h.subset hb

theorem trimLeftSpace_bytes (fuel : Nat) (s : GoString) :
    ∀ b ∈ s, b ∈ trimLeftSpace fuel s ∨ b ∈ spaceBytes := by
  induction fuel generalizing s with
  | zero => intro b hb; exact Or.inl hb
  | succ n ih =>
    intro b hb
    unfold trimLeftSpace
    cases h : leadingSpace s with
    | none => exact Or.inl hb
    | some k =>
      simp only
      unfold leadingSpace at h
      rcases Option.map_eq_some'.1 h with ⟨e, he, hk⟩
      have hmem : e ∈ spaceEncodings := List.mem_of_find?_eq_some he
      have hpre : e <+: s := (HasPrefix_iff s e).1 (by simpa using List.find?_some he)
      obtain ⟨t, rfl⟩ := hpre
      subst hk
      rw [List.drop_left]
      rcases List.mem_append.1 hb with hb | hb
      · exact Or.inr (List.mem_flatten.2 ⟨e, hmem, hb⟩)
      · exact ih t b hb

theorem trimRightSpace_bytes (fuel : Nat) (s : GoString) :
    ∀ b ∈ s, b ∈ trimRightSpace fuel s ∨ b ∈ spaceBytes := by
  induction fuel generalizing s with
  | zero => intro b hb; exact Or.inl hb
  | succ n ih =>
    intro b hb
    unfold trimRightSpace
    cases h : (spaceEncodings.find? (fun e => HasPrefix s.reverse e.reverse)).map
        List.length with
    | none => exact Or.inl hb
    | some k =>
      simp only
      rcases Option.map_eq_some'.1 h with ⟨e, he, hk⟩
      have hmem : e ∈ spaceEncodings := List.mem_of_find?_eq_some he
      have hpre : e.reverse <+: s.reverse :=
        (HasPrefix_iff _ _).1 (by simpa using List.find?_some he)
      have hsuf : e <:+ s := List.reverse_prefix.1 hpre
      obtain ⟨t, rfl⟩ := hsuf
      subst hk
      have : (t ++ e).take ((t ++ e).length - e.length) = t := by
        simp
      rw [this]
      rcases List.mem_append.1 hb with hb | hb
      · exact ih t b hb
      · exact Or.inr (List.mem_flatten.2 ⟨e, hmem, hb⟩)

theorem TrimSpace_bytes (s : GoString) : ∀ b ∈ s, b ∈ TrimSpace s ∨ b ∈ spaceBytes := by
  intro b hb
  unfold TrimSpace
  rcases trimLeftSpace_bytes s.length s b hb with h | h
  · exact trimRightSpace_bytes _ _ b h
  · exact Or.inr h

/-- A line that trims to a closing brace holds no byte of `sub` other than the
brace and white space, so it cannot contain a text with another byte. -/
theorem not_Contains_of_TrimSpace (line sub : GoString) (c : Nat)
    (ht : TrimSpace line = lit "\x7d") (hc : c ∈ sub) (hne : c ≠ 0x7D)
    (hns : c ∉ spaceBytes) : Contains line sub = false := by
  cases h : Contains line sub with
  | false => rfl
  | true =>
    exfalso
    have hmem := mem_of_Contains line sub h c hc
    rcases TrimSpace_bytes line c hmem with h1 | h1
    · rw [ht] at h1
      have : lit "\x7d" = [0x7D] := by decide
      rw [this] at h1
      simp at h1
      exact hne h1
    · exact hns h1

theorem length_pos_of_mem_spaceEncodings : ∀ e ∈ spaceEncodings, 0 < e.length := by
  decide

/-- The fuel `TrimSpace` gives is enough: no white space is left in front. -/
theorem leadingSpace_trimLeftSpace (fuel : Nat) (s : GoString) (h : s.length ≤ fuel) :
    leadingSpace (trimLeftSpace fuel s) = none := by
  induction fuel generalizing s with
  | zero =>
    have : s = [] := List.length_eq_zero.1 (by omega)
    subst this
    decide
  | succ n ih =>
    unfold trimLeftSpace
    cases hl : leadingSpace s with
    | none => simpa using hl
    | some k =>
      simp only
      apply ih
      unfold leadingSpace at hl
      rcases Option.map_eq_some'.1 hl with ⟨e, he, hk⟩
      have hpos := length_pos_of_mem_spaceEncodings e (List.mem_of_find?_eq_some he)
      rw [List.length_drop]
      omega

/-- The fuel `TrimSpace` gives is enough: no white space is left at the end. -/
theorem trailingSpace_trimRightSpace (fuel : Nat) (s : GoString) (h : s.length ≤ fuel) :
    spaceEncodings.find? (fun e => HasPrefix (trimRightSpace fuel s).reverse e.reverse) =
      none := by
  induction fuel generalizing s with
  | zero =>
    have : s = [] := List.length_eq_zero.1 (by omega)
    subst this
    decide
  | succ n ih =>
    unfold trimRightSpace
    cases hl : (spaceEncodings.find? (fun e => HasPrefix s.reverse e.reverse)).map
        List.length with
    | none => simpa using hl
    | some k =>
      simp only
      apply ih
      rcases Option.map_eq_some'.1 hl with ⟨e, he, hk⟩
      have hpos := length_pos_of_mem_spaceEncodings e (List.mem_of_find?_eq_some he)
      rw [List.length_take]
      omega

/-- More fuel than the length of the string does not change `runes`. -/
theorem runes_fuel (n fuel : Nat) (s : GoString) (hs : s.length ≤ n) (hn : n ≤ fuel) :
    runes fuel s = runes n s := by
  induction n generalizing fuel s with
  | zero =>
    have : s = [] := List.length_eq_zero.1 (by omega)
    subst this
    cases fuel <;> rfl
  | succ n ih =>
    obtain ⟨fuel', rfl⟩ : ∃ fuel', fuel = fuel' + 1 := ⟨fuel - 1, by omega⟩
    cases s with
    | nil => rfl
    | cons c cs =>
      simp only [runes]
      congr 1
      apply ih
      · rw [List.length_drop]; simp only [List.length_cons] at hs; omega
      · omega

/-- On a one-byte string `strings.ToLower` is `ToLowerByte`, whatever the case
table says about letters, as the replacement character has no lower case. -/
theorem ToLower_singleton (caseTable : Nat → Nat) (c : Nat)
    (h : caseTable RuneError = RuneError) : ToLower caseTable [c] = ToLowerByte c := by
  unfold ToLower ToLowerByte
  by_cases hc : c < 0x80
  · have hd : DecodeRune [c] = (c, 1) := by simp [DecodeRune, hc]
    simp only [List.length_singleton, runes, hd, List.drop_nil, List.flatMap_cons,
      List.flatMap_nil, List.append_nil, if_pos hc]
    unfold unicodeToLower
    rw [if_pos (by omega)]
    by_cases hu : 0x41 ≤ c ∧ c ≤ 0x5A
    · rw [if_pos hu, if_pos hu]; unfold EncodeRune; rw [if_pos (by omega)]
    · rw [if_neg hu, if_neg hu]; unfold EncodeRune; rw [if_pos hc]
  · have hd : DecodeRune [c] = (RuneError, 1) := by
      unfold DecodeRune
      simp only [if_neg hc]
      split_ifs <;> rfl
    simp only [List.length_singleton, runes, hd, List.drop_nil, List.flatMap_cons,
      List.flatMap_nil, List.append_nil, if_neg hc]
    have hu : unicodeToLower caseTable RuneError = RuneError := by
      unfold unicodeToLower
      rw [if_neg (by decide), h]
    rw [hu]
    decide

end strings

/-! ## Lemmas on findInsertionPoint -/

theorem not_marker_of_closing (parentType line : GoString)
    (ht : strings.TrimSpace line = lit "\x7d") :
    strings.Contains line (structMarker parentType) = false := by
  apply strings.not_Contains_of_TrimSpace line _ 0x74 ht
  · unfold structMarker
    have : lit "type " = [0x74, 0x79, 0x70, 0x65, 0x20] := by decide
    rw [this]; simp
  · decide
  · decide

theorem not_tag_of_closing (line : GoString) (ht : strings.TrimSpace line = lit "\x7d") :
    strings.Contains line (lit "`json:") = false := by
  apply strings.not_Contains_of_TrimSpace line _ 0x60 ht
  · decide
  · decide
  · decide

theorem loop_outside (marker : GoString) (lines : List GoString) (i : Nat) (last : Int) :
    findInsertionPointLoop marker lines i false last =
      if lines.findIdx (fun l => strings.Contains l marker) < lines.length then
        findInsertionPointLoop marker
          (lines.drop (lines.findIdx (fun l => strings.Contains l marker) + 1))
          (i + lines.findIdx (fun l => strings.Contains l marker) + 1) true last
      else -1 := by
  induction lines generalizing i with
  | nil => simp [findInsertionPointLoop]
  | cons line rest ih =>
    rw [List.findIdx_cons]
    cases h : strings.Contains line marker with
    | true => simp [findInsertionPointLoop, h]
    | false =>
      simp only [findInsertionPointLoop, h, cond_false, List.length_cons,
        Nat.add_lt_add_iff_right, List.drop_succ_cons]
      rw [ih (i + 1)]
      simp only [Bool.false_eq_true, if_false]
      have e : i + 1 + List.findIdx (fun l => strings.Contains l marker) rest + 1 =
          i + (List.findIdx (fun l => strings.Contains l marker) rest + 1) + 1 := by omega
      rw [e]

theorem loop_inside_none (marker : GoString) (lines : List GoString) (i : Nat) (last : Int)
    (h : ∀ l ∈ lines, strings.TrimSpace l ≠ lit "\x7d") :
    findInsertionPointLoop marker lines i true last = -1 := by
  induction lines generalizing i last with
  | nil => simp [findInsertionPointLoop]
  | cons line rest ih =>
    have h1 : strings.TrimSpace line ≠ lit "\x7d" := h line (List.mem_cons_self _ _)
    have h2 : ∀ l ∈ rest, strings.TrimSpace l ≠ lit "\x7d" :=
      fun l hl => h l (List.mem_cons_of_mem _ hl)
    unfold findInsertionPointLoop
    split
    · exact ih _ _ h2
    · simp only [if_true, if_neg h1]
      exact ih _ _ h2

theorem loop_inside (marker : GoString)
    (hm : ∀ l, strings.TrimSpace l = lit "\x7d" → strings.Contains l marker = false)
    (lines : List GoString) (i : Nat) (last : Int)
    (hk : lines.findIdx (fun l => decide (strings.TrimSpace l = lit "\x7d")) < lines.length) :
    (∃ j, j < lines.findIdx (fun l => decide (strings.TrimSpace l = lit "\x7d")) ∧
        isFieldLine marker (lines.getD j []) = true ∧
        (∀ j', j < j' → j' < lines.findIdx (fun l => decide (strings.TrimSpace l = lit "\x7d")) →
          isFieldLine marker (lines.getD j' []) = false) ∧
        findInsertionPointLoop marker lines i true last = ((i + j : Nat) : Int) + 1) ∨
      ((∀ j, j < lines.findIdx (fun l => decide (strings.TrimSpace l = lit "\x7d")) →
          isFieldLine marker (lines.getD j []) = false) ∧
        findInsertionPointLoop marker lines i true last = last + 1) := by
  induction lines generalizing i last with
  | nil => simp at hk
  | cons line rest ih =>
    rw [List.findIdx_cons] at hk ⊢
    by_cases ht : strings.TrimSpace line = lit "\x7d"
    · right
      have hnm := hm line ht
      have hnt := not_tag_of_closing line ht
      simp [findInsertionPointLoop, ht, hnm, hnt]
    · simp only [ht, decide_False, cond_false, List.length_cons,
        Nat.add_lt_add_iff_right] at hk ⊢
      cases hc : strings.Contains line marker with
      | true =>
        have hf : isFieldLine marker line = false := by simp [isFieldLine, hc]
        have hstep : findInsertionPointLoop marker (line :: rest) i true last =
            findInsertionPointLoop marker rest (i + 1) true last := by
          simp [findInsertionPointLoop, hc]
        rw [hstep]
        rcases ih (i + 1) last hk with ⟨j, hj, hfj, hall, hr⟩ | ⟨hall, hr⟩
        · left
          refine ⟨j + 1, by omega, by simpa using hfj, ?_, ?_⟩
          · intro j' h1 h2
            obtain ⟨j'', rfl⟩ : ∃ j'', j' = j'' + 1 := ⟨j' - 1, by omega⟩
            simpa using hall j'' (by omega) (by omega)
          · rw [hr]; push_cast; ring
        · right
          refine ⟨?_, hr⟩
          intro j hj
          cases j with
          | zero => simpa using hf
          | succ j => simpa using hall j (by omega)
      | false =>
        have hstep : findInsertionPointLoop marker (line :: rest) i true last =
            findInsertionPointLoop marker rest (i + 1) true
              (if strings.Contains line (lit "`json:") then (i : Int) else last) := by
          simp [findInsertionPointLoop, hc, ht]
        rw [hstep]
        rcases ih (i + 1) (if strings.Contains line (lit "`json:") then (i : Int) else last) hk
          with ⟨j, hj, hfj, hall, hr⟩ | ⟨hall, hr⟩
        · left
          refine ⟨j + 1, by omega, by simpa using hfj, ?_, ?_⟩
          · intro j' h1 h2
            obtain ⟨j'', rfl⟩ : ∃ j'', j' = j'' + 1 := ⟨j' - 1, by omega⟩
            simpa using hall j'' (by omega) (by omega)
          · rw [hr]; push_cast; ring
        · cases hj : strings.Contains line (lit "`json:") with
          | true =>
            left
            have hf : isFieldLine marker line = true := by simp [isFieldLine, hc, hj]
            refine ⟨0, by omega, by simpa using hf, ?_, ?_⟩
            · intro j' h1 h2
              obtain ⟨j'', rfl⟩ : ∃ j'', j' = j'' + 1 := ⟨j' - 1, by omega⟩
              simpa using hall j'' (by omega)
            · rw [hj] at hr; simpa using hr
          | false =>
            right
            have hf : isFieldLine marker line = false := by simp [isFieldLine, hj]
            refine ⟨?_, by rw [hj] at hr; simpa using hr⟩
            intro j hj
            cases j with
            | zero => simpa using hf
            | succ j => simpa using hall j (by omega)

theorem getD_drop (l : List GoString) (n j : Nat) :
    (l.drop n).getD j [] = l.getD (n + j) [] := by
  simp [List.getElem?_drop]

theorem findInsertionPoint_none (content parentType : GoString)
    (h : closingLine (strings.Split content 0x0A) (structMarker parentType) = none) :
    findInsertionPoint content parentType = -1 := by
  unfold findInsertionPoint
  rw [loop_outside]
  unfold closingLine openingLine at h
  split
  · next ho =>
    simp only [ho, if_true] at h
    apply loop_inside_none
    intro l hl
    by_contra ht
    have hlt : (List.drop (List.findIdx (fun l => strings.Contains l (structMarker parentType))
        (strings.Split content 0x0A) + 1) (strings.Split content 0x0A)).findIdx
          (fun l => decide (strings.TrimSpace l = lit "\x7d")) <
        (List.drop (List.findIdx (fun l => strings.Contains l (structMarker parentType))
        (strings.Split content 0x0A) + 1) (strings.Split content 0x0A)).length :=
      List.findIdx_lt_length_of_exists ⟨l, hl, by simpa using ht⟩
    rw [List.length_drop] at hlt
    split at h
    · exact absurd h (by simp)
    · omega
  · rfl

theorem findInsertionPoint_some (content parentType : GoString) (c : Nat)
    (h : closingLine (strings.Split content 0x0A) (structMarker parentType) = some c) :
    ∃ o, openingLine (strings.Split content 0x0A) (structMarker parentType) = some o ∧
      o < c ∧ c < (strings.Split content 0x0A).length ∧
      strings.TrimSpace ((strings.Split content 0x0A).getD c []) = lit "\x7d" ∧
      (∀ j, o < j → j < c →
        strings.TrimSpace ((strings.Split content 0x0A).getD j []) ≠ lit "\x7d") ∧
      ((∃ j, o < j ∧ j < c ∧
          isFieldLine (structMarker parentType) ((strings.Split content 0x0A).getD j []) = true ∧
          (∀ j', j < j' → j' < c →
            isFieldLine (structMarker parentType)
              ((strings.Split content 0x0A).getD j' []) = false) ∧
          findInsertionPoint content parentType = (j : Int) + 1) ∨
        ((∀ j, o < j → j < c →
            isFieldLine (structMarker parentType)
              ((strings.Split content 0x0A).getD j []) = false) ∧
          findInsertionPoint content parentType = 0)) := by
  unfold findInsertionPoint
  rw [loop_outside]
  unfold closingLine at h
  unfold openingLine at h ⊢
  generalize strings.Split content 0x0A = lines at h ⊢
  generalize hm : structMarker parentType = m at h ⊢
  generalize ho : List.findIdx (fun l => strings.Contains l m) lines = o at h ⊢
  by_cases hol : o < lines.length
  · simp only [hol, if_true] at h ⊢
    generalize hk : List.findIdx (fun l => decide (strings.TrimSpace l = lit "\x7d"))
      (List.drop (o + 1) lines) = k at h
    by_cases hkl : o + 1 + k < lines.length
    · simp only [hkl, if_true, Option.some.injEq] at h
      subst h
      have hk' : List.findIdx (fun l => decide (strings.TrimSpace l = lit "\x7d"))
          (List.drop (o + 1) lines) < (List.drop (o + 1) lines).length := by
        rw [hk, List.length_drop]; omega
      have hmm : ∀ l, strings.TrimSpace l = lit "\x7d" → strings.Contains l m = false := by
        intro l hl; rw [← hm]; exact not_marker_of_closing parentType l hl
      refine ⟨o, rfl, by omega, hkl, ?_, ?_, ?_⟩
      · have := @List.findIdx_getElem _ (fun l => decide (strings.TrimSpace l = lit "\x7d"))
          (List.drop (o + 1) lines) hk'
        simp only [decide_eq_true_eq] at this
        have e : lines.getD (o + 1 + k) [] =
            (List.drop (o + 1) lines)[List.findIdx
              (fun l => decide (strings.TrimSpace l = lit "\x7d")) (List.drop (o + 1) lines)] := by
          rw [← getD_drop, List.getD_eq_getElem _ _ (by rw [← hk]; exact hk')]
          simp only [hk]
        rw [e]; exact this
      · intro j h1 h2
        obtain ⟨j'', rfl⟩ : ∃ j'', j = o + 1 + j'' := ⟨j - (o + 1), by omega⟩
        have hlt : j'' < List.findIdx (fun l => decide (strings.TrimSpace l = lit "\x7d"))
            (List.drop (o + 1) lines) := by rw [hk]; omega
        have := List.not_of_lt_findIdx hlt
        simp only [decide_eq_false_iff_not] at this
        rw [← getD_drop, List.getD_eq_getElem _ _ (by omega)]
        exact this
      · rcases loop_inside m hmm (List.drop (o + 1) lines) (0 + o + 1) (-1) hk'
          with ⟨j, hj, hfj, hall, hr⟩ | ⟨hall, hr⟩
        · left
          rw [hk] at hj hall
          refine ⟨o + 1 + j, by omega, by omega, ?_, ?_, ?_⟩
          · rw [← getD_drop]; exact hfj
          · intro j' h1 h2
            obtain ⟨j'', rfl⟩ : ∃ j'', j' = o + 1 + j'' := ⟨j' - (o + 1), by omega⟩
            rw [← getD_drop]; exact hall j'' (by omega) (by omega)
          · rw [hr]; push_cast; ring
        · right
          rw [hk] at hall
          refine ⟨?_, by rw [hr]; simp⟩
          intro j h1 h2
          obtain ⟨j'', rfl⟩ : ∃ j'', j = o + 1 + j'' := ⟨j - (o + 1), by omega⟩
          rw [← getD_drop]; exact hall j'' (by omega)
    · simp [hkl] at h
  · simp [hol] at h

theorem findInsertionPoint_bounds (content parentType : GoString)
    (h : findInsertionPoint content parentType ≠ -1) :
    ∃ p c : Nat, findInsertionPoint content parentType = (p : Int) ∧
      closingLine (strings.Split content 0x0A) (structMarker parentType) = some c ∧
      p ≤ c ∧ c < (strings.Split content 0x0A).length := by
  cases hc : closingLine (strings.Split content 0x0A) (structMarker parentType) with
  | none => exact absurd (findInsertionPoint_none content parentType hc) h
  | some c =>
    obtain ⟨o, _, hoc, hcl, _, _, hr⟩ := findInsertionPoint_some content parentType c hc
    rcases hr with ⟨j, _, hjc, _, _, hr⟩ | ⟨_, hr⟩
    · exact ⟨j + 1, c, by rw [hr]; push_cast; ring, rfl, by omega, hcl⟩
    · exact ⟨0, c, by rw [hr]; rfl, rfl, by omega, hcl⟩

theorem splice_delete (a b c : GoString) :
    (a ++ b ++ c).take a.length ++ (a ++ b ++ c).drop (a.length + b.length) = a ++ c := by
  rw [List.append_assoc, List.take_left, List.drop_append, List.drop_left]

theorem lit_newline : lit "\n" = [0x0A] := by decide

/-- What a successful call of AddField did. -/
theorem AddField_ok (content typesFile : GoString) (writeErr : Option GoString)
    (params : AddFieldParams) (out : GoString)
    (h : (AddField (.ok content) writeErr typesFile params).result = .ok out) :
    ∃ goType, getGoType params.FieldType params.Resource params.FieldName = .ok goType ∧
      findInsertionPoint content (parentTypeOf params) ≠ -1 ∧
      (AddField (.ok content) writeErr typesFile params).written =
        some (strings.Join
          ((strings.Split content 0x0A).take
              (findInsertionPoint content (parentTypeOf params)).toNat ++
            [buildFieldDefinition params.FieldName goType (jsonNameOf params)
              params.ProtoPath params.Description] ++
            (strings.Split content 0x0A).drop
              (findInsertionPoint content (parentTypeOf params)).toNat) (lit "\n")) := by
  unfold AddField at h ⊢
  cases hg : getGoType params.FieldType params.Resource params.FieldName with
  | error e => simp [hg] at h
  | ok goType =>
    simp only [hg] at h ⊢
    by_cases hp : findInsertionPoint content (parentTypeOf params) = -1
    · simp [hp] at h
    · simp only [hp, if_false] at h ⊢
      cases writeErr with
      | some e => simp at h
      | none => exact ⟨goType, rfl, hp, by simp⟩

theorem getD_splice_before (L B : List GoString) (p i : Nat) (hi : i < p)
    (hp : p ≤ L.length) : (L.take p ++ B ++ L.drop p).getD i [] = L.getD i [] := by
  simp only [List.getD_eq_getElem?_getD]
  rw [List.append_assoc, List.getElem?_append_left (by simp; omega),
    List.getElem?_take_of_lt hi]

theorem getD_splice_after (L B : List GoString) (p i : Nat) (hp : p ≤ L.length) :
    (L.take p ++ B ++ L.drop p).getD (p + B.length + i) [] = L.getD (p + i) [] := by
  simp only [List.getD_eq_getElem?_getD]
  rw [List.getElem?_append_right (by simp; omega), List.getElem?_drop]
  congr 2
  simp
  omega

theorem openingLine_eq_none (lines : List GoString) (marker : GoString) :
    openingLine lines marker = none ↔ ∀ l ∈ lines, strings.Contains l marker = false := by
  unfold openingLine
  constructor
  · intro h
    by_cases hlt : List.findIdx (fun l => strings.Contains l marker) lines < lines.length
    · simp [hlt] at h
    · have := @List.findIdx_le_length _ (fun l => strings.Contains l marker) lines
      exact List.findIdx_eq_length.1 (by omega)
  · intro h
    have := List.findIdx_eq_length.2 h
    simp [this]

theorem closingLine_eq_none (lines : List GoString) (marker : GoString) :
    closingLine lines marker = none ↔
      ((∀ l ∈ lines, strings.Contains l marker = false) ∨
        ∃ o, openingLine lines marker = some o ∧
          ∀ l ∈ lines.drop (o + 1), strings.TrimSpace l ≠ lit "\x7d") := by
  unfold closingLine
  cases ho : openingLine lines marker with
  | none =>
    simp only [true_iff]
    exact Or.inl ((openingLine_eq_none lines marker).1 ho)
  | some o =>
    have hno : ¬ ∀ l ∈ lines, strings.Contains l marker = false := by
      intro h
      rw [(openingLine_eq_none lines marker).2 h] at ho
      exact absurd ho (by simp)
    have holt : o < lines.length := by
      unfold openingLine at ho
      by_cases hlt : List.findIdx (fun l => strings.Contains l marker) lines < lines.length
      · simp only [hlt, if_true, Option.some.injEq] at ho; omega
      · simp [hlt] at ho
    simp only [Option.some.injEq, exists_eq_left', hno, false_or]
    have hle := @List.findIdx_le_length _
      (fun l => decide (strings.TrimSpace l = lit "\x7d")) (lines.drop (o + 1))
    rw [List.length_drop] at hle
    constructor
    · intro h
      by_cases hlt : o + 1 + List.findIdx (fun l => decide (strings.TrimSpace l = lit "\x7d"))
          (lines.drop (o + 1)) < lines.length
      · simp [hlt] at h
      · have hall := List.findIdx_eq_length.1
          (show List.findIdx (fun l => decide (strings.TrimSpace l = lit "\x7d"))
              (lines.drop (o + 1)) = (lines.drop (o + 1)).length by
            rw [List.length_drop]; omega)
        intro l hl
        simpa using hall l hl
    · intro h
      have := List.findIdx_eq_length.2
        (show ∀ l ∈ lines.drop (o + 1),
            (fun l => decide (strings.TrimSpace l = lit "\x7d")) l = false from
          fun l hl => by simpa using h l hl)
      rw [this, List.length_drop]
      have : ¬ (o + 1 + (lines.length - (o + 1)) < lines.length) := by omega
      simp [this]

/-- The content AddField writes: the lines of the original content with the
field definition spliced in front of line `p`. -/
theorem AddField_splice (content typesFile : GoString)
    (writeErr : Option GoString) (params : AddFieldParams) (out : GoString)
    (h : (AddField (.ok content) writeErr typesFile params).result = .ok out) :
    ∃ (goType : GoString) (p : Nat),
      getGoType params.FieldType params.Resource params.FieldName = .ok goType ∧
      findInsertionPoint content (parentTypeOf params) = (p : Int) ∧
      p < (strings.Split content 0x0A).length ∧
      (AddField (.ok content) writeErr typesFile params).written =
        some (strings.Join ((strings.Split content 0x0A).take p ++
          [buildFieldDefinition params.FieldName goType (jsonNameOf params)
            params.ProtoPath params.Description] ++
          (strings.Split content 0x0A).drop p) [0x0A]) ∧
      strings.Split (strings.Join ((strings.Split content 0x0A).take p ++
          [buildFieldDefinition params.FieldName goType (jsonNameOf params)
            params.ProtoPath params.Description] ++
          (strings.Split content 0x0A).drop p) [0x0A]) 0x0A =
        (strings.Split content 0x0A).take p ++
          strings.Split (buildFieldDefinition params.FieldName goType (jsonNameOf params)
            params.ProtoPath params.Description) 0x0A ++
          (strings.Split content 0x0A).drop p := by
  obtain ⟨goType, hg, hne, hw⟩ := AddField_ok content typesFile writeErr params out h
  obtain ⟨p, c, hp, _, hpc, hcl⟩ := findInsertionPoint_bounds content (parentTypeOf params) hne
  have hplt : p < (strings.Split content 0x0A).length := by omega
  rw [hp, Int.toNat_ofNat, lit_newline] at hw
  refine ⟨goType, p, hg, hp, hplt, hw, ?_⟩
  have hne2 : (strings.Split content 0x0A).take p ++
      [buildFieldDefinition params.FieldName goType (jsonNameOf params)
        params.ProtoPath params.Description] ++ (strings.Split content 0x0A).drop p ≠ [] := by
    simp
  have e1 := strings.flatMap_Split_of_not_mem ((strings.Split content 0x0A).take p) 0x0A
    (fun l hl => strings.not_mem_of_mem_Split content 0x0A l (List.mem_of_mem_take hl))
  have e2 := strings.flatMap_Split_of_not_mem ((strings.Split content 0x0A).drop p) 0x0A
    (fun l hl => strings.not_mem_of_mem_Split content 0x0A l (List.mem_of_mem_drop hl))
  rw [strings.Split_Join _ _ hne2, List.flatMap_append, List.flatMap_append, e1, e2]
  simp

/-! ## Field inserter: the properties -/

/-- C1: when AddField succeeds, the content it writes is the original content
with exactly one contiguous insertion, the rendered field block followed by one
newline, at the byte offset where line `p` begins, `p` being the value returned
by findInsertionPoint; deleting the insertion gives the original content back,
and the lines of the original content are all kept, unchanged and in order,
around the lines of the block. -/
theorem AddField_single_insertion (content typesFile : GoString)
    (writeErr : Option GoString) (params : AddFieldParams) (out : GoString)
    (h : (AddField (.ok content) writeErr typesFile params).result = .ok out) :
    ∃ (goType : GoString) (p : Nat) (newContent : GoString),
      getGoType params.FieldType params.Resource params.FieldName = .ok goType ∧
      findInsertionPoint content (parentTypeOf params) = (p : Int) ∧
      p < (strings.Split content 0x0A).length ∧
      lineStart (strings.Split content 0x0A) p ≤ content.length ∧
      (AddField (.ok content) writeErr typesFile params).written = some newContent ∧
      newContent =
        content.take (lineStart (strings.Split content 0x0A) p) ++
          (buildFieldDefinition params.FieldName goType (jsonNameOf params)
            params.ProtoPath params.Description ++ lit "\n") ++
          content.drop (lineStart (strings.Split content 0x0A) p) ∧
      newContent.take (lineStart (strings.Split content 0x0A) p) ++
          newContent.drop (lineStart (strings.Split content 0x0A) p +
            (buildFieldDefinition params.FieldName goType (jsonNameOf params)
              params.ProtoPath params.Description ++ lit "\n").length) = content ∧
      strings.Split newContent 0x0A =
        (strings.Split content 0x0A).take p ++
          strings.Split (buildFieldDefinition params.FieldName goType (jsonNameOf params)
            params.ProtoPath params.Description) 0x0A ++
          (strings.Split content 0x0A).drop p := by
  obtain ⟨goType, p, hg, hp, hplt, hw, hsplit⟩ :=
    AddField_splice content typesFile writeErr params out h
  have hoff : lineStart (strings.Split content 0x0A) p ≤ content.length := by
    have := strings.lineStart_le (strings.Split content 0x0A) 0x0A p hplt
    rwa [strings.Join_Split] at this
  have hsplice := strings.Join_insert (strings.Split content 0x0A)
    (buildFieldDefinition params.FieldName goType (jsonNameOf params)
      params.ProtoPath params.Description) 0x0A p hplt
  rw [strings.Join_Split] at hsplice
  have hlen : (content.take (lineStart (strings.Split content 0x0A) p)).length =
      lineStart (strings.Split content 0x0A) p := by
    rw [List.length_take]; omega
  have hdel := splice_delete (content.take (lineStart (strings.Split content 0x0A) p))
    (buildFieldDefinition params.FieldName goType (jsonNameOf params)
      params.ProtoPath params.Description ++ [0x0A])
    (content.drop (lineStart (strings.Split content 0x0A) p))
  rw [hlen, List.take_append_drop] at hdel
  refine ⟨goType, p, _, hg, hp, hplt, hoff, hw, ?_, ?_, hsplit⟩
  · rw [hsplice, lit_newline]
  · rw [hsplice, lit_newline]; exact hdel

/-- The scenario of the specification is a successful call, to which
`AddField_single_insertion` applies. -/
theorem AddField_single_insertion_witness :
    ∃ (goType : GoString) (p : Nat) (newContent : GoString),
      getGoType sizeField.FieldType sizeField.Resource sizeField.FieldName = .ok goType ∧
      findInsertionPoint widgetTypes (parentTypeOf sizeField) = (p : Int) ∧
      p < (strings.Split widgetTypes 0x0A).length ∧
      lineStart (strings.Split widgetTypes 0x0A) p ≤ widgetTypes.length ∧
      (AddField (.ok widgetTypes) none widgetTypesPath sizeField).written = some newContent ∧
      newContent =
        widgetTypes.take (lineStart (strings.Split widgetTypes 0x0A) p) ++
          (buildFieldDefinition sizeField.FieldName goType (jsonNameOf sizeField)
            sizeField.ProtoPath sizeField.Description ++ lit "\n") ++
          widgetTypes.drop (lineStart (strings.Split widgetTypes 0x0A) p) ∧
      newContent.take (lineStart (strings.Split widgetTypes 0x0A) p) ++
          newContent.drop (lineStart (strings.Split widgetTypes 0x0A) p +
            (buildFieldDefinition sizeField.FieldName goType (jsonNameOf sizeField)
              sizeField.ProtoPath sizeField.Description ++ lit "\n").length) = widgetTypes ∧
      strings.Split newContent 0x0A =
        (strings.Split widgetTypes 0x0A).take p ++
          strings.Split (buildFieldDefinition sizeField.FieldName goType (jsonNameOf sizeField)
            sizeField.ProtoPath sizeField.Description) 0x0A ++
          (strings.Split widgetTypes 0x0A).drop p :=
  AddField_single_insertion widgetTypes widgetTypesPath none sizeField
    ([0xC3, 0xA2, 0xC5, 0x93, 0xE2, 0x80, 0xA6] ++ lit " Added field to " ++
      widgetTypesPath ++ lit "\n\n" ++ sizeBlock)
    (by decide)

/-- C2: the code at a struct without a tagged field line.  The struct opens at
line 2 and closes at line 3, findInsertionPoint returns 0, which is not greater
than the index of the opening line, and AddField succeeds and writes the block
in front of the first line of the file, outside the body of the struct. -/
theorem AddField_empty_struct_inserts_at_top :
    openingLine (strings.Split emptyStructTypes 0x0A) (structMarker (lit "WidgetSpec")) =
        some 2 ∧
      closingLine (strings.Split emptyStructTypes 0x0A) (structMarker (lit "WidgetSpec")) =
        some 3 ∧
      findInsertionPoint emptyStructTypes (lit "WidgetSpec") = 0 ∧
      ¬ ((2 : Int) < findInsertionPoint emptyStructTypes (lit "WidgetSpec")) ∧
      (AddField (.ok emptyStructTypes) none widgetTypesPath sizeField).result =
        .ok ([0xC3, 0xA2, 0xC5, 0x93, 0xE2, 0x80, 0xA6] ++ lit " Added field to " ++
          widgetTypesPath ++ lit "\n\n" ++ sizeBlock) ∧
      (AddField (.ok emptyStructTypes) none widgetTypesPath sizeField).written =
        some (sizeBlock ++ lit "\n" ++ emptyStructTypes) := by
  decide

set_option maxRecDepth 100000 in
/-- C3, as stated, fails: in `commentedTypes` the struct closes at line 3, but
findInsertionPoint returns 2, the line after the last tagged field line; in the
rewritten content the line directly after the inserted block (lines 2 and 3)
is the comment line, which does not trim to a closing brace. -/
theorem AddField_before_closing_counterexample :
    closingLine (strings.Split commentedTypes 0x0A) (structMarker (parentTypeOf sizeField)) =
        some 3 ∧
      findInsertionPoint commentedTypes (parentTypeOf sizeField) = 2 ∧
      (AddField (.ok commentedTypes) none widgetTypesPath sizeField).written =
        some commentedTypesAfter ∧
      (strings.Split commentedTypesAfter 0x0A).getD 4 [] = lit "\t// more to come" ∧
      strings.TrimSpace (lit "\t// more to come") ≠ lit "\x7d" := by
  decide

/-- C3, amended: when AddField succeeds and the body of the struct, the lines
after the opening line `o` and before the closing line `c`, has a field line,
`j` being the last one, then findInsertionPoint returns `j + 1` and the block
is inserted directly after line `j`: in the rewritten content line `j` is the
last field line, the lines of the block follow it, and the line directly after
the block is the original line `j + 1`, which is the closing line of the struct
exactly when `j + 1 = c`. -/
theorem AddField_after_last_field_line (content typesFile : GoString)
    (writeErr : Option GoString) (params : AddFieldParams) (out : GoString) (o c j : Nat)
    (h : (AddField (.ok content) writeErr typesFile params).result = .ok out)
    (ho : openingLine (strings.Split content 0x0A) (structMarker (parentTypeOf params)) =
      some o)
    (hc : closingLine (strings.Split content 0x0A) (structMarker (parentTypeOf params)) =
      some c)
    (hoj : o < j) (hjc : j < c)
    (hf : isFieldLine (structMarker (parentTypeOf params))
      ((strings.Split content 0x0A).getD j []) = true)
    (hlast : ∀ j', j' < c → j < j' →
      isFieldLine (structMarker (parentTypeOf params))
        ((strings.Split content 0x0A).getD j' []) = false) :
    findInsertionPoint content (parentTypeOf params) = (j : Int) + 1 ∧
      ∃ (goType newContent : GoString),
        getGoType params.FieldType params.Resource params.FieldName = .ok goType ∧
        (AddField (.ok content) writeErr typesFile params).written = some newContent ∧
        strings.Split newContent 0x0A =
          (strings.Split content 0x0A).take (j + 1) ++
            strings.Split (buildFieldDefinition params.FieldName goType (jsonNameOf params)
              params.ProtoPath params.Description) 0x0A ++
            (strings.Split content 0x0A).drop (j + 1) ∧
        (strings.Split newContent 0x0A).getD j [] = (strings.Split content 0x0A).getD j [] ∧
        (strings.Split newContent 0x0A).getD
            (j + 1 + (strings.Split (buildFieldDefinition params.FieldName goType
              (jsonNameOf params) params.ProtoPath params.Description) 0x0A).length) [] =
          (strings.Split content 0x0A).getD (j + 1) [] ∧
        (strings.TrimSpace ((strings.Split newContent 0x0A).getD
            (j + 1 + (strings.Split (buildFieldDefinition params.FieldName goType
              (jsonNameOf params) params.ProtoPath params.Description) 0x0A).length) []) =
          lit "\x7d" ↔ j + 1 = c) := by
  obtain ⟨o', ho', _, hcl, htc, hbody, hr⟩ :=
    findInsertionPoint_some content (parentTypeOf params) c hc
  have hoo : o' = o := by rw [ho] at ho'; exact (Option.some.inj ho').symm
  subst hoo
  have hfip : findInsertionPoint content (parentTypeOf params) = (j : Int) + 1 := by
    rcases hr with ⟨j0, h1, h2, hf0, hall, hr⟩ | ⟨hall, _⟩
    · have : j0 = j := by
        rcases Nat.lt_trichotomy j0 j with hlt | heq | hgt
        · have := hall j hlt hjc; rw [hf] at this; exact absurd this (by simp)
        · exact heq
        · have := hlast j0 h2 hgt; rw [hf0] at this; exact absurd this (by simp)
      rw [hr, this]
    · have := hall j hoj hjc; rw [hf] at this; exact absurd this (by simp)
  obtain ⟨goType, p, hg, hp, _, hw, hsplit⟩ :=
    AddField_splice content typesFile writeErr params out h
  have hpj : p = j + 1 := by
    have : (p : Int) = (j : Int) + 1 := by rw [← hp, hfip]
    omega
  subst hpj
  have hle : j + 1 ≤ (strings.Split content 0x0A).length := by omega
  have hafter := getD_splice_after (strings.Split content 0x0A)
    (strings.Split (buildFieldDefinition params.FieldName goType (jsonNameOf params)
      params.ProtoPath params.Description) 0x0A) (j + 1) 0 hle
  simp only [Nat.add_zero] at hafter
  refine ⟨hfip, goType, _, hg, hw, hsplit, ?_, ?_, ?_⟩
  · rw [hsplit]
    exact getD_splice_before _ _ (j + 1) j (by omega) hle
  · rw [hsplit]; exact hafter
  · rw [hsplit, hafter]
    constructor
    · intro ht
      by_contra hne
      exact hbody (j + 1) (by omega) (by omega) ht
    · intro he
      rw [he]; exact htc

/-- The scenario of the specification satisfies the hypotheses of
`AddField_after_last_field_line`: the struct opens at line 0, closes at line 2
and its last field line is line 1. -/
theorem AddField_after_last_field_line_witness :
    findInsertionPoint widgetTypes (parentTypeOf sizeField) = ((1 : Nat) : Int) + 1 ∧
      ∃ (goType newContent : GoString),
        getGoType sizeField.FieldType sizeField.Resource sizeField.FieldName = .ok goType ∧
        (AddField (.ok widgetTypes) none widgetTypesPath sizeField).written =
          some newContent ∧
        strings.Split newContent 0x0A =
          (strings.Split widgetTypes 0x0A).take (1 + 1) ++
            strings.Split (buildFieldDefinition sizeField.FieldName goType
              (jsonNameOf sizeField) sizeField.ProtoPath sizeField.Description) 0x0A ++
            (strings.Split widgetTypes 0x0A).drop (1 + 1) ∧
        (strings.Split newContent 0x0A).getD 1 [] =
          (strings.Split widgetTypes 0x0A).getD 1 [] ∧
        (strings.Split newContent 0x0A).getD
            (1 + 1 + (strings.Split (buildFieldDefinition sizeField.FieldName goType
              (jsonNameOf sizeField) sizeField.ProtoPath sizeField.Description)
              0x0A).length) [] =
          (strings.Split widgetTypes 0x0A).getD (1 + 1) [] ∧
        (strings.TrimSpace ((strings.Split newContent 0x0A).getD
            (1 + 1 + (strings.Split (buildFieldDefinition sizeField.FieldName goType
              (jsonNameOf sizeField) sizeField.ProtoPath sizeField.Description)
              0x0A).length) []) =
          lit "\x7d" ↔ 1 + 1 = 2) :=
  AddField_after_last_field_line widgetTypes widgetTypesPath none sizeField
    ([0xC3, 0xA2, 0xC5, 0x93, 0xE2, 0x80, 0xA6] ++ lit " Added field to " ++
      widgetTypesPath ++ lit "\n\n" ++ sizeBlock) 0 2 1
    (by decide) (by decide) (by decide) (by decide) (by decide) (by decide) (by decide)

/-- C4: findInsertionPoint returns -1 exactly when no line contains the opening
marker of the target type, or no line after the first line containing it trims
to a closing brace; otherwise the struct has a closing line `c` and the value
returned lies between 0 and `c`.  When the call made by AddField (the file was
read and the field type is supported) returns -1, AddField writes nothing and
returns an error whose text contains the target type name, `ParentType` if
given and `<Resource>Spec` otherwise, and the types-file path. -/
theorem findInsertionPoint_not_found (content parentType : GoString) :
    (findInsertionPoint content parentType = -1 ↔
      ((∀ l ∈ strings.Split content 0x0A,
          strings.Contains l (lit "type " ++ parentType ++ lit " struct \x7b") = false) ∨
        ∃ o, openingLine (strings.Split content 0x0A)
              (lit "type " ++ parentType ++ lit " struct \x7b") = some o ∧
          ∀ l ∈ (strings.Split content 0x0A).drop (o + 1), strings.TrimSpace l ≠ lit "\x7d")) ∧
    (findInsertionPoint content parentType ≠ -1 →
      ∃ c, closingLine (strings.Split content 0x0A)
            (lit "type " ++ parentType ++ lit " struct \x7b") = some c ∧
        0 ≤ findInsertionPoint content parentType ∧
        findInsertionPoint content parentType ≤ (c : Int)) ∧
    (∀ (typesFile : GoString) (writeErr : Option GoString) (params : AddFieldParams)
        (goType : GoString),
      parentType = (if params.ParentType = [] then params.Resource ++ lit "Spec"
        else params.ParentType) →
      getGoType params.FieldType params.Resource params.FieldName = .ok goType →
      findInsertionPoint content parentType = -1 →
      ∃ msg, (AddField (.ok content) writeErr typesFile params).result = .error msg ∧
        strings.Contains msg parentType = true ∧
        strings.Contains msg typesFile = true ∧
        (AddField (.ok content) writeErr typesFile params).written = none) := by
  have hiff : findInsertionPoint content parentType = -1 ↔
      closingLine (strings.Split content 0x0A) (structMarker parentType) = none := by
    constructor
    · intro h
      cases hc : closingLine (strings.Split content 0x0A) (structMarker parentType) with
      | none => rfl
      | some c =>
        obtain ⟨o, _, _, _, _, _, hr⟩ := findInsertionPoint_some content parentType c hc
        rcases hr with ⟨j, _, _, _, _, hr⟩ | ⟨_, hr⟩
        · rw [hr] at h; omega
        · rw [hr] at h; omega
    · exact findInsertionPoint_none content parentType
  refine ⟨?_, ?_, ?_⟩
  · rw [hiff, closingLine_eq_none]; rfl
  · intro hne
    obtain ⟨p, c, hp, hc, hpc, _⟩ := findInsertionPoint_bounds content parentType hne
    exact ⟨c, hc, by rw [hp]; omega, by rw [hp]; omega⟩
  · intro typesFile writeErr params goType hpt hg hfip
    have hpt' : parentTypeOf params = parentType := by rw [hpt]; rfl
    refine ⟨lit "could not find parent type: " ++ parentType ++
      lit "\n\nMake sure the type exists in " ++ typesFile, ?_, ?_, ?_, ?_⟩
    · simp [AddField, hg, hpt', hfip]
    · rw [List.append_assoc, List.append_assoc, ← List.append_assoc]
      exact strings.Contains_append _ _ _
    · have := strings.Contains_append (lit "could not find parent type: " ++ parentType ++
        lit "\n\nMake sure the type exists in ") typesFile []
      rwa [List.append_nil] at this
    · simp [AddField, hg, hpt', hfip]

/-- A types file without the target struct: findInsertionPoint returns -1 and
`findInsertionPoint_not_found` gives the error of AddField. -/
theorem findInsertionPoint_not_found_witness :
    ∃ msg, (AddField (.ok otherTypes) none widgetTypesPath sizeField).result = .error msg ∧
      strings.Contains msg (lit "WidgetSpec") = true ∧
      strings.Contains msg widgetTypesPath = true ∧
      (AddField (.ok otherTypes) none widgetTypesPath sizeField).written = none :=
  (findInsertionPoint_not_found otherTypes (lit "WidgetSpec")).2.2 widgetTypesPath none
    sizeField (lit "*int64") (by decide) (by decide) (by decide)

/-- C5: getGoType maps `string`, `int64`, `bool` and `array` to `*string`,
`*int64`, `*bool` and `[]string`, and `object` to `*<resource>_<fieldName>`;
for every other tag it returns the error `unsupported field type: <tag>`; so it
succeeds exactly for these five tags. -/
theorem getGoType_table (fieldType resource fieldName : GoString) :
    getGoType (lit "string") resource fieldName = .ok (lit "*string") ∧
    getGoType (lit "int64") resource fieldName = .ok (lit "*int64") ∧
    getGoType (lit "bool") resource fieldName = .ok (lit "*bool") ∧
    getGoType (lit "array") resource fieldName = .ok (lit "[]string") ∧
    getGoType (lit "object") resource fieldName =
      .ok (lit "*" ++ resource ++ lit "_" ++ fieldName) ∧
    (fieldType ∉ [lit "string", lit "int64", lit "bool", lit "array", lit "object"] →
      getGoType fieldType resource fieldName =
        .error (lit "unsupported field type: " ++ fieldType)) ∧
    ((∃ goType, getGoType fieldType resource fieldName = .ok goType) ↔
      fieldType ∈ [lit "string", lit "int64", lit "bool", lit "array", lit "object"]) := by
  have h1 : getGoType (lit "string") resource fieldName = .ok (lit "*string") := by
    simp [getGoType]
  have h2 : getGoType (lit "int64") resource fieldName = .ok (lit "*int64") := by
    unfold getGoType; rw [if_neg (by decide), if_pos rfl]
  have h3 : getGoType (lit "bool") resource fieldName = .ok (lit "*bool") := by
    unfold getGoType; rw [if_neg (by decide), if_neg (by decide), if_pos rfl]
  have h4 : getGoType (lit "array") resource fieldName = .ok (lit "[]string") := by
    unfold getGoType
    rw [if_neg (by decide), if_neg (by decide), if_neg (by decide), if_pos rfl]
  have h5 : getGoType (lit "object") resource fieldName =
      .ok (lit "*" ++ resource ++ lit "_" ++ fieldName) := by
    unfold getGoType
    rw [if_neg (by decide), if_neg (by decide), if_neg (by decide), if_neg (by decide),
      if_pos rfl]
  have h6 : fieldType ∉ [lit "string", lit "int64", lit "bool", lit "array", lit "object"] →
      getGoType fieldType resource fieldName =
        .error (lit "unsupported field type: " ++ fieldType) := by
    intro h
    simp only [List.mem_cons, List.mem_singleton, List.not_mem_nil, or_false, not_or] at h
    unfold getGoType
    rw [if_neg h.1, if_neg h.2.1, if_neg h.2.2.1, if_neg h.2.2.2.1, if_neg h.2.2.2.2]
  refine ⟨h1, h2, h3, h4, h5, h6, ?_⟩
  constructor
  · rintro ⟨goType, hg⟩
    by_contra hn
    rw [h6 hn] at hg
    exact absurd hg (by simp)
  · intro h
    simp only [List.mem_cons, List.mem_singleton, List.not_mem_nil, or_false] at h
    rcases h with h | h | h | h | h <;> subst h
    · exact ⟨_, h1⟩
    · exact ⟨_, h2⟩
    · exact ⟨_, h3⟩
    · exact ⟨_, h4⟩
    · exact ⟨_, h5⟩

/-- The tag `float` is none of the five: `getGoType_table` gives its error. -/
theorem getGoType_table_witness :
    getGoType (lit "float") (lit "Widget") (lit "Size") =
      .error (lit "unsupported field type: " ++ lit "float") :=
  (getGoType_table (lit "float") (lit "Widget") (lit "Size")).2.2.2.2.2.1 (by decide)

set_option maxRecDepth 100000 in
/-- C6: buildFieldDefinition renders the line `<TAB>// <description>` followed
by a newline exactly when the description is not empty, then always the line
`<TAB>// +kcc:proto=<protoPath>`, a newline, and last the field line
`<TAB><fieldName> <goType> <BACKTICK>json:"<jsonName>,omitempty"<BACKTICK>`.
In the scenario of the specification the rewritten file has the annotation line
and the line of the field `Size` directly after the line of the field `Name`
and directly before the closing brace. -/
theorem buildFieldDefinition_render
    (fieldName goType jsonName protoPath description : GoString) :
    buildFieldDefinition fieldName goType jsonName protoPath description =
      (if description = [] then [] else lit "\t// " ++ description ++ lit "\n") ++
        (lit "\t// +kcc:proto=" ++ protoPath) ++ lit "\n" ++
        (lit "\t" ++ fieldName ++ lit " " ++ goType ++ lit " `json:\"" ++ jsonName ++
          lit ",omitempty\"`") ∧
    (AddField (.ok widgetTypes) none widgetTypesPath sizeField).written =
      some widgetTypesAfter ∧
    strings.Split widgetTypesAfter 0x0A =
      [lit "type WidgetSpec struct \x7b",
       lit "\tName *string `json:\"name\"`",
       lit "\t// +kcc:proto=svcy.v1.Widget.size",
       lit "\tSize *int64 `json:\"size,omitempty\"`",
       lit "\x7d"] := by
  refine ⟨?_, by decide, by decide⟩
  unfold buildFieldDefinition
  by_cases hd : description = []
  · simp [hd, strings.Join]
  · simp [hd, strings.Join]

/-- C7: the code at a field name whose first letter is not ASCII.  The name
`Éclair` has 7 bytes; with an empty JSONName the serialized name has 9 bytes:
the replacement character U+FFFD, the second byte of the letter `É`, and
`clair`; it is not `éclair`. -/
theorem toCamelCase_non_ascii_initial :
    eclairField.FieldName = [0xC3, 0x89, 0x63, 0x6C, 0x61, 0x69, 0x72] ∧
    eclairField.JSONName = [] ∧
    jsonNameOf eclairField = toCamelCase eclairField.FieldName ∧
    toCamelCase eclairField.FieldName =
      [0xEF, 0xBF, 0xBD, 0x89, 0x63, 0x6C, 0x61, 0x69, 0x72] ∧
    (toCamelCase eclairField.FieldName).length ≠ eclairField.FieldName.length ∧
    toCamelCase eclairField.FieldName ≠ lit "éclair" ∧
    buildFieldDefinition eclairField.FieldName (lit "*string") (jsonNameOf eclairField)
        eclairField.ProtoPath eclairField.Description =
      lit "\t// +kcc:proto=svcy.v1.Widget.eclair\n\tÉclair *string `json:\"" ++
        [0xEF, 0xBF, 0xBD, 0x89] ++ lit "clair,omitempty\"`" := by
  decide

/-! ## Phase model: lemmas -/

theorem probeFiles_fold (fileExists : GoString → Bool) (files : List (GoString × GoString))
    (st : probeState) :
    (files.foldl
      (fun st kv =>
        let exists_ := fileExists kv.2
        ({ filesExist := st.filesExist.set kv.1 exists_,
           someExist := if exists_ then true else st.someExist,
           allExist := if !exists_ then false else st.allExist } : probeState)) st).allExist =
        (st.allExist && files.all (fun f => fileExists f.2)) ∧
    (files.foldl
      (fun st kv =>
        let exists_ := fileExists kv.2
        ({ filesExist := st.filesExist.set kv.1 exists_,
           someExist := if exists_ then true else st.someExist,
           allExist := if !exists_ then false else st.allExist } : probeState)) st).someExist =
        (st.someExist || files.any (fun f => fileExists f.2)) := by
  induction files generalizing st with
  | nil => simp
  | cons f files ih =>
    rw [List.foldl_cons]
    obtain ⟨h1, h2⟩ := ih
      ({ filesExist := st.filesExist.set f.1 (fileExists f.2),
         someExist := if fileExists f.2 then true else st.someExist,
         allExist := if !fileExists f.2 then false else st.allExist } : probeState)
    refine ⟨?_, ?_⟩
    · rw [h1]; cases hfe : fileExists f.2 <;> simp [hfe]
    · rw [h2]; cases hfe : fileExists f.2 <;> simp [hfe]

theorem probeFiles_filesExist (fileExists : GoString → Bool)
    (files : List (GoString × GoString)) (st : probeState)
    (hnew : ∀ f ∈ files, ∀ e ∈ st.filesExist, e.1 ≠ f.1)
    (hnd : (files.map Prod.fst).Nodup) :
    (files.foldl
      (fun st kv =>
        let exists_ := fileExists kv.2
        ({ filesExist := st.filesExist.set kv.1 exists_,
           someExist := if exists_ then true else st.someExist,
           allExist := if !exists_ then false else st.allExist } : probeState)) st).filesExist =
      st.filesExist ++ files.map (fun f => (f.1, fileExists f.2)) := by
  induction files generalizing st with
  | nil => simp
  | cons f files ih =>
    rw [List.foldl_cons]
    have hset : st.filesExist.set f.1 (fileExists f.2) =
        st.filesExist ++ [(f.1, fileExists f.2)] := by
      unfold BoolMap.set
      have : st.filesExist.any (fun e => decide (e.1 = f.1)) = false := by
        rw [List.any_eq_false]
        intro e he
        simpa using hnew f (List.mem_cons_self _ _) e he
      simp [this]
    rw [List.map_cons, List.nodup_cons] at hnd
    rw [ih _ ?_ hnd.2]
    · simp only [hset]; simp
    · intro g hg e he
      simp only [hset, List.mem_append, List.mem_singleton] at he
      rcases he with he | he
      · exact hnew g (List.mem_cons_of_mem _ hg) e he
      · subst he
        intro heq
        exact hnd.1 (List.mem_map.2 ⟨g, hg, heq.symm⟩)

/-- The status of a phase that owns at least one artifact, with distinct keys. -/
theorem phaseStatusOf_spec (fileExists : GoString → Bool) (ph : phaseDefinition)
    (hne : ph.files ≠ []) (hnd : (ph.files.map Prod.fst).Nodup) :
    (phaseStatusOf fileExists ph).Number = ph.number ∧
    (phaseStatusOf fileExists ph).Name = ph.name ∧
    ((phaseStatusOf fileExists ph).Status = lit "completed" ↔
      ∀ f ∈ ph.files, fileExists f.2 = true) ∧
    ((phaseStatusOf fileExists ph).Status = lit "in_progress" ↔
      (∃ f ∈ ph.files, fileExists f.2 = true) ∧ ¬ ∀ f ∈ ph.files, fileExists f.2 = true) ∧
    ((phaseStatusOf fileExists ph).Status = lit "not_started" ↔
      ∀ f ∈ ph.files, fileExists f.2 = false) ∧
    (phaseStatusOf fileExists ph).FilesExist =
      ph.files.map (fun f => (f.1, fileExists f.2)) := by
  have hfold := probeFiles_fold fileExists ph.files
    { filesExist := [], allExist := true, someExist := false }
  have hmap := probeFiles_filesExist fileExists ph.files
    { filesExist := [], allExist := true, someExist := false } (by simp) hnd
  have h12 : lit "completed" ≠ lit "in_progress" := by decide
  have h13 : lit "completed" ≠ lit "not_started" := by decide
  have h23 : lit "in_progress" ≠ lit "not_started" := by decide
  obtain ⟨f0, hf0⟩ := List.exists_mem_of_ne_nil _ hne
  unfold phaseStatusOf probeFiles
  simp only [hfold.1, hfold.2, hmap, Bool.true_and, Bool.false_or, List.nil_append]
  refine ⟨trivial, trivial, ?_, ?_, ?_, trivial⟩
  · cases hall : ph.files.all (fun f => fileExists f.2) with
    | true =>
      simp only [if_true, true_iff]
      simpa using hall
    | false =>
      have hno : ¬ ∀ f ∈ ph.files, fileExists f.2 = true := by
        intro h; rw [List.all_eq_true.2 (fun f hf => h f hf)] at hall; simp at hall
      cases ph.files.any (fun f => fileExists f.2) with
      | true =>
        simp only [Bool.false_eq_true, if_false, if_true]
        exact ⟨fun h => absurd h h12.symm, fun h => absurd h hno⟩
      | false =>
        simp only [Bool.false_eq_true, if_false]
        exact ⟨fun h => absurd h h13.symm, fun h => absurd h hno⟩
  · cases hall : ph.files.all (fun f => fileExists f.2) with
    | true =>
      have hyes : ∀ f ∈ ph.files, fileExists f.2 = true := by simpa using hall
      simp only [if_true]
      constructor
      · intro h; exact absurd h h12
      · intro h; exact absurd hyes h.2
    | false =>
      have hno : ¬ ∀ f ∈ ph.files, fileExists f.2 = true := by
        intro h; rw [List.all_eq_true.2 (fun f hf => h f hf)] at hall; simp at hall
      cases hany : ph.files.any (fun f => fileExists f.2) with
      | true =>
        have hex : ∃ f ∈ ph.files, fileExists f.2 = true := by simpa using hany
        simp only [Bool.false_eq_true, if_false, if_true, true_iff]
        exact ⟨hex, hno⟩
      | false =>
        have hnex : ¬ ∃ f ∈ ph.files, fileExists f.2 = true := by
          intro h
          have : ph.files.any (fun f => fileExists f.2) = true := by simpa using h
          rw [hany] at this; simp at this
        simp only [Bool.false_eq_true, if_false]
        constructor
        · intro h; exact absurd h h23.symm
        · intro h; exact absurd h.1 hnex
  · cases hall : ph.files.all (fun f => fileExists f.2) with
    | true =>
      have hyes : ∀ f ∈ ph.files, fileExists f.2 = true := by simpa using hall
      simp only [if_true]
      constructor
      · intro h; exact absurd h h13
      · intro h
        have := h f0 hf0
        rw [hyes f0 hf0] at this
        exact absurd this (by simp)
    | false =>
      cases hany : ph.files.any (fun f => fileExists f.2) with
      | true =>
        obtain ⟨f, hf, hfe⟩ : ∃ f ∈ ph.files, fileExists f.2 = true := by simpa using hany
        simp only [Bool.false_eq_true, if_false, if_true]
        constructor
        · intro h; exact absurd h h23
        · intro h
          have := h f hf
          rw [hfe] at this
          exact absurd this (by simp)
      | false =>
        simp only [Bool.false_eq_true, if_false, true_iff]
        intro f hf
        have := List.any_eq_false.1 hany f hf
        simpa using this

theorem phases_files (protoLocation service version resourceLower : GoString) :
    ∀ ph ∈ phases protoLocation service version resourceLower,
      ph.files ≠ [] ∧ (ph.files.map Prod.fst).Nodup := by
  intro ph hph
  simp only [phases, List.mem_cons, List.mem_singleton, List.not_mem_nil, or_false] at hph
  rcases hph with rfl | rfl | rfl | rfl | rfl | rfl | rfl
  all_goals exact ⟨by simp, by simp; try decide⟩

theorem GetMigrationStatus_eq (caseTable : Nat → Nat) (info : ControllerTypeInfo)
    (fileExists : GoString → Bool) (resource service version : GoString)
    (hnd : info.Type_ ≠ lit "direct") (hs : info.Service = some service)
    (hv : info.Version = some version) :
    GetMigrationStatus caseTable (.ok info) fileExists resource =
      .ok { Resource := resource,
            OverallProgress :=
              fmtInt (completedCount ((phases (protoLocationOf info service) service version
                (strings.ToLower caseTable resource)).map (phaseStatusOf fileExists))) ++
              lit "/" ++
              fmtInt ((phases (protoLocationOf info service) service version
                (strings.ToLower caseTable resource)).map (phaseStatusOf fileExists)).length ++
              lit " phases",
            CurrentPhase := currentPhaseOf ((phases (protoLocationOf info service) service
              version (strings.ToLower caseTable resource)).map (phaseStatusOf fileExists)),
            Phases := (phases (protoLocationOf info service) service version
              (strings.ToLower caseTable resource)).map (phaseStatusOf fileExists),
            NextAction := nextActionOf (currentPhaseOf ((phases (protoLocationOf info service)
              service version (strings.ToLower caseTable resource)).map
                (phaseStatusOf fileExists))),
            CanAddFields := decide (completedCount ((phases (protoLocationOf info service)
              service version (strings.ToLower caseTable resource)).map
                (phaseStatusOf fileExists)) ≥ 4) } := by
  simp only [GetMigrationStatus, hnd, hs, hv, if_false]

theorem phases_numbers (fileExists : GoString → Bool)
    (protoLocation service version resourceLower : GoString) :
    ((phases protoLocation service version resourceLower).map
      (phaseStatusOf fileExists)).map (fun p => p.Number) = [1, 2, 3, 4, 5, 6, 7] := by
  simp [phases, phaseStatusOf]

theorem completedCount_fold (l : List PhaseStatus) (n : Nat) :
    l.foldl (fun completed p =>
      if p.Status = lit "completed" then completed + 1 else completed) n =
      n + (l.filter (fun p => decide (p.Status = lit "completed"))).length := by
  induction l generalizing n with
  | nil => simp
  | cons p l ih =>
    rw [List.foldl_cons, ih, List.filter_cons]
    by_cases h : p.Status = lit "completed"
    · simp only [h, if_true, decide_True, List.length_cons]; omega
    · simp only [h, if_false, decide_False, Bool.false_eq_true]

theorem completedCount_eq (l : List PhaseStatus) :
    completedCount l = (l.filter (fun p => decide (p.Status = lit "completed"))).length := by
  unfold completedCount
  rw [completedCount_fold]; simp

/-- The current phase of a list of phases numbered in ascending order. -/
theorem currentPhaseOf_spec (l : List PhaseStatus) (hne : l ≠ [])
    (hsorted : (l.map (fun p => p.Number)).Pairwise (fun a b => a < b)) :
    currentPhaseOf l ∈ l ∧
    (∀ p ∈ l, p.Number < (currentPhaseOf l).Number → p.Status = lit "completed") ∧
    ((∃ p ∈ l, p.Status ≠ lit "completed") → (currentPhaseOf l).Status ≠ lit "completed") ∧
    ((∀ p ∈ l, p.Status = lit "completed") → l.getLast? = some (currentPhaseOf l)) := by
  unfold currentPhaseOf
  cases hfind : l.find? (fun p => decide (p.Status ≠ lit "completed")) with
  | none =>
    have hall : ∀ p ∈ l, p.Status = lit "completed" := by
      intro p hp
      have := List.find?_eq_none.1 hfind p hp
      simpa using this
    obtain ⟨ys, a, rfl⟩ : ∃ ys a, l = ys ++ [a] := by
      rcases List.eq_nil_or_concat l with h | ⟨ys, a, h⟩
      · exact absurd h hne
      · exact ⟨ys, a, by simpa using h⟩
    simp only [List.getLastD_concat, List.getLast?_append, List.getLast?_singleton]
    refine ⟨by simp, fun p hp _ => hall p hp, ?_, fun _ => by simp⟩
    rintro ⟨p, hp, hnc⟩
    exact absurd (hall p hp) hnc
  | some x =>
    obtain ⟨hx, as, bs, rfl, has⟩ := List.find?_eq_some.1 hfind
    have hxs : x.Status ≠ lit "completed" := by simpa using hx
    simp only
    refine ⟨by simp, ?_, fun _ => hxs, ?_⟩
    · intro p hp hlt
      rw [List.map_append, List.map_cons, List.pairwise_append] at hsorted
      rcases List.mem_append.1 hp with hp | hp
      · have := has p hp
        simpa using this
      · rcases List.mem_cons.1 hp with rfl | hp
        · omega
        · have := (List.pairwise_cons.1 hsorted.2.1).1 p.Number
            (List.mem_map.2 ⟨p, hp, rfl⟩)
          omega
    · intro hall
      exact absurd (hall x (by simp)) hxs

/-! ## Phase model: the properties -/

/-- C8: in the non-direct branch, for every existence oracle, the status list
has one entry for each of the 7 phases; the status of a phase is `completed`
exactly when all its artifacts exist, `in_progress` exactly when at least one
but not all exist, and `not_started` exactly when none exists; it is one of
these three texts, which are pairwise distinct; and FilesExist holds, for each
artifact key of the phase, the existence probed for its path. -/
theorem GetMigrationStatus_phase_status (caseTable : Nat → Nat) (info : ControllerTypeInfo)
    (fileExists : GoString → Bool) (resource service version : GoString)
    (hnd : info.Type_ ≠ lit "direct") (hs : info.Service = some service)
    (hv : info.Version = some version) :
    ∃ ms, GetMigrationStatus caseTable (.ok info) fileExists resource = .ok ms ∧
      ms.Phases.length = 7 ∧
      lit "completed" ≠ lit "in_progress" ∧ lit "completed" ≠ lit "not_started" ∧
      lit "in_progress" ≠ lit "not_started" ∧
      List.Forall₂
        (fun (ph : phaseDefinition) (ps : PhaseStatus) =>
          ps.Number = ph.number ∧
          (ps.Status = lit "completed" ↔ ∀ f ∈ ph.files, fileExists f.2 = true) ∧
          (ps.Status = lit "in_progress" ↔
            (∃ f ∈ ph.files, fileExists f.2 = true) ∧
              ¬ ∀ f ∈ ph.files, fileExists f.2 = true) ∧
          (ps.Status = lit "not_started" ↔ ∀ f ∈ ph.files, fileExists f.2 = false) ∧
          (ps.Status = lit "completed" ∨ ps.Status = lit "in_progress" ∨
            ps.Status = lit "not_started") ∧
          ps.FilesExist = ph.files.map (fun f => (f.1, fileExists f.2)))
        (phases (protoLocationOf info service) service version
          (strings.ToLower caseTable resource))
        ms.Phases := by
  refine ⟨_, GetMigrationStatus_eq caseTable info fileExists resource service version
    hnd hs hv, ?_, by decide, by decide, by decide, ?_⟩
  · simp [phases]
  · simp only
    rw [List.forall₂_map_right_iff, List.forall₂_same]
    intro ph hph
    obtain ⟨hne, hnodup⟩ := phases_files _ _ _ _ ph hph
    obtain ⟨h1, _, h3, h4, h5, h6⟩ := phaseStatusOf_spec fileExists ph hne hnodup
    refine ⟨h1, h3, h4, h5, ?_, h6⟩
    by_cases hall : ∀ f ∈ ph.files, fileExists f.2 = true
    · exact Or.inl (h3.2 hall)
    · by_cases hex : ∃ f ∈ ph.files, fileExists f.2 = true
      · exact Or.inr (Or.inl (h4.2 ⟨hex, hall⟩))
      · refine Or.inr (Or.inr (h5.2 ?_))
        intro f hf
        cases hfe : fileExists f.2 with
        | false => rfl
        | true => exact absurd ⟨f, hf, hfe⟩ hex

/-- C9: in the non-direct branch, for every existence oracle, the phase list
has exactly 7 entries numbered 1 to 7 in ascending order; the current phase is
an entry of the list, every phase with a smaller number is `completed`, and the
current phase is itself not `completed` as soon as some phase is not; if all 7
phases are `completed`, the current phase is the last entry, phase 7. -/
theorem GetMigrationStatus_current_phase (caseTable : Nat → Nat)
    (info : ControllerTypeInfo) (fileExists : GoString → Bool)
    (resource service version : GoString)
    (hnd : info.Type_ ≠ lit "direct") (hs : info.Service = some service)
    (hv : info.Version = some version) :
    ∃ ms, GetMigrationStatus caseTable (.ok info) fileExists resource = .ok ms ∧
      ms.Phases.map (fun p => p.Number) = [1, 2, 3, 4, 5, 6, 7] ∧
      ms.CurrentPhase ∈ ms.Phases ∧
      (∀ p ∈ ms.Phases, p.Number < ms.CurrentPhase.Number → p.Status = lit "completed") ∧
      ((∃ p ∈ ms.Phases, p.Status ≠ lit "completed") →
        ms.CurrentPhase.Status ≠ lit "completed") ∧
      ((∀ p ∈ ms.Phases, p.Status = lit "completed") →
        ms.Phases.getLast? = some ms.CurrentPhase ∧ ms.CurrentPhase.Number = 7) := by
  have hnum := phases_numbers fileExists (protoLocationOf info service) service version
    (strings.ToLower caseTable resource)
  have hne : (phases (protoLocationOf info service) service version
      (strings.ToLower caseTable resource)).map (phaseStatusOf fileExists) ≠ [] := by
    simp [phases]
  have hsorted : (((phases (protoLocationOf info service) service version
      (strings.ToLower caseTable resource)).map (phaseStatusOf fileExists)).map
        (fun p => p.Number)).Pairwise (fun a b => a < b) := by
    rw [hnum]; decide
  obtain ⟨h1, h2, h3, h4⟩ := currentPhaseOf_spec _ hne hsorted
  refine ⟨_, GetMigrationStatus_eq caseTable info fileExists resource service version
    hnd hs hv, hnum, h1, h2, h3, ?_⟩
  intro hall
  have hlast := h4 hall
  refine ⟨hlast, ?_⟩
  have h7 : (((phases (protoLocationOf info service) service version
      (strings.ToLower caseTable resource)).map (phaseStatusOf fileExists)).map
        (fun p => p.Number)).getLast? = some 7 := by
    rw [hnum]; rfl
  rw [List.getLast?_map] at h7
  simp only at hlast
  rw [hlast] at h7
  simpa using h7

/-- C10: in the non-direct branch, for every existence oracle, CanAddFields is
true exactly when at least 4 of the phases have status `completed`, and the
reported progress is the number of completed phases, a slash, the total 7, and
the word `phases`. -/
theorem GetMigrationStatus_can_add_fields (caseTable : Nat → Nat)
    (info : ControllerTypeInfo) (fileExists : GoString → Bool)
    (resource service version : GoString)
    (hnd : info.Type_ ≠ lit "direct") (hs : info.Service = some service)
    (hv : info.Version = some version) :
    ∃ ms, GetMigrationStatus caseTable (.ok info) fileExists resource = .ok ms ∧
      ms.Phases.length = 7 ∧
      (ms.Phases.filter (fun p => decide (p.Status = lit "completed"))).length ≤ 7 ∧
      (ms.CanAddFields = true ↔
        4 ≤ (ms.Phases.filter (fun p => decide (p.Status = lit "completed"))).length) ∧
      ms.OverallProgress =
        fmtInt (ms.Phases.filter (fun p => decide (p.Status = lit "completed"))).length ++
          lit "/" ++ fmtInt 7 ++ lit " phases" ∧
      fmtInt 7 = lit "7" := by
  have hlen : ((phases (protoLocationOf info service) service version
      (strings.ToLower caseTable resource)).map (phaseStatusOf fileExists)).length = 7 := by
    simp [phases]
  refine ⟨_, GetMigrationStatus_eq caseTable info fileExists resource service version
    hnd hs hv, hlen, ?_, ?_, ?_, by decide⟩
  · have := List.length_filter_le (fun p : PhaseStatus => decide (p.Status = lit "completed"))
      ((phases (protoLocationOf info service) service version
        (strings.ToLower caseTable resource)).map (phaseStatusOf fileExists))
    rw [hlen] at this
    exact this
  · simp only [completedCount_eq, decide_eq_true_eq, ge_iff_le]
  · simp only [completedCount_eq, hlen]

/-- The repository `widgetRepo` with the classification `widgetInfo` takes the
non-direct branch, so `GetMigrationStatus_phase_status` applies. -/
theorem GetMigrationStatus_phase_status_witness :
    ∃ ms, GetMigrationStatus id (.ok widgetInfo) widgetRepo (lit "Widget") = .ok ms ∧
      ms.Phases.length = 7 ∧
      lit "completed" ≠ lit "in_progress" ∧ lit "completed" ≠ lit "not_started" ∧
      lit "in_progress" ≠ lit "not_started" ∧
      List.Forall₂
        (fun (ph : phaseDefinition) (ps : PhaseStatus) =>
          ps.Number = ph.number ∧
          (ps.Status = lit "completed" ↔ ∀ f ∈ ph.files, widgetRepo f.2 = true) ∧
          (ps.Status = lit "in_progress" ↔
            (∃ f ∈ ph.files, widgetRepo f.2 = true) ∧
              ¬ ∀ f ∈ ph.files, widgetRepo f.2 = true) ∧
          (ps.Status = lit "not_started" ↔ ∀ f ∈ ph.files, widgetRepo f.2 = false) ∧
          (ps.Status = lit "completed" ∨ ps.Status = lit "in_progress" ∨
            ps.Status = lit "not_started") ∧
          ps.FilesExist = ph.files.map (fun f => (f.1, widgetRepo f.2)))
        (phases (protoLocationOf widgetInfo (lit "svcy")) (lit "svcy") (lit "v1")
          (strings.ToLower id (lit "Widget")))
        ms.Phases :=
  GetMigrationStatus_phase_status id widgetInfo widgetRepo (lit "Widget") (lit "svcy") (lit "v1")
    (by decide) rfl rfl

/-- The repository `widgetRepo` with the classification `widgetInfo` takes the
non-direct branch, so `GetMigrationStatus_current_phase` applies. -/
theorem GetMigrationStatus_current_phase_witness :
    ∃ ms, GetMigrationStatus id (.ok widgetInfo) widgetRepo (lit "Widget") = .ok ms ∧
      ms.Phases.map (fun p => p.Number) = [1, 2, 3, 4, 5, 6, 7] ∧
      ms.CurrentPhase ∈ ms.Phases ∧
      (∀ p ∈ ms.Phases, p.Number < ms.CurrentPhase.Number → p.Status = lit "completed") ∧
      ((∃ p ∈ ms.Phases, p.Status ≠ lit "completed") →
        ms.CurrentPhase.Status ≠ lit "completed") ∧
      ((∀ p ∈ ms.Phases, p.Status = lit "completed") →
        ms.Phases.getLast? = some ms.CurrentPhase ∧ ms.CurrentPhase.Number = 7) :=
  GetMigrationStatus_current_phase id widgetInfo widgetRepo (lit "Widget") (lit "svcy") (lit "v1")
    (by decide) rfl rfl

/-- The repository `widgetRepo` with the classification `widgetInfo` takes the
non-direct branch, so `GetMigrationStatus_can_add_fields` applies. -/
theorem GetMigrationStatus_can_add_fields_witness :
    ∃ ms, GetMigrationStatus id (.ok widgetInfo) widgetRepo (lit "Widget") = .ok ms ∧
      ms.Phases.length = 7 ∧
      (ms.Phases.filter (fun p => decide (p.Status = lit "completed"))).length ≤ 7 ∧
      (ms.CanAddFields = true ↔
        4 ≤ (ms.Phases.filter (fun p => decide (p.Status = lit "completed"))).length) ∧
      ms.OverallProgress =
        fmtInt (ms.Phases.filter (fun p => decide (p.Status = lit "completed"))).length ++
          lit "/" ++ fmtInt 7 ++ lit " phases" ∧
      fmtInt 7 = lit "7" :=
  GetMigrationStatus_can_add_fields id widgetInfo widgetRepo (lit "Widget") (lit "svcy") (lit "v1")
    (by decide) rfl rfl

/-! ## Classifier: lemmas -/

/-- What DetectControllerType returns when both searches run. -/
theorem DetectControllerType_eq (caseTable : Nat → Nat) (sh : Shell)
    (resource directOutput tfOutput : GoString)
    (hd : sh (directTypesCmd (strings.ToLower caseTable resource)) = .ok directOutput)
    (ht : sh (tfTypesCmd (strings.ToLower caseTable resource)) = .ok tfOutput) :
    DetectControllerType caseTable sh resource =
      .ok (match parseMatches directOutput, parseMatches tfOutput with
        | location :: _, tf =>
          { Resource := resource, Type_ := lit "direct", Location := some location,
            MigrationNeeded := false,
            HasDirectTypes := true,
            HasTerraformTypes := decide (tf.length > 0),
            HasProto := (probeProto sh (serviceVersion location 4 1 2).1).1,
            ProtoLocation := (probeProto sh (serviceVersion location 4 1 2).1).2,
            Service := (serviceVersion location 4 1 2).1,
            Version := (serviceVersion location 4 1 2).2 }
        | [], location :: _ =>
          { Resource := resource, Type_ := lit "terraform", Location := some location,
            MigrationNeeded := true,
            HasDirectTypes := false,
            HasTerraformTypes := true,
            HasProto := (probeProto sh (serviceVersion location 6 4 5).1).1,
            ProtoLocation := (probeProto sh (serviceVersion location 6 4 5).1).2,
            Service := (serviceVersion location 6 4 5).1,
            Version := (serviceVersion location 6 4 5).2 }
        | [], [] =>
          { Resource := resource, Type_ := lit "unknown", Location := none,
            MigrationNeeded := false,
            HasDirectTypes := false,
            HasTerraformTypes := false,
            HasProto := false,
            ProtoLocation := none,
            Service := none,
            Version := none }) := by
  have h1 : decide (lit "direct" = lit "terraform") = false := by decide
  have h2 : decide (lit "unknown" = lit "terraform") = false := by decide
  unfold DetectControllerType
  simp only [hd, ht]
  cases hdl : parseMatches directOutput with
  | cons location rest => simp [h1]
  | nil =>
    cases htl : parseMatches tfOutput with
    | cons location rest => simp
    | nil => simp [h2, probeProto]

/-- A classification comes from two searches that ran. -/
theorem DetectControllerType_ok (caseTable : Nat → Nat) (sh : Shell)
    (resource : GoString) (info : ControllerTypeInfo)
    (h : DetectControllerType caseTable sh resource = .ok info) :
    ∃ directOutput tfOutput,
      sh (directTypesCmd (strings.ToLower caseTable resource)) = .ok directOutput ∧
      sh (tfTypesCmd (strings.ToLower caseTable resource)) = .ok tfOutput := by
  unfold DetectControllerType at h
  cases hd : sh (directTypesCmd (strings.ToLower caseTable resource)) with
  | error e => simp [hd] at h
  | ok directOutput =>
    cases ht : sh (tfTypesCmd (strings.ToLower caseTable resource)) with
    | error e => simp [hd, ht] at h
    | ok tfOutput => exact ⟨directOutput, tfOutput, rfl, rfl⟩

/-! ## Phase model: the fields-addable threshold -/

theorem prerequisites_bool :
    ∀ b1 b2 b3 b4 b5 b6 b7 : Bool,
      (4 ≤ ([b1, b2, b3, b4, b5, b6, b7].filter id).length →
        (b2 = true → b1 = true) → (b3 = true → b2 = true) → (b4 = true → b3 = true) →
        (b5 = true → b4 = true) → (b6 = true → b5 = true) → (b7 = true → b6 = true) →
        b1 = true ∧ b2 = true ∧ b3 = true ∧ b4 = true) ∧
      (b1 = true ∧ b2 = true ∧ b3 = true ∧ b4 = true →
        4 ≤ ([b1, b2, b3, b4, b5, b6, b7].filter id).length) := by
  intro b1 b2 b3 b4 b5 b6 b7
  cases b1 <;> cases b2 <;> cases b3 <;> cases b4 <;> cases b5 <;> cases b6 <;>
    cases b7 <;> decide

/-- Among phases numbered 1 to 7: at least 4 completed phases are the phases 1
to 4 when no phase is completed after one that is not, and completed phases 1
to 4 make at least 4 completed phases. -/
theorem prerequisites_of_count (l : List PhaseStatus)
    (hnum : l.map (fun p => p.Number) = [1, 2, 3, 4, 5, 6, 7]) :
    (4 ≤ (l.filter (fun p => decide (p.Status = lit "completed"))).length →
      (∀ p ∈ l, ∀ q ∈ l, p.Number < q.Number → q.Status = lit "completed" →
        p.Status = lit "completed") →
      ∀ p ∈ l, p.Number ≤ 4 → p.Status = lit "completed") ∧
    ((∀ p ∈ l, p.Number ≤ 4 → p.Status = lit "completed") →
      4 ≤ (l.filter (fun p => decide (p.Status = lit "completed"))).length) := by
  simp only [List.map_eq_cons_iff, List.map_eq_nil_iff] at hnum
  obtain ⟨p1, l1, rfl, h1, p2, l2, rfl, h2, p3, l3, rfl, h3, p4, l4, rfl, h4,
    p5, l5, rfl, h5, p6, l6, rfl, h6, p7, l7, rfl, h7, rfl⟩ := hnum
  have hlen : ([p1, p2, p3, p4, p5, p6, p7].filter
      (fun p => decide (p.Status = lit "completed"))).length =
      ([decide (p1.Status = lit "completed"), decide (p2.Status = lit "completed"),
        decide (p3.Status = lit "completed"), decide (p4.Status = lit "completed"),
        decide (p5.Status = lit "completed"), decide (p6.Status = lit "completed"),
        decide (p7.Status = lit "completed")].filter id).length := by
    rw [show [decide (p1.Status = lit "completed"), decide (p2.Status = lit "completed"),
        decide (p3.Status = lit "completed"), decide (p4.Status = lit "completed"),
        decide (p5.Status = lit "completed"), decide (p6.Status = lit "completed"),
        decide (p7.Status = lit "completed")] =
      [p1, p2, p3, p4, p5, p6, p7].map
        (fun p : PhaseStatus => decide (p.Status = lit "completed")) from rfl,
      List.filter_map, List.length_map]
    rfl
  have hb := prerequisites_bool (decide (p1.Status = lit "completed"))
    (decide (p2.Status = lit "completed")) (decide (p3.Status = lit "completed"))
    (decide (p4.Status = lit "completed")) (decide (p5.Status = lit "completed"))
    (decide (p6.Status = lit "completed")) (decide (p7.Status = lit "completed"))
  rw [← hlen] at hb
  simp only [decide_eq_true_eq] at hb
  constructor
  · intro hcount hord
    have hmem : ∀ x, x ∈ [p1, p2, p3, p4, p5, p6, p7] ↔
        x = p1 ∨ x = p2 ∨ x = p3 ∨ x = p4 ∨ x = p5 ∨ x = p6 ∨ x = p7 := by
      intro x; simp
    obtain ⟨c1, c2, c3, c4⟩ := hb.1 hcount
      (hord p1 (by simp) p2 (by simp) (by omega))
      (hord p2 (by simp) p3 (by simp) (by omega))
      (hord p3 (by simp) p4 (by simp) (by omega))
      (hord p4 (by simp) p5 (by simp) (by omega))
      (hord p5 (by simp) p6 (by simp) (by omega))
      (hord p6 (by simp) p7 (by simp) (by omega))
    intro p hp hle
    rcases (hmem p).1 hp with rfl | rfl | rfl | rfl | rfl | rfl | rfl
    · exact c1
    · exact c2
    · exact c3
    · exact c4
    · omega
    · omega
    · omega
  · intro hall
    exact hb.2 ⟨hall p1 (by simp) (by omega), hall p2 (by simp) (by omega),
      hall p3 (by simp) (by omega), hall p4 (by simp) (by omega)⟩

set_option maxRecDepth 100000 in
/-- C11: the count test `completed >= 4` does not enforce what its comment
`Need types, identity, mapper, controller` names.  For `Widget` on the legacy
path, with the protocol definition, the identity handler, the mapper and the
controller in place and no API types file, 4 phases are counted as completed
and CanAddFields is true, while phase 2 (API types) is `not_started`. -/
theorem GetMigrationStatus_can_add_fields_without_types :
    DetectControllerType id widgetShell (lit "Widget") = .ok widgetInfo ∧
    (GetMigrationStatus id (DetectControllerType id widgetShell (lit "Widget")) partialRepo
        (lit "Widget")).toOption.map
        (fun ms => (ms.CanAddFields, ms.Phases.map (fun p => (p.Number, p.Status)))) =
      some (true,
        [(1, lit "completed"), (2, lit "not_started"), (3, lit "completed"),
         (4, lit "completed"), (5, lit "completed"), (6, lit "not_started"),
         (7, lit "not_started")]) := by
  decide

/-- What the count test behind CanAddFields guarantees in the non-direct
branch: when it is true at least 4 of the 7 phases are `completed`, and they
include the phases 1 to 4 whenever no phase is `completed` after a phase that
is not; and when the phases 1 to 4 are each `completed` it is true. -/
theorem GetMigrationStatus_prerequisites (caseTable : Nat → Nat)
    (info : ControllerTypeInfo) (fileExists : GoString → Bool)
    (resource service version : GoString)
    (hnd : info.Type_ ≠ lit "direct") (hs : info.Service = some service)
    (hv : info.Version = some version) :
    ∃ ms, GetMigrationStatus caseTable (.ok info) fileExists resource = .ok ms ∧
      (ms.CanAddFields = true →
        4 ≤ (ms.Phases.filter (fun p => decide (p.Status = lit "completed"))).length) ∧
      (ms.CanAddFields = true →
        (∀ p ∈ ms.Phases, ∀ q ∈ ms.Phases, p.Number < q.Number →
          q.Status = lit "completed" → p.Status = lit "completed") →
        ∀ p ∈ ms.Phases, p.Number ≤ 4 → p.Status = lit "completed") ∧
      ((∀ p ∈ ms.Phases, p.Number ≤ 4 → p.Status = lit "completed") →
        ms.CanAddFields = true) := by
  have hnum := phases_numbers fileExists (protoLocationOf info service) service version
    (strings.ToLower caseTable resource)
  obtain ⟨hp1, hp2⟩ := prerequisites_of_count _ hnum
  refine ⟨_, GetMigrationStatus_eq caseTable info fileExists resource service version
    hnd hs hv, ?_, ?_, ?_⟩
  · simp only [completedCount_eq, decide_eq_true_eq, ge_iff_le]
    exact fun h => h
  · simp only [completedCount_eq, decide_eq_true_eq, ge_iff_le]
    exact fun h hord => hp1 h hord
  · simp only [completedCount_eq, decide_eq_true_eq, ge_iff_le]
    exact fun h => hp2 h

/-! ## Classifier: the properties -/

/-- C12: when both searches run, DetectControllerType returns a classification
and no error.  If the direct list is not empty, Type is `direct`, Location is
the first direct match and MigrationNeeded is false, whatever the legacy list;
else if the legacy list is not empty, Type is `terraform`, Location is the
first legacy match and MigrationNeeded is true; else Type is `unknown`,
MigrationNeeded is false and Location, Service and Version are unset.
MigrationNeeded is true exactly when Type is `terraform`. -/
theorem DetectControllerType_precedence (caseTable : Nat → Nat) (sh : Shell)
    (resource directOutput tfOutput : GoString)
    (hd : sh (directTypesCmd (strings.ToLower caseTable resource)) = .ok directOutput)
    (ht : sh (tfTypesCmd (strings.ToLower caseTable resource)) = .ok tfOutput) :
    ∃ info, DetectControllerType caseTable sh resource = .ok info ∧
      (info.MigrationNeeded = true ↔ info.Type_ = lit "terraform") ∧
      (∀ first rest, parseMatches directOutput = first :: rest →
        info.Type_ = lit "direct" ∧ info.Location = some first ∧
          info.MigrationNeeded = false) ∧
      (parseMatches directOutput = [] → ∀ first rest,
        parseMatches tfOutput = first :: rest →
          info.Type_ = lit "terraform" ∧ info.Location = some first ∧
            info.MigrationNeeded = true) ∧
      (parseMatches directOutput = [] → parseMatches tfOutput = [] →
        info.Type_ = lit "unknown" ∧ info.MigrationNeeded = false ∧
          info.Location = none ∧ info.Service = none ∧ info.Version = none) := by
  have h1 : lit "direct" ≠ lit "terraform" := by decide
  have h2 : lit "unknown" ≠ lit "terraform" := by decide
  refine ⟨_, DetectControllerType_eq caseTable sh resource directOutput tfOutput hd ht, ?_⟩
  cases hdl : parseMatches directOutput with
  | cons location rest =>
    refine ⟨by simp [h1], ?_, by simp, by simp⟩
    intro first rest' he
    simp only [List.cons.injEq] at he
    simp [he.1]
  | nil =>
    cases htl : parseMatches tfOutput with
    | cons location rest =>
      refine ⟨by simp, by simp, ?_, by simp⟩
      intro _ first rest' he
      simp only [List.cons.injEq] at he
      simp [he.1]
    | nil =>
      exact ⟨by simp [h2], by simp, by simp, by simp⟩

/-- Both searches of `widgetShell` run, so `DetectControllerType_precedence`
applies to the resource `Widget`. -/
theorem DetectControllerType_precedence_witness :
    ∃ info, DetectControllerType id widgetShell (lit "Widget") = .ok info ∧
      (info.MigrationNeeded = true ↔ info.Type_ = lit "terraform") ∧
      (∀ first rest, parseMatches [] = first :: rest →
        info.Type_ = lit "direct" ∧ info.Location = some first ∧
          info.MigrationNeeded = false) ∧
      (parseMatches [] = [] → ∀ first rest,
        parseMatches (lit "pkg/clients/generated/apis/svcy/v1/widget_types.go\n") =
            first :: rest →
          info.Type_ = lit "terraform" ∧ info.Location = some first ∧
            info.MigrationNeeded = true) ∧
      (parseMatches [] = [] →
        parseMatches (lit "pkg/clients/generated/apis/svcy/v1/widget_types.go\n") = [] →
        info.Type_ = lit "unknown" ∧ info.MigrationNeeded = false ∧
          info.Location = none ∧ info.Service = none ∧ info.Version = none) :=
  DetectControllerType_precedence id widgetShell (lit "Widget") []
    (lit "pkg/clients/generated/apis/svcy/v1/widget_types.go\n") (by decide) (by decide)

set_option maxRecDepth 100000 in
/-- C13: when both searches run, Service and Version are read by position from
the slash-separated location.  For a direct location with at least 4 segments
they are the segments 1 and 2, for a legacy location with at least 6 segments
the segments 4 and 5, and with fewer segments both stay unset.  The location
`pkg/clients/generated/apis/svcy/v1/widget_types.go` gives type `terraform`,
migration needed, service `svcy` and version `v1`; the location
`apis/svcx/v1/foobar_types.go` gives type `direct`, no migration needed,
service `svcx` and version `v1`. -/
theorem DetectControllerType_service_version (caseTable : Nat → Nat) (sh : Shell)
    (resource directOutput tfOutput : GoString)
    (hd : sh (directTypesCmd (strings.ToLower caseTable resource)) = .ok directOutput)
    (ht : sh (tfTypesCmd (strings.ToLower caseTable resource)) = .ok tfOutput) :
    (∃ info, DetectControllerType caseTable sh resource = .ok info ∧
      (∀ first rest, parseMatches directOutput = first :: rest →
        (4 ≤ (strings.Split first 0x2F).length →
          info.Service = some ((strings.Split first 0x2F).getD 1 []) ∧
          info.Version = some ((strings.Split first 0x2F).getD 2 [])) ∧
        ((strings.Split first 0x2F).length < 4 →
          info.Service = none ∧ info.Version = none)) ∧
      (parseMatches directOutput = [] → ∀ first rest,
        parseMatches tfOutput = first :: rest →
          (6 ≤ (strings.Split first 0x2F).length →
            info.Service = some ((strings.Split first 0x2F).getD 4 []) ∧
            info.Version = some ((strings.Split first 0x2F).getD 5 [])) ∧
          ((strings.Split first 0x2F).length < 6 →
            info.Service = none ∧ info.Version = none))) ∧
    DetectControllerType id widgetShell (lit "Widget") =
      .ok { Resource := lit "Widget", Type_ := lit "terraform",
            Location := some (lit "pkg/clients/generated/apis/svcy/v1/widget_types.go"),
            MigrationNeeded := true, HasDirectTypes := false, HasTerraformTypes := true,
            HasProto := true,
            ProtoLocation :=
              some (lit "mockgcp/third_party/googleapis/google/cloud/svcy/v1/widget.proto"),
            Service := some (lit "svcy"), Version := some (lit "v1") } ∧
    DetectControllerType id foobarShell (lit "FooBar") =
      .ok { Resource := lit "FooBar", Type_ := lit "direct",
            Location := some (lit "apis/svcx/v1/foobar_types.go"),
            MigrationNeeded := false, HasDirectTypes := true, HasTerraformTypes := false,
            HasProto := false, ProtoLocation := none,
            Service := some (lit "svcx"), Version := some (lit "v1") } := by
  refine ⟨⟨_, DetectControllerType_eq caseTable sh resource directOutput tfOutput hd ht,
    ?_, ?_⟩, by decide, by decide⟩
  · intro first rest he
    simp only [he, serviceVersion]
    constructor
    · intro hlen
      simp [hlen]
    · intro hlen
      have : ¬ (strings.Split first 0x2F).length ≥ 4 := by omega
      simp [this]
  · intro hdl first rest he
    simp only [hdl, he, serviceVersion]
    constructor
    · intro hlen
      simp [hlen]
    · intro hlen
      have : ¬ (strings.Split first 0x2F).length ≥ 6 := by omega
      simp [this]

/-- Both searches of `foobarShell` run, so `DetectControllerType_service_version`
applies to the resource `FooBar`: the direct location has 4 segments. -/
theorem DetectControllerType_service_version_witness :
    ∃ info, DetectControllerType id foobarShell (lit "FooBar") = .ok info ∧
      info.Service = some (lit "svcx") ∧ info.Version = some (lit "v1") := by
  obtain ⟨⟨info, h, hdirect, _⟩, _, _⟩ :=
    DetectControllerType_service_version id foobarShell (lit "FooBar")
      (lit "apis/svcx/v1/foobar_types.go\n") [] (by decide) (by decide)
  obtain ⟨h4, _⟩ := hdirect (lit "apis/svcx/v1/foobar_types.go") [] (by decide)
  obtain ⟨hs, hv⟩ := h4 (by decide)
  refine ⟨info, h, ?_, ?_⟩
  · rw [hs]; decide
  · rw [hv]; decide

/-- C14: the code at a resource without any match.  In a repository where
every search finds nothing, DetectControllerType classifies the resource as
`unknown` with no location, and PlanMigration, which reads `*info.Location`
to build its error text, panics on the nil pointer: it returns neither an
error nor a plan. -/
theorem PlanMigration_unknown_panics (caseTable : Nat → Nat) (resource : GoString) :
    DetectControllerType caseTable emptyShell resource =
      .ok { Resource := resource, Type_ := lit "unknown", Location := none,
            MigrationNeeded := false, HasDirectTypes := false,
            HasTerraformTypes := false, HasProto := false, ProtoLocation := none,
            Service := none, Version := none } ∧
    PlanMigration caseTable (DetectControllerType caseTable emptyShell resource) resource =
      .panic nilDereference := by
  have hp : parseMatches [] = [] := by decide
  have h := DetectControllerType_eq caseTable emptyShell resource [] [] rfl rfl
  simp only [hp] at h
  refine ⟨h, ?_⟩
  rw [h]
  simp [PlanMigration]

/-! ## Planner and status: error paths -/

theorem Contains_middle (a b c sub : GoString) (h : strings.Contains b sub = true) :
    strings.Contains (a ++ b ++ c) sub = true := by
  rw [strings.Contains_iff] at h ⊢
  obtain ⟨u, v, huv⟩ := h
  exact ⟨a ++ u, v ++ c, by rw [← huv]; simp⟩

theorem Contains_self (s : GoString) : strings.Contains s s = true := by
  rw [strings.Contains_iff]

/-- C15: for a resource the classifier reports as `direct`, PlanMigration
returns no plan and an error whose text contains the resource name and the
location, which is the first direct-tree match, and names kcc_add_field.
PlanMigration returns a plan only when the classification is `terraform` with
Service and Version set, and the plan then has NeedsMigration true and
CurrentType `terraform`. -/
theorem PlanMigration_direct (caseTable : Nat → Nat) (sh : Shell) (resource : GoString)
    (info : ControllerTypeInfo)
    (h : DetectControllerType caseTable sh resource = .ok info) :
    (info.Type_ = lit "direct" →
      ∃ loc msg, info.Location = some loc ∧
        (∃ directOutput rest,
          sh (directTypesCmd (strings.ToLower caseTable resource)) = .ok directOutput ∧
          parseMatches directOutput = loc :: rest) ∧
        PlanMigration caseTable (DetectControllerType caseTable sh resource) resource =
          .error msg ∧
        strings.Contains msg resource = true ∧ strings.Contains msg loc = true ∧
        strings.Contains msg (lit "kcc_add_field") = true) ∧
    (∀ plan,
      PlanMigration caseTable (DetectControllerType caseTable sh resource) resource =
          .ok plan →
        info.Type_ = lit "terraform" ∧
        (∃ service version, info.Service = some service ∧ info.Version = some version) ∧
        plan.NeedsMigration = true ∧ plan.CurrentType = lit "terraform") := by
  have h1 : lit "terraform" ≠ lit "direct" := by decide
  have h2 : lit "unknown" ≠ lit "direct" := by decide
  have hk : strings.Contains
      (lit ".\nNo migration needed. Use kcc_add_field to add fields.")
      (lit "kcc_add_field") = true := by decide
  obtain ⟨directOutput, tfOutput, hd, ht⟩ :=
    DetectControllerType_ok caseTable sh resource info h
  have heq := DetectControllerType_eq caseTable sh resource directOutput tfOutput hd ht
  rw [h]
  rw [h] at heq
  have hinfo := Except.ok.inj heq
  cases hdl : parseMatches directOutput with
  | cons location rest =>
    rw [hdl] at hinfo
    simp only at hinfo
    subst hinfo
    constructor
    · intro _
      refine ⟨location, resource ++ lit " is already a direct controller at " ++ location ++
        lit ".\nNo migration needed. Use kcc_add_field to add fields.", rfl,
        ⟨directOutput, rest, hd, hdl⟩, by simp [PlanMigration], ?_, ?_, ?_⟩
      · have := Contains_middle [] resource (lit " is already a direct controller at " ++
          location ++ lit ".\nNo migration needed. Use kcc_add_field to add fields.")
          resource (Contains_self resource)
        simpa using this
      · exact Contains_middle _ location _ location (Contains_self location)
      · have := Contains_middle (resource ++ lit " is already a direct controller at " ++
          location) (lit ".\nNo migration needed. Use kcc_add_field to add fields.") []
          (lit "kcc_add_field") hk
        simpa using this
    · intro plan hplan
      simp [PlanMigration] at hplan
  | nil =>
    rw [hdl] at hinfo
    cases htl : parseMatches tfOutput with
    | cons location rest =>
      rw [htl] at hinfo
      simp only at hinfo
      subst hinfo
      constructor
      · intro hdir
        exact absurd hdir h1
      · intro plan hplan
        unfold PlanMigration at hplan
        simp only [Bool.not_true, Bool.false_eq_true, if_false] at hplan
        cases hs : (serviceVersion location 6 4 5).1 with
        | none =>
          simp [hs] at hplan
        | some service =>
          cases hv : (serviceVersion location 6 4 5).2 with
          | none => simp [hs, hv] at hplan
          | some version =>
            simp only [hs, hv, GoResult.ok.injEq] at hplan
            subst hplan
            exact ⟨rfl, ⟨service, version, rfl, rfl⟩, rfl, rfl⟩
    | nil =>
      rw [htl] at hinfo
      simp only at hinfo
      subst hinfo
      constructor
      · intro hdir
        exact absurd hdir h2
      · intro plan hplan
        simp [PlanMigration] at hplan

/-- The classification of `FooBar` in `foobarShell` is `direct`, and
`PlanMigration_direct` gives the error of the planner. -/
theorem PlanMigration_direct_witness :
    ∃ loc msg,
      (∃ directOutput rest,
        foobarShell (directTypesCmd (strings.ToLower id (lit "FooBar"))) = .ok directOutput ∧
        parseMatches directOutput = loc :: rest) ∧
      PlanMigration id (DetectControllerType id foobarShell (lit "FooBar")) (lit "FooBar") =
        .error msg ∧
      strings.Contains msg (lit "FooBar") = true ∧ strings.Contains msg loc = true ∧
      strings.Contains msg (lit "kcc_add_field") = true := by
  obtain ⟨loc, msg, _, h1, h2, h3, h4, h5⟩ :=
    (PlanMigration_direct id foobarShell (lit "FooBar")
      { Resource := lit "FooBar", Type_ := lit "direct",
        Location := some (lit "apis/svcx/v1/foobar_types.go"),
        MigrationNeeded := false, HasDirectTypes := true, HasTerraformTypes := false,
        HasProto := false, ProtoLocation := none,
        Service := some (lit "svcx"), Version := some (lit "v1") } (by decide)).1 rfl
  exact ⟨loc, msg, h1, h2, h3, h4, h5⟩

/-- C16: when the classifier reports `direct`, GetMigrationStatus returns the
status `Migration complete` with the current phase 7 named `Complete` and
`completed`, an empty phase list and CanAddFields true; the existence oracle is
not consulted, so the result is the same for every oracle. -/
theorem GetMigrationStatus_direct (caseTable : Nat → Nat) (info : ControllerTypeInfo)
    (fileExists : GoString → Bool) (resource : GoString)
    (hd : info.Type_ = lit "direct") :
    GetMigrationStatus caseTable (.ok info) fileExists resource =
      .ok { Resource := resource,
            OverallProgress := lit "Migration complete",
            CurrentPhase :=
              { Number := 7, Name := lit "Complete", Status := lit "completed",
                FilesExist := [] },
            Phases := [],
            NextAction := lit "Migration complete. Use kcc_add_field to add new fields.",
            CanAddFields := true } ∧
    ∀ fileExists' : GoString → Bool,
      GetMigrationStatus caseTable (.ok info) fileExists' resource =
        GetMigrationStatus caseTable (.ok info) fileExists resource := by
  constructor
  · simp [GetMigrationStatus, hd]
  · intro fileExists'
    simp [GetMigrationStatus, hd]

set_option maxRecDepth 100000 in
/-- The classification of `FooBar` in `foobarShell` is `direct`, so
`GetMigrationStatus_direct` applies. -/
theorem GetMigrationStatus_direct_witness :
    DetectControllerType id foobarShell (lit "FooBar") =
      .ok { Resource := lit "FooBar", Type_ := lit "direct",
            Location := some (lit "apis/svcx/v1/foobar_types.go"),
            MigrationNeeded := false, HasDirectTypes := true, HasTerraformTypes := false,
            HasProto := false, ProtoLocation := none,
            Service := some (lit "svcx"), Version := some (lit "v1") } ∧
    ∀ fileExists' : GoString → Bool,
      GetMigrationStatus id
          (.ok { Resource := lit "FooBar", Type_ := lit "direct",
                 Location := some (lit "apis/svcx/v1/foobar_types.go"),
                 MigrationNeeded := false, HasDirectTypes := true,
                 HasTerraformTypes := false, HasProto := false, ProtoLocation := none,
                 Service := some (lit "svcx"), Version := some (lit "v1") })
          fileExists' (lit "FooBar") =
        GetMigrationStatus id
          (.ok { Resource := lit "FooBar", Type_ := lit "direct",
                 Location := some (lit "apis/svcx/v1/foobar_types.go"),
                 MigrationNeeded := false, HasDirectTypes := true,
                 HasTerraformTypes := false, HasProto := false, ProtoLocation := none,
                 Service := some (lit "svcx"), Version := some (lit "v1") })
          widgetRepo (lit "FooBar") :=
  ⟨by decide,
   (GetMigrationStatus_direct id
      { Resource := lit "FooBar", Type_ := lit "direct",
        Location := some (lit "apis/svcx/v1/foobar_types.go"),
        MigrationNeeded := false, HasDirectTypes := true, HasTerraformTypes := false,
        HasProto := false, ProtoLocation := none,
        Service := some (lit "svcx"), Version := some (lit "v1") }
      widgetRepo (lit "FooBar") rfl).2⟩

/-- C17: when the classifier result is not `direct` and Service or Version is
unset, GetMigrationStatus returns no status and an error whose text contains
the resource name; this is the case of every resource that DetectControllerType
classifies as `unknown`. -/
theorem GetMigrationStatus_unresolved (caseTable : Nat → Nat) (fileExists : GoString → Bool)
    (resource : GoString) :
    (∀ info : ControllerTypeInfo, info.Type_ ≠ lit "direct" →
      (info.Service = none ∨ info.Version = none) →
      ∃ msg, GetMigrationStatus caseTable (.ok info) fileExists resource = .error msg ∧
        strings.Contains msg resource = true) ∧
    (∀ (sh : Shell) (info : ControllerTypeInfo),
      DetectControllerType caseTable sh resource = .ok info →
      info.Type_ = lit "unknown" →
      ∃ msg,
        GetMigrationStatus caseTable (DetectControllerType caseTable sh resource) fileExists
          resource = .error msg ∧
        strings.Contains msg resource = true) := by
  have hgen : ∀ info : ControllerTypeInfo, info.Type_ ≠ lit "direct" →
      (info.Service = none ∨ info.Version = none) →
      ∃ msg, GetMigrationStatus caseTable (.ok info) fileExists resource = .error msg ∧
        strings.Contains msg resource = true := by
    intro info hnd hsv
    refine ⟨lit "could not determine service/version for " ++ resource, ?_, ?_⟩
    · unfold GetMigrationStatus
      simp only [hnd, if_false]
      rcases hsv with hs | hv
      · simp [hs]
      · cases hs : info.Service <;> simp [hv]
    · have := strings.Contains_append (lit "could not determine service/version for ")
        resource []
      rwa [List.append_nil] at this
  refine ⟨hgen, ?_⟩
  intro sh info h hunk
  have h1 : lit "direct" ≠ lit "unknown" := by decide
  have h2 : lit "terraform" ≠ lit "unknown" := by decide
  have h3 : lit "unknown" ≠ lit "direct" := by decide
  obtain ⟨directOutput, tfOutput, hd, ht⟩ :=
    DetectControllerType_ok caseTable sh resource info h
  have heq := DetectControllerType_eq caseTable sh resource directOutput tfOutput hd ht
  rw [h] at heq ⊢
  have hinfo := Except.ok.inj heq
  apply hgen info (by rw [hunk]; exact h3)
  left
  cases hdl : parseMatches directOutput with
  | cons location rest =>
    rw [hdl] at hinfo
    simp only at hinfo
    subst hinfo
    exact absurd hunk h1
  | nil =>
    rw [hdl] at hinfo
    cases htl : parseMatches tfOutput with
    | cons location rest =>
      rw [htl] at hinfo
      simp only at hinfo
      subst hinfo
      exact absurd hunk h2
    | nil =>
      rw [htl] at hinfo
      simp only at hinfo
      subst hinfo
      rfl

/-- In `emptyShell` every resource is classified `unknown`, so
`GetMigrationStatus_unresolved` gives the error of the status query. -/
theorem GetMigrationStatus_unresolved_witness :
    ∃ msg,
      GetMigrationStatus id (DetectControllerType id emptyShell (lit "Gadget")) widgetRepo
        (lit "Gadget") = .error msg ∧
      strings.Contains msg (lit "Gadget") = true :=
  (GetMigrationStatus_unresolved id widgetRepo (lit "Gadget")).2 emptyShell
    { Resource := lit "Gadget", Type_ := lit "unknown", Location := none,
      MigrationNeeded := false, HasDirectTypes := false, HasTerraformTypes := false,
      HasProto := false, ProtoLocation := none, Service := none, Version := none }
    (by decide) rfl

/-! ## Planner: the plan -/

/-- The plan PlanMigration returns for a resource that needs migration and has
Service and Version set. -/
theorem PlanMigration_eq (caseTable : Nat → Nat) (info : ControllerTypeInfo)
    (resource service version : GoString)
    (hm : info.MigrationNeeded = true) (hs : info.Service = some service)
    (hv : info.Version = some version) :
    PlanMigration caseTable (.ok info) resource =
      .ok { Resource := resource,
            CurrentType := info.Type_,
            NeedsMigration := true,
            Phases := planPhases resource (protoTaskOf info)
              (targetFilesOf service version (strings.ToLower caseTable resource)),
            TargetFiles := targetFilesOf service version (strings.ToLower caseTable resource),
            ProtoInfo := some
              { Service := service,
                Version := protoVersionOf version,
                ProtoPackage := lit "google.cloud." ++ service ++ lit ".v1",
                ProtoMessage := resource },
            NextAction :=
              if info.HasProto then
                lit "Start with Phase 2: Create API types using kcc_scaffold_types"
              else lit "Check Phase 1: Verify proto definitions exist" } := by
  simp only [PlanMigration, hm, hs, hv, Bool.not_true, Bool.false_eq_true, if_false]

theorem targetFilesOf_get (service version resourceLower : GoString) :
    (targetFilesOf service version resourceLower).get (lit "types_file") =
      lit "apis/" ++ service ++ lit "/" ++ version ++ lit "/" ++ resourceLower ++
        lit "_types.go" ∧
    (targetFilesOf service version resourceLower).get (lit "identity_file") =
      lit "apis/" ++ service ++ lit "/" ++ version ++ lit "/" ++ resourceLower ++
        lit "_identity.go" ∧
    (targetFilesOf service version resourceLower).get (lit "controller_file") =
      lit "pkg/controller/direct/" ++ service ++ lit "/" ++ resourceLower ++
        lit "_controller.go" ∧
    (targetFilesOf service version resourceLower).get (lit "mapper_file") =
      lit "pkg/controller/direct/" ++ service ++ lit "/mapper.generated.go" ∧
    (targetFilesOf service version resourceLower).get (lit "mockgcp_file") =
      lit "mockgcp/mock" ++ service ++ lit "/" ++ resourceLower ++ lit ".go" ∧
    (targetFilesOf service version resourceLower).get (lit "test_fixtures_dir") =
      lit "pkg/test/resourcefixture/testdata/basic/" ++ service ++ lit "/" ++ version ++
        lit "/" ++ resourceLower :=
  ⟨rfl, rfl, rfl, rfl, rfl, rfl⟩

set_option maxRecDepth 100000 in
/-- C18, as stated, fails: for `Widget` found on the legacy path under the
apiVersion `v1beta2`, which carries a beta suffix, the plan's ProtoInfo.Version
is `v1beta2`, not `v1`. -/
theorem PlanMigration_proto_version_counterexample :
    (DetectControllerType id betaShell (lit "Widget")).toOption.map
        (fun info => info.Version) = some (some (lit "v1beta2")) ∧
    (PlanMigration id (DetectControllerType id betaShell (lit "Widget"))
        (lit "Widget")).toOption.map
        (fun plan => plan.ProtoInfo.map (fun q => (q.Version, q.ProtoPackage))) =
      some (some (lit "v1beta2", lit "google.cloud.svcy.v1")) ∧
    lit "v1beta2" ≠ lit "v1" := by
  decide

/-- C18, amended: in every plan, ProtoInfo.Version is `v1` when the resolved
apiVersion is exactly `v1alpha1` or `v1beta1` and is the apiVersion itself
otherwise; ProtoPackage is `google.cloud.<service>.v1`; and the entries of
TargetFiles that have a version segment, the types file, the identity file and
the test-fixtures directory, keep the apiVersion unchanged. -/
theorem PlanMigration_proto_version (caseTable : Nat → Nat) (info : ControllerTypeInfo)
    (resource service version : GoString)
    (hm : info.MigrationNeeded = true) (hs : info.Service = some service)
    (hv : info.Version = some version) :
    ∃ plan q, PlanMigration caseTable (.ok info) resource = .ok plan ∧
      plan.ProtoInfo = some q ∧
      q.ProtoPackage = lit "google.cloud." ++ service ++ lit ".v1" ∧
      ((version = lit "v1alpha1" ∨ version = lit "v1beta1") → q.Version = lit "v1") ∧
      (¬ (version = lit "v1alpha1" ∨ version = lit "v1beta1") → q.Version = version) ∧
      plan.TargetFiles.get (lit "types_file") =
        lit "apis/" ++ service ++ lit "/" ++ version ++ lit "/" ++
          strings.ToLower caseTable resource ++ lit "_types.go" ∧
      plan.TargetFiles.get (lit "identity_file") =
        lit "apis/" ++ service ++ lit "/" ++ version ++ lit "/" ++
          strings.ToLower caseTable resource ++ lit "_identity.go" ∧
      plan.TargetFiles.get (lit "test_fixtures_dir") =
        lit "pkg/test/resourcefixture/testdata/basic/" ++ service ++ lit "/" ++ version ++
          lit "/" ++ strings.ToLower caseTable resource := by
  obtain ⟨t1, t2, _, _, _, t6⟩ :=
    targetFilesOf_get service version (strings.ToLower caseTable resource)
  refine ⟨_, _, PlanMigration_eq caseTable info resource service version hm hs hv, rfl, rfl,
    ?_, ?_, t1, t2, t6⟩
  · intro h
    simp only [protoVersionOf, if_pos h]
  · intro h
    simp only [protoVersionOf, if_neg h]

/-- The hypotheses of `PlanMigration_proto_version` hold for `betaInfo`, whose
apiVersion `v1beta1` is rewritten. -/
theorem PlanMigration_proto_version_witness :
    ∃ plan q, PlanMigration id (.ok betaInfo) (lit "Widget") = .ok plan ∧
      plan.ProtoInfo = some q ∧ q.Version = lit "v1" ∧
      plan.TargetFiles.get (lit "types_file") =
        lit "apis/" ++ lit "svcy" ++ lit "/" ++ lit "v1beta1" ++ lit "/" ++
          strings.ToLower id (lit "Widget") ++ lit "_types.go" := by
  obtain ⟨plan, q, h, hq, _, hv1, _, ht, _, _⟩ :=
    PlanMigration_proto_version id betaInfo (lit "Widget") (lit "svcy") (lit "v1beta1")
      rfl rfl rfl
  exact ⟨plan, q, h, hq, hv1 (Or.inr rfl), ht⟩

/-- C19: for a resource that needs migration, the paths in the plan's
TargetFiles are the artifact paths in the phase table GetMigrationStatus probes:
`types_file`, `identity_file`, `mapper_file`, `controller_file` and
`mockgcp_file` are the artifacts of the phases 2 to 6, and the two artifacts of
phase 7 are `create.yaml` and `update.yaml` in `test_fixtures_dir`. -/
theorem PlanMigration_target_files (caseTable : Nat → Nat) (info : ControllerTypeInfo)
    (fileExists : GoString → Bool) (resource service version : GoString)
    (hm : info.MigrationNeeded = true) (hnd : info.Type_ ≠ lit "direct")
    (hs : info.Service = some service) (hv : info.Version = some version) :
    ∃ plan ms, PlanMigration caseTable (.ok info) resource = .ok plan ∧
      GetMigrationStatus caseTable (.ok info) fileExists resource = .ok ms ∧
      ms.Phases =
        (phases (protoLocationOf info service) service version
          (strings.ToLower caseTable resource)).map (phaseStatusOf fileExists) ∧
      (phases (protoLocationOf info service) service version
          (strings.ToLower caseTable resource)).map (fun ph => (ph.number, ph.files)) =
        [ (1, [(lit "proto", protoLocationOf info service)]),
          (2, [(lit "types", plan.TargetFiles.get (lit "types_file"))]),
          (3, [(lit "identity", plan.TargetFiles.get (lit "identity_file"))]),
          (4, [(lit "mapper", plan.TargetFiles.get (lit "mapper_file"))]),
          (5, [(lit "controller", plan.TargetFiles.get (lit "controller_file"))]),
          (6, [(lit "mockgcp", plan.TargetFiles.get (lit "mockgcp_file"))]),
          (7, [(lit "create_yaml",
                plan.TargetFiles.get (lit "test_fixtures_dir") ++ lit "/create.yaml"),
               (lit "update_yaml",
                plan.TargetFiles.get (lit "test_fixtures_dir") ++ lit "/update.yaml")]) ] := by
  obtain ⟨t1, t2, t3, t4, t5, t6⟩ :=
    targetFilesOf_get service version (strings.ToLower caseTable resource)
  refine ⟨_, _, PlanMigration_eq caseTable info resource service version hm hs hv,
    GetMigrationStatus_eq caseTable info fileExists resource service version hnd hs hv,
    rfl, ?_⟩
  simp only [t1, t2, t3, t4, t5, t6]
  rfl

/-- The hypotheses of `PlanMigration_target_files` hold for `widgetInfo`. -/
theorem PlanMigration_target_files_witness :
    ∃ plan ms, PlanMigration id (.ok widgetInfo) (lit "Widget") = .ok plan ∧
      GetMigrationStatus id (.ok widgetInfo) widgetRepo (lit "Widget") = .ok ms ∧
      ms.Phases =
        (phases (protoLocationOf widgetInfo (lit "svcy")) (lit "svcy") (lit "v1")
          (strings.ToLower id (lit "Widget"))).map (phaseStatusOf widgetRepo) ∧
      (phases (protoLocationOf widgetInfo (lit "svcy")) (lit "svcy") (lit "v1")
          (strings.ToLower id (lit "Widget"))).map (fun ph => (ph.number, ph.files)) =
        [ (1, [(lit "proto", protoLocationOf widgetInfo (lit "svcy"))]),
          (2, [(lit "types", plan.TargetFiles.get (lit "types_file"))]),
          (3, [(lit "identity", plan.TargetFiles.get (lit "identity_file"))]),
          (4, [(lit "mapper", plan.TargetFiles.get (lit "mapper_file"))]),
          (5, [(lit "controller", plan.TargetFiles.get (lit "controller_file"))]),
          (6, [(lit "mockgcp", plan.TargetFiles.get (lit "mockgcp_file"))]),
          (7, [(lit "create_yaml",
                plan.TargetFiles.get (lit "test_fixtures_dir") ++ lit "/create.yaml"),
               (lit "update_yaml",
                plan.TargetFiles.get (lit "test_fixtures_dir") ++ lit "/update.yaml")]) ] :=
  PlanMigration_target_files id widgetInfo widgetRepo (lit "Widget") (lit "svcy") (lit "v1")
    rfl (by decide) rfl rfl

/-! ## Locator: no match -/

theorem leadingSpace_append (w : GoString) (hw : w ∈ strings.spaceEncodings)
    (rest : GoString) : strings.leadingSpace (w ++ rest) = some w.length := by
  simp only [strings.spaceEncodings, List.mem_cons, List.mem_singleton,
    List.not_mem_nil, or_false] at hw
  rcases hw with h | h | h | h | h | h | h | h | h | h | h | h | h | h | h | h | h | h | h |
    h | h | h | h | h | h <;> subst h <;>
    simp [strings.leadingSpace, strings.spaceEncodings, strings.HasPrefix]

theorem trimLeftSpace_flatten (ws : List GoString)
    (hws : ∀ w ∈ ws, w ∈ strings.spaceEncodings) (fuel : Nat)
    (hfuel : ws.flatten.length ≤ fuel) : strings.trimLeftSpace fuel ws.flatten = [] := by
  induction ws generalizing fuel with
  | nil => cases fuel <;> rfl
  | cons w ws ih =>
    have hw := hws w (List.mem_cons_self _ _)
    have hpos := strings.length_pos_of_mem_spaceEncodings w hw
    rw [List.flatten_cons] at hfuel ⊢
    rw [List.length_append] at hfuel
    obtain ⟨fuel', rfl⟩ : ∃ fuel', fuel = fuel' + 1 := ⟨fuel - 1, by omega⟩
    unfold strings.trimLeftSpace
    rw [leadingSpace_append w hw]
    simp only [List.drop_left]
    exact ih (fun v hv => hws v (List.mem_cons_of_mem _ hv)) fuel' (by omega)

theorem TrimSpace_of_isWhiteSpaceOnly (s : GoString) (h : isWhiteSpaceOnly s) :
    strings.TrimSpace s = [] := by
  obtain ⟨ws, hws, rfl⟩ := h
  unfold strings.TrimSpace
  simp only [trimLeftSpace_flatten ws hws _ (Nat.le_refl _)]
  rfl

theorem parseMatches_of_TrimSpace (output : GoString) (h : strings.TrimSpace output = []) :
    parseMatches output = [] := by
  unfold parseMatches
  rw [h]
  rfl

/-- C20: when the type-file search returns no match, FindResource returns no
location and an error whose text contains the resource name as given and the
search pattern `apis/**/*<lower-cased resource>*types.go`.  An output made of
white space only, the empty output included, is parsed as zero matches. -/
theorem FindResource_not_found (caseTable : Nat → Nat) (sh : Shell)
    (fileExists : GoString → Bool) (resource output : GoString)
    (hsh : sh (findCmd (strings.ToLower caseTable resource)) = .ok output) :
    (parseMatches output = [] →
      ∃ msg, FindResource caseTable sh fileExists resource = .error msg ∧
        strings.Contains msg resource = true ∧
        strings.Contains msg
          (lit "apis/**/*" ++ strings.ToLower caseTable resource ++ lit "*types.go") = true) ∧
    (isWhiteSpaceOnly output → parseMatches output = []) ∧
    isWhiteSpaceOnly [] ∧ parseMatches [] = [] := by
  refine ⟨?_, ?_, ⟨[], by simp, rfl⟩, by decide⟩
  · intro hnone
    refine ⟨lit "Resource not found: " ++ resource ++ lit "\n\nSearched for: apis/**/*" ++
        strings.ToLower caseTable resource ++
        lit "*types.go\n\nMake sure the resource exists and has a direct controller.",
      ?_, ?_, ?_⟩
    · simp [FindResource, hsh, hnone]
    · have := Contains_middle (lit "Resource not found: ") resource
        (lit "\n\nSearched for: apis/**/*" ++ strings.ToLower caseTable resource ++
          lit "*types.go\n\nMake sure the resource exists and has a direct controller.")
        resource (Contains_self resource)
      simpa using this
    · have h1 : lit "\n\nSearched for: apis/**/*" = lit "\n\nSearched for: " ++ lit "apis/**/*" := by
        decide
      have h2 : lit "*types.go\n\nMake sure the resource exists and has a direct controller." =
          lit "*types.go" ++
            lit "\n\nMake sure the resource exists and has a direct controller." := by
        decide
      rw [h1, h2]
      have := Contains_middle (lit "Resource not found: " ++ resource ++
          lit "\n\nSearched for: ")
        (lit "apis/**/*" ++ strings.ToLower caseTable resource ++ lit "*types.go")
        (lit "\n\nMake sure the resource exists and has a direct controller.")
        (lit "apis/**/*" ++ strings.ToLower caseTable resource ++ lit "*types.go")
        (Contains_self _)
      simpa using this
  · intro hws
    exact parseMatches_of_TrimSpace output (TrimSpace_of_isWhiteSpaceOnly output hws)

set_option maxRecDepth 100000 in
/-- A search that prints only a blank and line breaks finds nothing:
`FindResource_not_found` gives the error of the locator. -/
theorem FindResource_not_found_witness :
    ∃ msg,
      FindResource id (fun _ => .ok [0x20, 0x0A, 0x0A]) widgetRepo (lit "Gadget") =
        .error msg ∧
      strings.Contains msg (lit "Gadget") = true ∧
      strings.Contains msg (lit "apis/**/*" ++ strings.ToLower id (lit "Gadget") ++
        lit "*types.go") = true := by
  obtain ⟨herr, hws, _, _⟩ :=
    FindResource_not_found id (fun _ => .ok [0x20, 0x0A, 0x0A]) widgetRepo (lit "Gadget")
      [0x20, 0x0A, 0x0A] rfl
  exact herr (hws ⟨[[0x20], [0x0A], [0x0A]], by decide, rfl⟩)

/-! ## Field inserter: failures and the scan -/

/-- C29: when the field type tag is unsupported, AddField returns the error of
getGoType and hands nothing to `os.WriteFile`, also when the parent type is
missing as well; when the tag is supported and the parent type is not found,
AddField returns an error and hands nothing to `os.WriteFile`. -/
theorem AddField_error_no_write (content typesFile : GoString)
    (writeErr : Option GoString) (params : AddFieldParams) :
    (∀ err, getGoType params.FieldType params.Resource params.FieldName = .error err →
      err = lit "unsupported field type: " ++ params.FieldType ∧
      (AddField (.ok content) writeErr typesFile params).result = .error err ∧
      (AddField (.ok content) writeErr typesFile params).written = none) ∧
    (∀ err, getGoType params.FieldType params.Resource params.FieldName = .error err →
      findInsertionPoint content (parentTypeOf params) = -1 →
      (AddField (.ok content) writeErr typesFile params).result =
        .error (lit "unsupported field type: " ++ params.FieldType)) ∧
    (∀ goType, getGoType params.FieldType params.Resource params.FieldName = .ok goType →
      findInsertionPoint content (parentTypeOf params) = -1 →
      (AddField (.ok content) writeErr typesFile params).result =
        .error (lit "could not find parent type: " ++ parentTypeOf params ++
          lit "\n\nMake sure the type exists in " ++ typesFile) ∧
      (AddField (.ok content) writeErr typesFile params).written = none) := by
  have herr : ∀ err,
      getGoType params.FieldType params.Resource params.FieldName = .error err →
      err = lit "unsupported field type: " ++ params.FieldType := by
    intro err h
    unfold getGoType at h
    split_ifs at h
    exact (Except.error.inj h).symm
  refine ⟨?_, ?_, ?_⟩
  · intro err h
    exact ⟨herr err h, by simp [AddField, h], by simp [AddField, h]⟩
  · intro err h _
    rw [← herr err h]
    simp [AddField, h]
  · intro goType h hfip
    exact ⟨by simp [AddField, h, hfip], by simp [AddField, h, hfip]⟩

/-- The types file `otherTypes` has no struct `WidgetSpec`: the tag `int64` is
supported and `AddField_error_no_write` gives the error without a write. -/
theorem AddField_error_no_write_witness :
    (AddField (.ok otherTypes) none widgetTypesPath sizeField).result =
      .error (lit "could not find parent type: " ++ parentTypeOf sizeField ++
        lit "\n\nMake sure the type exists in " ++ widgetTypesPath) ∧
    (AddField (.ok otherTypes) none widgetTypesPath sizeField).written = none :=
  (AddField_error_no_write otherTypes widgetTypesPath none sizeField).2.2 (lit "*int64")
    (by decide) (by decide)

/-- The value of findInsertionPoint when the struct body has a field line: one
plus the index of the last one. -/
theorem findInsertionPoint_last_field (content parentType : GoString) (o c j : Nat)
    (ho : openingLine (strings.Split content 0x0A) (structMarker parentType) = some o)
    (hc : closingLine (strings.Split content 0x0A) (structMarker parentType) = some c)
    (hoj : o < j) (hjc : j < c)
    (hf : isFieldLine (structMarker parentType)
      ((strings.Split content 0x0A).getD j []) = true)
    (hlast : ∀ j', j' < c → j < j' →
      isFieldLine (structMarker parentType)
        ((strings.Split content 0x0A).getD j' []) = false) :
    findInsertionPoint content parentType = (j : Int) + 1 := by
  obtain ⟨o', ho', _, _, _, _, hr⟩ := findInsertionPoint_some content parentType c hc
  have hoo : o' = o := by rw [ho] at ho'; exact (Option.some.inj ho').symm
  subst hoo
  rcases hr with ⟨j0, _, h2, hf0, hall, hr⟩ | ⟨hall, _⟩
  · have : j0 = j := by
      rcases Nat.lt_trichotomy j0 j with hlt | heq | hgt
      · have := hall j hlt hjc; rw [hf] at this; exact absurd this (by simp)
      · exact heq
      · have := hlast j0 h2 hgt; rw [hf0] at this; exact absurd this (by simp)
    rw [hr, this]
  · have := hall j hoj hjc; rw [hf] at this; exact absurd this (by simp)

set_option maxRecDepth 100000 in
/-- C26, as stated, fails: in `remarkTypes` the struct opens at line 0 and
closes at line 3, and the last line between them that contains the
serialization-tag marker is the comment line 2; findInsertionPoint returns 2,
not 3, as the comment line also contains the opening marker and is skipped. -/
theorem findInsertionPoint_last_marker_counterexample :
    openingLine (strings.Split remarkTypes 0x0A) (structMarker (lit "WidgetSpec")) =
      some 0 ∧
    closingLine (strings.Split remarkTypes 0x0A) (structMarker (lit "WidgetSpec")) =
      some 3 ∧
    strings.Contains ((strings.Split remarkTypes 0x0A).getD 2 []) (lit "`json:") = true ∧
    findInsertionPoint remarkTypes (lit "WidgetSpec") = 2 ∧
    findInsertionPoint remarkTypes (lit "WidgetSpec") ≠ 2 + 1 := by
  decide

/-- C26, amended: when the opening line `o` of the target struct is followed,
before the closing line `c`, by at least one field line, a line that contains
the serialization-tag marker and does not contain the opening marker,
findInsertionPoint returns one plus the index `j` of the last such line; and
the result is the same for every content with the same opening and closing
lines and the same lines between them, whatever its other lines are. -/
theorem findInsertionPoint_after_last_field (content parentType : GoString) (o c j : Nat)
    (ho : openingLine (strings.Split content 0x0A) (structMarker parentType) = some o)
    (hc : closingLine (strings.Split content 0x0A) (structMarker parentType) = some c)
    (hoj : o < j) (hjc : j < c)
    (hf : isFieldLine (structMarker parentType)
      ((strings.Split content 0x0A).getD j []) = true)
    (hlast : ∀ j', j' < c → j < j' →
      isFieldLine (structMarker parentType)
        ((strings.Split content 0x0A).getD j' []) = false) :
    findInsertionPoint content parentType = (j : Int) + 1 ∧
    ∀ content' : GoString,
      openingLine (strings.Split content' 0x0A) (structMarker parentType) = some o →
      closingLine (strings.Split content' 0x0A) (structMarker parentType) = some c →
      (∀ k, o < k → k < c →
        (strings.Split content' 0x0A).getD k [] = (strings.Split content 0x0A).getD k []) →
      findInsertionPoint content' parentType = findInsertionPoint content parentType := by
  have h1 := findInsertionPoint_last_field content parentType o c j ho hc hoj hjc hf hlast
  refine ⟨h1, ?_⟩
  intro content' ho' hc' hsame
  rw [h1]
  apply findInsertionPoint_last_field content' parentType o c j ho' hc' hoj hjc
  · rw [hsame j hoj hjc]; exact hf
  · intro j' h1' h2'
    rw [hsame j' (by omega) h1']
    exact hlast j' h1' h2'

/-- The scenario file `widgetTypes` opens at line 0, closes at line 2 and has
its last field line at line 1: `findInsertionPoint_after_last_field` applies. -/
theorem findInsertionPoint_after_last_field_witness :
    findInsertionPoint widgetTypes (lit "WidgetSpec") = ((1 : Nat) : Int) + 1 :=
  (findInsertionPoint_after_last_field widgetTypes (lit "WidgetSpec") 0 2 1
    (by decide) (by decide) (by decide) (by decide) (by decide) (by decide)).1

/-! ## Phase model: phases in progress and the next action -/

theorem phaseStatusOf_single (fileExists : GoString → Bool) (n : Nat)
    (name key path : GoString) :
    (phaseStatusOf fileExists { number := n, name := name, files := [(key, path)] }).Status =
      if fileExists path then lit "completed" else lit "not_started" := by
  cases h : fileExists path <;> simp [phaseStatusOf, probeFiles, h]

theorem phaseStatusOf_pair (fileExists : GoString → Bool) (n : Nat)
    (name key1 path1 key2 path2 : GoString) :
    (phaseStatusOf fileExists
      { number := n, name := name, files := [(key1, path1), (key2, path2)] }).Status =
      if fileExists path1 && fileExists path2 then lit "completed"
      else if fileExists path1 || fileExists path2 then lit "in_progress"
      else lit "not_started" := by
  cases h1 : fileExists path1 <;> cases h2 : fileExists path2 <;>
    simp [phaseStatusOf, probeFiles, h1, h2]

/-- What holds of every entry of the phase list GetMigrationStatus builds. -/
theorem phaseStatus_facts (fileExists : GoString → Bool)
    (protoLocation service version resourceLower : GoString) :
    ∀ p ∈ (phases protoLocation service version resourceLower).map (phaseStatusOf fileExists),
      (p.Status = lit "completed" ∨ p.Status = lit "in_progress" ∨
        p.Status = lit "not_started") ∧
      (p.Number, p.Name) ∈
        [(1, lit "Proto Definitions"), (2, lit "API Types"), (3, lit "Identity Handler"),
         (4, lit "Mapper"), (5, lit "Controller"), (6, lit "MockGCP"),
         (7, lit "Test Fixtures")] ∧
      (p.Number ≤ 6 → p.Status ≠ lit "in_progress") ∧
      (p.Number = 7 →
        (p.Status = lit "in_progress" ↔
          fileExists (lit "pkg/test/resourcefixture/testdata/basic/" ++ service ++ lit "/" ++
              version ++ lit "/" ++ resourceLower ++ lit "/create.yaml") ≠
            fileExists (lit "pkg/test/resourcefixture/testdata/basic/" ++ service ++ lit "/" ++
              version ++ lit "/" ++ resourceLower ++ lit "/update.yaml"))) := by
  have hci : lit "completed" ≠ lit "in_progress" := by decide
  have hni : lit "not_started" ≠ lit "in_progress" := by decide
  have hN : ∀ ph, (phaseStatusOf fileExists ph).Number = ph.number := fun _ => rfl
  have hName : ∀ ph, (phaseStatusOf fileExists ph).Name = ph.name := fun _ => rfl
  intro p hp
  simp only [phases, List.map_cons, List.map_nil, List.mem_cons, List.mem_singleton,
    List.not_mem_nil, or_false] at hp
  rcases hp with rfl | rfl | rfl | rfl | rfl | rfl | rfl
  iterate 6
    · simp only [hN, hName, phaseStatusOf_single]
      generalize fileExists _ = b
      cases b <;> simp [hci, hni]
  · simp only [hN, hName, phaseStatusOf_pair]
    generalize fileExists (lit "pkg/test/resourcefixture/testdata/basic/" ++ service ++
        lit "/" ++ version ++ lit "/" ++ resourceLower ++ lit "/create.yaml") = b1
    generalize fileExists (lit "pkg/test/resourcefixture/testdata/basic/" ++ service ++
        lit "/" ++ version ++ lit "/" ++ resourceLower ++ lit "/update.yaml") = b2
    cases b1 <;> cases b2 <;> simp [hci, hni]

/-- The number of artifacts each phase of the list owns. -/
theorem phaseStatus_artifacts (fileExists : GoString → Bool)
    (protoLocation service version resourceLower : GoString) :
    ∀ p ∈ (phases protoLocation service version resourceLower).map (phaseStatusOf fileExists),
      (p.Number ≤ 6 → p.FilesExist.length = 1) ∧
      (p.Number = 7 → p.FilesExist.length = 2) := by
  intro p hp
  obtain ⟨ph, hph, rfl⟩ := List.mem_map.1 hp
  obtain ⟨hne, hnd⟩ := phases_files protoLocation service version resourceLower ph hph
  have hs := phaseStatusOf_spec fileExists ph hne hnd
  rw [hs.2.2.2.2.2, hs.1, List.length_map]
  simp only [phases, List.mem_cons, List.mem_singleton, List.not_mem_nil, or_false] at hph
  rcases hph with rfl | rfl | rfl | rfl | rfl | rfl | rfl <;> simp

/-- C28: in the non-direct branch of GetMigrationStatus every phase numbered 1
to 6 owns one artifact and never has status `in_progress`; phase 7 owns two; phase 7 has it exactly when one of
create.yaml and update.yaml exists and the other does not; when the current
phase is `in_progress` it is phase 7 and NextAction is
`Complete phase 7: Test Fixtures`; when the current phase is `not_started`
NextAction is one of the seven fixed texts; and NextAction is empty exactly
when all 7 phases are `completed`. -/
theorem GetMigrationStatus_in_progress (caseTable : Nat → Nat) (info : ControllerTypeInfo)
    (fileExists : GoString → Bool) (resource service version : GoString)
    (hnd : info.Type_ ≠ lit "direct") (hs : info.Service = some service)
    (hv : info.Version = some version) :
    ∃ ms, GetMigrationStatus caseTable (.ok info) fileExists resource = .ok ms ∧
      ms.Phases.length = 7 ∧
      (∀ p ∈ ms.Phases, (p.Number ≤ 6 → p.FilesExist.length = 1) ∧
        (p.Number = 7 → p.FilesExist.length = 2)) ∧
      (∀ p ∈ ms.Phases, p.Number ≤ 6 → p.Status ≠ lit "in_progress") ∧
      (∀ p ∈ ms.Phases, p.Number = 7 →
        (p.Status = lit "in_progress" ↔
          fileExists (lit "pkg/test/resourcefixture/testdata/basic/" ++ service ++ lit "/" ++
              version ++ lit "/" ++ strings.ToLower caseTable resource ++
              lit "/create.yaml") ≠
            fileExists (lit "pkg/test/resourcefixture/testdata/basic/" ++ service ++ lit "/" ++
              version ++ lit "/" ++ strings.ToLower caseTable resource ++
              lit "/update.yaml"))) ∧
      (ms.CurrentPhase.Status = lit "in_progress" →
        ms.CurrentPhase.Number = 7 ∧
        ms.NextAction = lit "Complete phase 7: Test Fixtures") ∧
      (ms.CurrentPhase.Status = lit "not_started" →
        ms.NextAction ∈
          [lit "Check proto definitions exist in mockgcp/third_party/googleapis",
           lit "Use kcc_scaffold_types to create API types file",
           lit "Use kcc_scaffold_identity to create identity handler",
           lit "Run kcc_generate_mapper to generate mapper functions",
           lit "Use kcc_scaffold_controller to create controller",
           lit "Use kcc_scaffold_mockgcp to create MockGCP implementation",
           lit "Create test fixtures (create.yaml and update.yaml)"]) ∧
      (ms.NextAction = [] ↔ ∀ p ∈ ms.Phases, p.Status = lit "completed") := by
  refine ⟨_, GetMigrationStatus_eq caseTable info fileExists resource service version
    hnd hs hv, ?_⟩
  simp only
  have hfacts := phaseStatus_facts fileExists (protoLocationOf info service) service version
    (strings.ToLower caseTable resource)
  have hnum := phases_numbers fileExists (protoLocationOf info service) service version
    (strings.ToLower caseTable resource)
  have harts := phaseStatus_artifacts fileExists (protoLocationOf info service) service
    version (strings.ToLower caseTable resource)
  generalize hl : (phases (protoLocationOf info service) service version
    (strings.ToLower caseTable resource)).map (phaseStatusOf fileExists) = l
    at hfacts hnum harts
  have hne : l ≠ [] := by
    intro h; rw [h] at hnum; simp at hnum
  have hcur := currentPhaseOf_spec l hne (by rw [hnum]; decide)
  have hni : lit "not_started" ≠ lit "in_progress" := by decide
  have hcn : lit "completed" ≠ lit "not_started" := by decide
  have hci : lit "completed" ≠ lit "in_progress" := by decide
  obtain ⟨htri, hnn, h6, _⟩ := hfacts _ hcur.1
  refine ⟨?_, harts, fun p hp => (hfacts p hp).2.2.1, fun p hp => (hfacts p hp).2.2.2,
    ?_, ?_, ?_⟩
  · have := congrArg List.length hnum
    simpa using this
  · intro hip
    have h7 : (currentPhaseOf l).Number = 7 := by
      simp only [List.mem_cons, Prod.mk.injEq, List.mem_singleton, List.not_mem_nil,
        or_false] at hnn
      rcases hnn with h | h | h | h | h | h | h
      all_goals first
        | exact h.1
        | exact absurd hip (h6 (by omega))
    refine ⟨h7, ?_⟩
    have hname : (currentPhaseOf l).Name = lit "Test Fixtures" := by
      simp only [List.mem_cons, Prod.mk.injEq, List.mem_singleton, List.not_mem_nil,
        or_false] at hnn
      rcases hnn with h | h | h | h | h | h | h
      all_goals first
        | exact h.2
        | (rw [h7] at h; exact absurd h.1 (by decide))
    unfold nextActionOf
    rw [hip, hname, h7, if_neg (fun h => hni h.symm), if_pos rfl]
    decide
  · intro hns
    unfold nextActionOf
    rw [if_pos hns]
    simp only [List.mem_cons, Prod.mk.injEq, List.mem_singleton, List.not_mem_nil,
      or_false] at hnn
    rcases hnn with h | h | h | h | h | h | h <;> rw [h.1] <;> simp
  · constructor
    · intro hna
      by_contra hall
      have hex : ∃ p ∈ l, p.Status ≠ lit "completed" := by
        by_contra hno
        apply hall
        intro p hp
        by_contra hpc
        exact hno ⟨p, hp, hpc⟩
      have hnc := hcur.2.2.1 hex
      rcases htri with h | h | h
      · exact hnc h
      · unfold nextActionOf at hna
        rw [h, if_neg (fun e => hni e.symm), if_pos rfl] at hna
        have h0 : lit "Complete phase " = [] := by
          rcases List.append_eq_nil.1 hna with ⟨h1, _⟩
          rcases List.append_eq_nil.1 h1 with ⟨h2, _⟩
          exact (List.append_eq_nil.1 h2).1
        exact absurd h0 (by decide)
      · unfold nextActionOf at hna
        rw [if_pos h] at hna
        simp only [List.mem_cons, Prod.mk.injEq, List.mem_singleton, List.not_mem_nil,
          or_false] at hnn
        rcases hnn with e | e | e | e | e | e | e <;> rw [e.1] at hna <;>
          exact absurd hna (by decide)
    · intro hall
      have := hall _ hcur.1
      unfold nextActionOf
      rw [this, if_neg hcn, if_neg hci]

/-- In the repository `partialRepo` the classifier result `betaInfo` takes the
non-direct branch: `GetMigrationStatus_in_progress` applies to it. -/
theorem GetMigrationStatus_in_progress_witness :
    ∃ ms, GetMigrationStatus id (.ok betaInfo) partialRepo (lit "Widget") = .ok ms ∧
      ms.Phases.length = 7 ∧
      (ms.NextAction = [] ↔ ∀ p ∈ ms.Phases, p.Status = lit "completed") := by
  obtain ⟨ms, h, hlen, _, _, _, _, _, hna⟩ :=
    GetMigrationStatus_in_progress id betaInfo partialRepo (lit "Widget") (lit "svcy")
      (lit "v1beta1") (by decide) (by decide) (by decide)
  exact ⟨ms, h, hlen, hna⟩

/-! ## Locator: the first match -/

theorem lit_slash : lit "/" = [0x2F] := by decide

theorem filepath.foldl_cleanStep (elems out : List GoString)
    (h : ∀ e ∈ elems, isPlainElement e) :
    elems.foldl (filepath.cleanStep false) out = elems.reverse ++ out := by
  induction elems generalizing out with
  | nil => rfl
  | cons e es ih =>
    obtain ⟨h1, h2, h3⟩ := h e (List.mem_cons_self _ _)
    rw [List.foldl_cons, ih _ (fun x hx => h x (List.mem_cons_of_mem _ hx))]
    simp [filepath.cleanStep, h1, h2, h3]

/-- On elements that are neither empty nor `.` nor `..` and hold no slash,
`filepath.Join` is the plain join by slashes. -/
theorem filepath.Join_of_plain (elems : List GoString) (hne : elems ≠ [])
    (h : ∀ e ∈ elems, isPlainElement e) (hs : ∀ e ∈ elems, 0x2F ∉ e) :
    filepath.Join elems = strings.Join elems (lit "/") := by
  obtain ⟨e, es, rfl⟩ := List.exists_cons_of_ne_nil hne
  obtain ⟨he, _, _⟩ := h e (List.mem_cons_self _ _)
  obtain ⟨b, bs, rfl⟩ := List.exists_cons_of_ne_nil he
  have hb : b ≠ 0x2F := fun hb => hs (b :: bs) (List.mem_cons_self _ _) (by simp [hb])
  have hj : ∃ t, strings.Join ((b :: bs) :: es) (lit "/") = b :: t := by
    cases es with
    | nil => exact ⟨bs, rfl⟩
    | cons x xs => exact ⟨bs ++ lit "/" ++ strings.Join (x :: xs) (lit "/"), rfl⟩
  obtain ⟨t, ht⟩ := hj
  have hsplit : strings.Split (strings.Join ((b :: bs) :: es) (lit "/")) 0x2F =
      (b :: bs) :: es := by
    rw [lit_slash, strings.Split_Join _ _ hne, strings.flatMap_Split_of_not_mem _ _ hs]
  have hroot : strings.HasPrefix (strings.Join ((b :: bs) :: es) (lit "/")) (lit "/") =
      false := by
    rw [ht, lit_slash]
    simp [strings.HasPrefix, hb]
  unfold filepath.Join
  simp only [List.dropWhile_cons, List.cons_ne_nil, decide_False, Bool.false_eq_true,
    if_false]
  unfold filepath.Clean
  simp only [hroot, hsplit, Bool.false_eq_true, if_false]
  rw [filepath.foldl_cleanStep _ _ h, if_neg (by rw [ht]; simp)]
  simp

theorem FindResource_eq (caseTable : Nat → Nat) (sh : Shell)
    (fileExists : GoString → Bool) (resource output first : GoString)
    (others : List GoString)
    (hsh : sh (findCmd (strings.ToLower caseTable resource)) = .ok output)
    (hm : parseMatches output = first :: others)
    (hge : 4 ≤ (strings.Split first 0x2F).length) :
    FindResource caseTable sh fileExists resource =
      .ok { Resource :=
              strings.TrimSuffix ((strings.Split first 0x2F).getD 3 []) (lit "_types.go"),
            Service := (strings.Split first 0x2F).getD 1 [],
            Version := (strings.Split first 0x2F).getD 2 [],
            TypesFile := first,
            ControllerFile :=
              filepath.Join [lit "pkg", lit "controller", lit "direct",
                (strings.Split first 0x2F).getD 1 [],
                strings.TrimSuffix ((strings.Split first 0x2F).getD 3 []) (lit "_types.go") ++
                  lit "_controller.go"],
            MapperFile :=
              filepath.Join [lit "pkg", lit "controller", lit "direct",
                (strings.Split first 0x2F).getD 1 [], lit "mapper.generated.go"],
            TestFixturesDir :=
              filepath.Join [lit "pkg", lit "test", lit "resourcefixture", lit "testdata",
                lit "basic", (strings.Split first 0x2F).getD 1 [],
                (strings.Split first 0x2F).getD 2 [],
                strings.TrimSuffix ((strings.Split first 0x2F).getD 3 []) (lit "_types.go")],
            FilesExist :=
              [(lit "types", fileExists first),
               (lit "controller", fileExists
                 (filepath.Join [lit "pkg", lit "controller", lit "direct",
                   (strings.Split first 0x2F).getD 1 [],
                   strings.TrimSuffix ((strings.Split first 0x2F).getD 3 [])
                     (lit "_types.go") ++ lit "_controller.go"])),
               (lit "mapper", fileExists
                 (filepath.Join [lit "pkg", lit "controller", lit "direct",
                   (strings.Split first 0x2F).getD 1 [], lit "mapper.generated.go"])),
               (lit "test_fixtures", fileExists
                 (filepath.Join [lit "pkg", lit "test", lit "resourcefixture",
                   lit "testdata", lit "basic", (strings.Split first 0x2F).getD 1 [],
                   (strings.Split first 0x2F).getD 2 [],
                   strings.TrimSuffix ((strings.Split first 0x2F).getD 3 [])
                     (lit "_types.go")]))] } := by
  have hnlt : ¬ (strings.Split first 0x2F).length < 4 := by omega
  simp only [FindResource, hsh, hm, hnlt, if_false]

set_option maxRecDepth 100000 in
/-- C21, as stated, fails: for the match `apis//svcx/v1/foobar_types.go` the
segments are `apis`, the empty string, `svcx`, `v1` and `foobar_types.go`, so
Service is empty and Resource is `v1`, and ControllerFile is the cleaned path
`pkg/controller/direct/v1_controller.go`, not the template
`pkg/controller/direct/<Service>/<Resource>_controller.go`, which here reads
`pkg/controller/direct//v1_controller.go`. -/
theorem FindResource_templates_counterexample :
    FindResource id doubledSlashShell (fun _ => false) (lit "FooBar") =
      .ok { Resource := lit "v1", Service := [], Version := lit "svcx",
            TypesFile := lit "apis//svcx/v1/foobar_types.go",
            ControllerFile := lit "pkg/controller/direct/v1_controller.go",
            MapperFile := lit "pkg/controller/direct/mapper.generated.go",
            TestFixturesDir := lit "pkg/test/resourcefixture/testdata/basic/svcx/v1",
            FilesExist := [(lit "types", false), (lit "controller", false),
              (lit "mapper", false), (lit "test_fixtures", false)] } ∧
    lit "pkg/controller/direct/v1_controller.go" ≠
      lit "pkg/controller/direct/" ++ [] ++ lit "/" ++ lit "v1" ++ lit "_controller.go" := by
  decide

/-- C21, amended: for every non-empty match list FindResource uses only the
first match.  With fewer than 4 segments the call fails with an error that
contains the path.  Otherwise Service, Version and Resource are segments 1, 2
and 3, the last without a trailing `_types.go`; TypesFile is the match; the
three other paths are `filepath.Join` of the template elements, equal to the
slash-separated templates whenever Service, Version and Resource are not
empty, `.` or `..`; and FilesExist holds the four keys, each with the
existence of its own path. -/
theorem FindResource_first_match (caseTable : Nat → Nat) (sh : Shell)
    (fileExists : GoString → Bool) (resource output first : GoString)
    (others : List GoString)
    (hsh : sh (findCmd (strings.ToLower caseTable resource)) = .ok output)
    (hm : parseMatches output = first :: others) :
    ((strings.Split first 0x2F).length < 4 →
      ∃ msg, FindResource caseTable sh fileExists resource = .error msg ∧
        strings.Contains msg first = true) ∧
    (4 ≤ (strings.Split first 0x2F).length →
      ∃ loc, FindResource caseTable sh fileExists resource = .ok loc ∧
        loc.Service = (strings.Split first 0x2F).getD 1 [] ∧
        loc.Version = (strings.Split first 0x2F).getD 2 [] ∧
        loc.Resource =
          strings.TrimSuffix ((strings.Split first 0x2F).getD 3 []) (lit "_types.go") ∧
        loc.TypesFile = first ∧
        loc.ControllerFile =
          filepath.Join [lit "pkg", lit "controller", lit "direct", loc.Service,
            loc.Resource ++ lit "_controller.go"] ∧
        loc.MapperFile =
          filepath.Join [lit "pkg", lit "controller", lit "direct", loc.Service,
            lit "mapper.generated.go"] ∧
        loc.TestFixturesDir =
          filepath.Join [lit "pkg", lit "test", lit "resourcefixture", lit "testdata",
            lit "basic", loc.Service, loc.Version, loc.Resource] ∧
        (isPlainElement loc.Service →
          loc.ControllerFile =
            lit "pkg/controller/direct/" ++ loc.Service ++ lit "/" ++ loc.Resource ++
              lit "_controller.go" ∧
          loc.MapperFile =
            lit "pkg/controller/direct/" ++ loc.Service ++ lit "/mapper.generated.go") ∧
        (isPlainElement loc.Service → isPlainElement loc.Version →
          isPlainElement loc.Resource →
          loc.TestFixturesDir =
            lit "pkg/test/resourcefixture/testdata/basic/" ++ loc.Service ++ lit "/" ++
              loc.Version ++ lit "/" ++ loc.Resource) ∧
        loc.FilesExist =
          [(lit "types", fileExists loc.TypesFile),
           (lit "controller", fileExists loc.ControllerFile),
           (lit "mapper", fileExists loc.MapperFile),
           (lit "test_fixtures", fileExists loc.TestFixturesDir)]) := by
  constructor
  · intro hlt
    refine ⟨lit "unexpected types file path format: " ++ first, ?_, ?_⟩
    · simp [FindResource, hsh, hm, hlt]
    · have := strings.Contains_append (lit "unexpected types file path format: ") first []
      simpa using this
  · intro hge
    rw [FindResource_eq caseTable sh fileExists resource output first others hsh hm hge]
    refine ⟨_, rfl, ?_⟩
    refine ⟨rfl, rfl, rfl, rfl, rfl, rfl, rfl, ?_, ?_, by simp only⟩
    all_goals simp only
    all_goals generalize hS : (strings.Split first 0x2F).getD 1 [] = S
    all_goals generalize hV : (strings.Split first 0x2F).getD 2 [] = V
    all_goals generalize hR :
      strings.TrimSuffix ((strings.Split first 0x2F).getD 3 []) (lit "_types.go") = R
    all_goals
      have hseg : ∀ i, i < (strings.Split first 0x2F).length →
          0x2F ∉ (strings.Split first 0x2F).getD i [] := by
        intro i hi
        rw [List.getD_eq_getElem _ _ hi]
        exact strings.not_mem_of_mem_Split first 0x2F _ (List.getElem_mem _)
    all_goals have hSs : 0x2F ∉ S := hS ▸ hseg 1 (by omega)
    all_goals have hVs : 0x2F ∉ V := hV ▸ hseg 2 (by omega)
    all_goals
      have hRs : 0x2F ∉ R := by
        have h3 := hseg 3 (by omega)
        rw [← hR]
        unfold strings.TrimSuffix
        split_ifs
        · exact fun hmem => h3 (List.mem_of_mem_take hmem)
        · exact h3
    · intro hSp
      have hc : isPlainElement (R ++ lit "_controller.go") := by
        have hlen : 14 ≤ (R ++ lit "_controller.go").length := by
          rw [List.length_append]
          have : (lit "_controller.go").length = 14 := by decide
          omega
        refine ⟨?_, ?_, ?_⟩ <;> intro he <;> rw [he] at hlen <;> revert hlen <;> decide
      have hcs : 0x2F ∉ R ++ lit "_controller.go" := by
        rw [List.mem_append]
        rintro (h | h)
        · exact hRs h
        · revert h; decide
      constructor
      · rw [filepath.Join_of_plain _ (by simp)]
        · have hl : lit "pkg" ++ (lit "/" ++ (lit "controller" ++ (lit "/" ++
              (lit "direct" ++ lit "/")))) = lit "pkg/controller/direct/" := by decide
          rw [← hl]
          simp only [strings.Join, List.append_assoc]
        · intro e he
          simp only [List.mem_cons, List.mem_singleton, List.not_mem_nil, or_false] at he
          rcases he with rfl | rfl | rfl | rfl | rfl
          · exact ⟨by decide, by decide, by decide⟩
          · exact ⟨by decide, by decide, by decide⟩
          · exact ⟨by decide, by decide, by decide⟩
          · exact hSp
          · exact hc
        · intro e he
          simp only [List.mem_cons, List.mem_singleton, List.not_mem_nil, or_false] at he
          rcases he with rfl | rfl | rfl | rfl | rfl
          · decide
          · decide
          · decide
          · exact hSs
          · exact hcs
      · rw [filepath.Join_of_plain _ (by simp)]
        · have hl : lit "pkg" ++ (lit "/" ++ (lit "controller" ++ (lit "/" ++
              (lit "direct" ++ lit "/")))) = lit "pkg/controller/direct/" := by decide
          have hr : lit "/" ++ lit "mapper.generated.go" = lit "/mapper.generated.go" := by
            decide
          rw [← hl, ← hr]
          simp only [strings.Join, List.append_assoc]
        · intro e he
          simp only [List.mem_cons, List.mem_singleton, List.not_mem_nil, or_false] at he
          rcases he with rfl | rfl | rfl | rfl | rfl
          · exact ⟨by decide, by decide, by decide⟩
          · exact ⟨by decide, by decide, by decide⟩
          · exact ⟨by decide, by decide, by decide⟩
          · exact hSp
          · exact ⟨by decide, by decide, by decide⟩
        · intro e he
          simp only [List.mem_cons, List.mem_singleton, List.not_mem_nil, or_false] at he
          rcases he with rfl | rfl | rfl | rfl | rfl
          · decide
          · decide
          · decide
          · exact hSs
          · decide
    · intro hSp hVp hRp
      rw [filepath.Join_of_plain _ (by simp)]
      · have hl : lit "pkg" ++ (lit "/" ++ (lit "test" ++ (lit "/" ++
            (lit "resourcefixture" ++ (lit "/" ++ (lit "testdata" ++ (lit "/" ++
              (lit "basic" ++ lit "/")))))))) =
            lit "pkg/test/resourcefixture/testdata/basic/" := by decide
        rw [← hl]
        simp only [strings.Join, List.append_assoc]
      · intro e he
        simp only [List.mem_cons, List.mem_singleton, List.not_mem_nil, or_false] at he
        rcases he with rfl | rfl | rfl | rfl | rfl | rfl | rfl | rfl
        · exact ⟨by decide, by decide, by decide⟩
        · exact ⟨by decide, by decide, by decide⟩
        · exact ⟨by decide, by decide, by decide⟩
        · exact ⟨by decide, by decide, by decide⟩
        · exact ⟨by decide, by decide, by decide⟩
        · exact hSp
        · exact hVp
        · exact hRp
      · intro e he
        simp only [List.mem_cons, List.mem_singleton, List.not_mem_nil, or_false] at he
        rcases he with rfl | rfl | rfl | rfl | rfl | rfl | rfl | rfl
        · decide
        · decide
        · decide
        · decide
        · decide
        · exact hSs
        · exact hVs
        · exact hRs

set_option maxRecDepth 100000 in
/-- A search that prints the one path `apis/svcx/v1/foobar_types.go`:
`FindResource_first_match` gives the location read from its four segments. -/
theorem FindResource_first_match_witness :
    ∃ loc, FindResource id (fun _ => .ok (lit "apis/svcx/v1/foobar_types.go\n"))
        (fun _ => false) (lit "FooBar") = .ok loc ∧
      loc.Service = lit "svcx" ∧ loc.Version = lit "v1" ∧ loc.Resource = lit "foobar" ∧
      loc.ControllerFile = lit "pkg/controller/direct/svcx/foobar_controller.go" := by
  obtain ⟨loc, h, hS, hV, hR, _, _, _, _, hplain, _, _⟩ :=
    (FindResource_first_match id (fun _ => .ok (lit "apis/svcx/v1/foobar_types.go\n"))
      (fun _ => false) (lit "FooBar") (lit "apis/svcx/v1/foobar_types.go\n")
      (lit "apis/svcx/v1/foobar_types.go") [] rfl (by decide)).2 (by decide)
  have hS1 : loc.Service = lit "svcx" := by rw [hS]; decide
  have hR1 : loc.Resource = lit "foobar" := by rw [hR]; decide
  refine ⟨loc, h, hS1, by rw [hV]; decide, hR1, ?_⟩
  rw [(hplain (by rw [hS1]; exact ⟨by decide, by decide, by decide⟩)).1, hS1, hR1]
  decide

/-! ## Scaffolds: an existing target -/

/-- Joining a root with further elements is joining it with their plain join
by slashes. -/
theorem filepath.Join_root (r e : GoString) (es : List GoString) (he : e ≠ []) :
    filepath.Join (r :: e :: es) = filepath.Join [r, strings.Join (e :: es) (lit "/")] := by
  have hj : strings.Join (e :: es) (lit "/") ≠ [] := by
    cases es with
    | nil => exact he
    | cons x xs =>
      intro h
      simp only [strings.Join, List.append_assoc, List.append_eq_nil] at h
      exact he h.1
  unfold filepath.Join
  by_cases hr : r = []
  · subst hr
    simp [List.dropWhile_cons, he, hj, strings.Join]
  · simp [List.dropWhile_cons, hr, strings.Join]

theorem scaffoldFile_exists (stat : GoString → Bool) (mkdirErr writeErr : Option GoString)
    (targetPath existsError content success : GoString) (h : stat targetPath = true) :
    scaffoldFile stat mkdirErr writeErr targetPath existsError content success =
      ⟨.error existsError, []⟩ := by
  simp [scaffoldFile, h]

/-- C25: each of ScaffoldTypes, ScaffoldIdentity, ScaffoldController and
ScaffoldMockGCP, when its target file exists, returns an error that contains
the target path and calls neither `os.MkdirAll` nor `os.WriteFile`; the target
path is the join of the repository root with
`apis/<service>/<version>/<lower>_types.go`,
`apis/<service>/<version>/<lower>_identity.go`,
`pkg/controller/direct/<service>/<lower>_controller.go` and
`mockgcp/mock<service>/<lower>.go`, with `<lower>` the lower-cased resource
name. -/
theorem Scaffold_refuses_existing (caseTable : Nat → Nat) (stat : GoString → Bool)
    (mkdirErr writeErr : Option GoString) (repoPath : GoString)
    (generateTypesTemplate : ScaffoldTypesParams → GoString)
    (generateIdentityTemplate : ScaffoldIdentityParams → GoString)
    (generateControllerTemplate : ScaffoldControllerParams → GoString)
    (generateMockGCPTemplate : ScaffoldMockGCPParams → GoString)
    (tp : ScaffoldTypesParams) (ip : ScaffoldIdentityParams)
    (cp : ScaffoldControllerParams) (mp : ScaffoldMockGCPParams) :
    (stat (filepath.Join [repoPath, lit "apis/" ++ tp.Service ++ lit "/" ++ tp.Version ++
        lit "/" ++ strings.ToLower caseTable tp.Resource ++ lit "_types.go"]) = true →
      ∃ msg,
        (ScaffoldTypes caseTable generateTypesTemplate stat mkdirErr writeErr repoPath
          tp).result = .error msg ∧
        strings.Contains msg (filepath.Join [repoPath, lit "apis/" ++ tp.Service ++ lit "/" ++
          tp.Version ++ lit "/" ++ strings.ToLower caseTable tp.Resource ++
          lit "_types.go"]) = true ∧
        (ScaffoldTypes caseTable generateTypesTemplate stat mkdirErr writeErr repoPath
          tp).ops = []) ∧
    (stat (filepath.Join [repoPath, lit "apis/" ++ ip.Service ++ lit "/" ++ ip.Version ++
        lit "/" ++ strings.ToLower caseTable ip.Resource ++ lit "_identity.go"]) = true →
      ∃ msg,
        (ScaffoldIdentity caseTable generateIdentityTemplate stat mkdirErr writeErr repoPath
          ip).result = .error msg ∧
        strings.Contains msg (filepath.Join [repoPath, lit "apis/" ++ ip.Service ++ lit "/" ++
          ip.Version ++ lit "/" ++ strings.ToLower caseTable ip.Resource ++
          lit "_identity.go"]) = true ∧
        (ScaffoldIdentity caseTable generateIdentityTemplate stat mkdirErr writeErr repoPath
          ip).ops = []) ∧
    (stat (filepath.Join [repoPath, lit "pkg/controller/direct/" ++ cp.Service ++ lit "/" ++
        strings.ToLower caseTable cp.Resource ++ lit "_controller.go"]) = true →
      ∃ msg,
        (ScaffoldController caseTable generateControllerTemplate stat mkdirErr writeErr
          repoPath cp).result = .error msg ∧
        strings.Contains msg (filepath.Join [repoPath, lit "pkg/controller/direct/" ++
          cp.Service ++ lit "/" ++ strings.ToLower caseTable cp.Resource ++
          lit "_controller.go"]) = true ∧
        (ScaffoldController caseTable generateControllerTemplate stat mkdirErr writeErr
          repoPath cp).ops = []) ∧
    (stat (filepath.Join [repoPath, lit "mockgcp/mock" ++ mp.Service ++ lit "/" ++
        strings.ToLower caseTable mp.Resource ++ lit ".go"]) = true →
      ∃ msg,
        (ScaffoldMockGCP caseTable generateMockGCPTemplate stat mkdirErr writeErr repoPath
          mp).result = .error msg ∧
        strings.Contains msg (filepath.Join [repoPath, lit "mockgcp/mock" ++ mp.Service ++
          lit "/" ++ strings.ToLower caseTable mp.Resource ++ lit ".go"]) = true ∧
        (ScaffoldMockGCP caseTable generateMockGCPTemplate stat mkdirErr writeErr repoPath
          mp).ops = []) := by
  have ha : lit "apis" ++ lit "/" = lit "apis/" := by decide
  have hp : lit "pkg" ++ (lit "/" ++ (lit "controller" ++ (lit "/" ++
      (lit "direct" ++ lit "/")))) = lit "pkg/controller/direct/" := by decide
  have hm : lit "mockgcp" ++ (lit "/" ++ lit "mock") = lit "mockgcp/mock" := by decide
  have e1 : filepath.Join [repoPath, lit "apis", tp.Service, tp.Version,
      strings.ToLower caseTable tp.Resource ++ lit "_types.go"] =
      filepath.Join [repoPath, lit "apis/" ++ tp.Service ++ lit "/" ++ tp.Version ++
        lit "/" ++ strings.ToLower caseTable tp.Resource ++ lit "_types.go"] := by
    rw [filepath.Join_root _ _ _ (by decide), ← ha]
    simp only [strings.Join, List.append_assoc]
  have e2 : filepath.Join [repoPath, lit "apis", ip.Service, ip.Version,
      strings.ToLower caseTable ip.Resource ++ lit "_identity.go"] =
      filepath.Join [repoPath, lit "apis/" ++ ip.Service ++ lit "/" ++ ip.Version ++
        lit "/" ++ strings.ToLower caseTable ip.Resource ++ lit "_identity.go"] := by
    rw [filepath.Join_root _ _ _ (by decide), ← ha]
    simp only [strings.Join, List.append_assoc]
  have e3 : filepath.Join [repoPath, lit "pkg", lit "controller", lit "direct", cp.Service,
      strings.ToLower caseTable cp.Resource ++ lit "_controller.go"] =
      filepath.Join [repoPath, lit "pkg/controller/direct/" ++ cp.Service ++ lit "/" ++
        strings.ToLower caseTable cp.Resource ++ lit "_controller.go"] := by
    rw [filepath.Join_root _ _ _ (by decide), ← hp]
    simp only [strings.Join, List.append_assoc]
  have e4 : filepath.Join [repoPath, lit "mockgcp", lit "mock" ++ mp.Service,
      strings.ToLower caseTable mp.Resource ++ lit ".go"] =
      filepath.Join [repoPath, lit "mockgcp/mock" ++ mp.Service ++ lit "/" ++
        strings.ToLower caseTable mp.Resource ++ lit ".go"] := by
    rw [filepath.Join_root _ _ _ (by decide), ← hm]
    simp only [strings.Join, List.append_assoc]
  refine ⟨?_, ?_, ?_, ?_⟩
  · intro h
    rw [← e1] at h ⊢
    unfold ScaffoldTypes
    simp only [scaffoldFile_exists _ _ _ _ _ _ _ h]
    exact ⟨_, rfl, strings.Contains_append _ _ _, trivial⟩
  · intro h
    rw [← e2] at h ⊢
    unfold ScaffoldIdentity
    simp only [scaffoldFile_exists _ _ _ _ _ _ _ h]
    refine ⟨_, rfl, ?_, trivial⟩
    have := strings.Contains_append (lit "identity file already exists: ")
      (filepath.Join [repoPath, lit "apis", ip.Service, ip.Version,
        strings.ToLower caseTable ip.Resource ++ lit "_identity.go"]) []
    simpa using this
  · intro h
    rw [← e3] at h ⊢
    unfold ScaffoldController
    simp only [scaffoldFile_exists _ _ _ _ _ _ _ h]
    refine ⟨_, rfl, ?_, trivial⟩
    have := strings.Contains_append (lit "controller file already exists: ")
      (filepath.Join [repoPath, lit "pkg", lit "controller", lit "direct", cp.Service,
        strings.ToLower caseTable cp.Resource ++ lit "_controller.go"]) []
    simpa using this
  · intro h
    rw [← e4] at h ⊢
    unfold ScaffoldMockGCP
    simp only [scaffoldFile_exists _ _ _ _ _ _ _ h]
    refine ⟨_, rfl, ?_, trivial⟩
    have := strings.Contains_append (lit "MockGCP file already exists: ")
      (filepath.Join [repoPath, lit "mockgcp", lit "mock" ++ mp.Service,
        strings.ToLower caseTable mp.Resource ++ lit ".go"]) []
    simpa using this

/-- With every path existing, `Scaffold_refuses_existing` makes the four
scaffold functions refuse for the resource `Widget` of the service `svcy`,
without a call that changes the file system. -/
theorem Scaffold_refuses_existing_witness :
    (ScaffoldTypes id (fun _ => []) (fun _ => true) none none (lit "/repo")
      ⟨lit "Widget", lit "svcy", lit "v1", [], [], []⟩).ops = [] ∧
    (ScaffoldIdentity id (fun _ => []) (fun _ => true) none none (lit "/repo")
      ⟨lit "Widget", lit "svcy", lit "v1", []⟩).ops = [] ∧
    (ScaffoldController id (fun _ => []) (fun _ => true) none none (lit "/repo")
      ⟨lit "Widget", lit "svcy", lit "v1", [], []⟩).ops = [] ∧
    (ScaffoldMockGCP id (fun _ => []) (fun _ => true) none none (lit "/repo")
      ⟨lit "Widget", lit "svcy", [], [], []⟩).ops = [] := by
  obtain ⟨h1, h2, h3, h4⟩ :=
    Scaffold_refuses_existing id (fun _ => true) none none (lit "/repo")
      (fun _ => []) (fun _ => []) (fun _ => []) (fun _ => [])
      ⟨lit "Widget", lit "svcy", lit "v1", [], [], []⟩ ⟨lit "Widget", lit "svcy", lit "v1", []⟩
      ⟨lit "Widget", lit "svcy", lit "v1", [], []⟩ ⟨lit "Widget", lit "svcy", [], [], []⟩
  obtain ⟨_, _, _, o1⟩ := h1 rfl
  obtain ⟨_, _, _, o2⟩ := h2 rfl
  obtain ⟨_, _, _, o3⟩ := h3 rfl
  obtain ⟨_, _, _, o4⟩ := h4 rfl
  exact ⟨o1, o2, o3, o4⟩

/-! ## Commit validator: lemmas -/

theorem checkTerms_eq_none (terms : List GoString) (m : GoString) :
    checkTerms terms m = none ↔ ∀ t ∈ terms, strings.Contains m t = false := by
  induction terms with
  | nil => simp [checkTerms]
  | cons t rest ih =>
    unfold checkTerms
    by_cases h : strings.Contains m t = true
    · simp [h]
    · simp [h, ih]

theorem checkTerms_eq_some (terms : List GoString) (m err : GoString) :
    checkTerms terms m = some err ↔
      ∃ before term after, terms = before ++ term :: after ∧
        (∀ t ∈ before, strings.Contains m t = false) ∧
        strings.Contains m term = true ∧ err = blockedError term := by
  induction terms with
  | nil => simp [checkTerms]
  | cons t rest ih =>
    unfold checkTerms
    by_cases h : strings.Contains m t = true
    · rw [if_pos h]
      constructor
      · intro he
        exact ⟨[], t, rest, rfl, by simp, h, (Option.some.inj he).symm⟩
      · rintro ⟨before, term, after, hl, hb, _, he⟩
        cases before with
        | nil =>
          simp only [List.nil_append, List.cons.injEq] at hl
          rw [he, hl.1]
        | cons x xs =>
          simp only [List.cons_append, List.cons.injEq] at hl
          have := hb x (List.mem_cons_self _ _)
          rw [← hl.1, h] at this
          exact absurd this (by simp)
    · rw [if_neg h, ih]
      constructor
      · rintro ⟨before, term, after, hl, hb, hc, he⟩
        refine ⟨t :: before, term, after, by rw [hl]; rfl, ?_, hc, he⟩
        intro u hu
        rcases List.mem_cons.1 hu with rfl | hu
        · simpa using h
        · exact hb u hu
      · rintro ⟨before, term, after, hl, hb, hc, he⟩
        cases before with
        | nil =>
          simp only [List.nil_append, List.cons.injEq] at hl
          rw [hl.1] at h
          exact absurd hc h
        | cons x xs =>
          simp only [List.cons_append, List.cons.injEq] at hl
          exact ⟨xs, term, after, hl.2, fun u hu => hb u (List.mem_cons_of_mem _ hu), hc, he⟩

theorem strings.DecodeRune_width (s : GoString) (hs : s ≠ []) :
    1 ≤ (strings.DecodeRune s).2 ∧ (strings.DecodeRune s).2 ≤ s.length := by
  obtain ⟨s0, t, rfl⟩ := List.exists_cons_of_ne_nil hs
  rcases t with _ | ⟨s1, _ | ⟨s2, _ | ⟨s3, t⟩⟩⟩ <;>
    simp only [strings.DecodeRune] <;> split_ifs <;> simp

/-- A byte below 0x80 that follows the string is never read as part of an
encoding that starts in the string. -/
theorem strings.DecodeRune_append (s0 c : Nat) (ta t : GoString) (hc : c < 0x80) :
    strings.DecodeRune (s0 :: (ta ++ c :: t)) = strings.DecodeRune (s0 :: ta) := by
  have hcc : ¬ (0x80 ≤ c) := by omega
  have hca : ¬ (0xA0 ≤ c) := by omega
  have hc9 : ¬ (0x90 ≤ c) := by omega
  by_cases h1 : s0 < 0x80
  · simp only [strings.DecodeRune, if_pos h1]
  by_cases h2 : 0xC2 ≤ s0 ∧ s0 ≤ 0xDF
  · rcases ta with _ | ⟨a1, ta⟩
    · simp [strings.DecodeRune, h1, h2, hcc]
    · simp only [strings.DecodeRune, List.cons_append, if_neg h1, if_pos h2]
  by_cases h3 : 0xE0 ≤ s0 ∧ s0 ≤ 0xEF
  · rcases ta with _ | ⟨a1, _ | ⟨a2, ta⟩⟩
    · rcases t with _ | ⟨t1, t⟩
      · simp only [strings.DecodeRune, List.nil_append, if_neg h1, if_neg h2, if_pos h3]
      · simp only [strings.DecodeRune, List.nil_append, if_neg h1, if_neg h2, if_pos h3]
        split_ifs <;> simp_all
    · simp [strings.DecodeRune, h1, h2, h3, hcc]
    · simp only [strings.DecodeRune, List.cons_append, if_neg h1, if_neg h2, if_pos h3]
  by_cases h4 : 0xF0 ≤ s0 ∧ s0 ≤ 0xF4
  · rcases ta with _ | ⟨a1, _ | ⟨a2, _ | ⟨a3, ta⟩⟩⟩
    · rcases t with _ | ⟨t1, _ | ⟨t2, t⟩⟩
      · simp only [strings.DecodeRune, List.nil_append, if_neg h1, if_neg h2, if_neg h3,
          if_pos h4]
      · simp only [strings.DecodeRune, List.nil_append, if_neg h1, if_neg h2, if_neg h3,
          if_pos h4]
      · simp only [strings.DecodeRune, List.nil_append, if_neg h1, if_neg h2, if_neg h3,
          if_pos h4]
        split_ifs <;> simp_all
    · rcases t with _ | ⟨t1, t⟩
      · simp only [strings.DecodeRune, List.cons_append, List.nil_append, if_neg h1,
          if_neg h2, if_neg h3, if_pos h4]
      · simp [strings.DecodeRune, h1, h2, h3, h4, hcc]
    · simp [strings.DecodeRune, h1, h2, h3, h4, hcc]
    · simp only [strings.DecodeRune, List.cons_append, if_neg h1, if_neg h2, if_neg h3,
        if_pos h4]
  · simp only [strings.DecodeRune, if_neg h1, if_neg h2, if_neg h3, if_neg h4]

theorem strings.runes_succ (m x : Nat) (xs : GoString) :
    strings.runes (m + 1) (x :: xs) =
      (strings.DecodeRune (x :: xs)).1 ::
        strings.runes m (xs.drop ((strings.DecodeRune (x :: xs)).2 - 1)) := rfl

theorem strings.runes_append (c : Nat) (t : GoString) (hc : c < 0x80) :
    ∀ (n : Nat) (a : GoString), a.length ≤ n →
      strings.runes (a ++ c :: t).length (a ++ c :: t) =
        strings.runes a.length a ++ strings.runes (c :: t).length (c :: t) := by
  intro n
  induction n with
  | zero =>
    intro a ha
    have : a = [] := List.length_eq_zero.1 (by omega)
    subst this
    rfl
  | succ n ih =>
    intro a ha
    rcases a with _ | ⟨s0, ta⟩
    · rfl
    · have hw := strings.DecodeRune_width (s0 :: ta) (by simp)
      have hd := strings.DecodeRune_append s0 c ta t hc
      simp only [List.length_cons] at hw ha
      have hk : (strings.DecodeRune (s0 :: ta)).2 - 1 ≤ ta.length := by omega
      show strings.runes ((ta ++ c :: t).length + 1) (s0 :: (ta ++ c :: t)) =
        strings.runes (ta.length + 1) (s0 :: ta) ++ strings.runes (c :: t).length (c :: t)
      rw [strings.runes_succ, strings.runes_succ, hd, List.drop_append_of_le_length hk,
        strings.runes_fuel (ta.drop ((strings.DecodeRune (s0 :: ta)).2 - 1) ++ c :: t).length
          (ta ++ c :: t).length _ (le_refl _)
          (by simp only [List.length_append, List.length_drop, List.length_cons]; omega),
        ih _ (by rw [List.length_drop]; omega),
        strings.runes_fuel (ta.drop ((strings.DecodeRune (s0 :: ta)).2 - 1)).length
          ta.length _ (le_refl _) (by rw [List.length_drop]; omega)]
      rfl

theorem strings.runes_ascii (T b : GoString) (hT : ∀ c ∈ T, c < 0x80) :
    strings.runes (T ++ b).length (T ++ b) = T ++ strings.runes b.length b := by
  induction T with
  | nil => rfl
  | cons c T ih =>
    have hc : c < 0x80 := hT c (List.mem_cons_self _ _)
    have hd : strings.DecodeRune (c :: (T ++ b)) = (c, 1) := by
      simp [strings.DecodeRune, hc]
    show strings.runes ((T ++ b).length + 1) (c :: (T ++ b)) = c :: (T ++ strings.runes b.length b)
    rw [strings.runes_succ, hd]
    show c :: strings.runes (T ++ b).length (T ++ b) = _
    rw [ih (fun x hx => hT x (List.mem_cons_of_mem _ hx))]

theorem strings.flatMap_lower_ascii (caseTable : Nat → Nat) (T : GoString)
    (hT : ∀ c ∈ T, c < 0x80) :
    T.flatMap (fun r => strings.EncodeRune (strings.unicodeToLower caseTable r)) =
      T.map asciiLower := by
  induction T with
  | nil => rfl
  | cons c T ih =>
    have hc : c < 0x80 := hT c (List.mem_cons_self _ _)
    rw [List.flatMap_cons, List.map_cons, ih (fun x hx => hT x (List.mem_cons_of_mem _ hx))]
    have : strings.EncodeRune (strings.unicodeToLower caseTable c) = [asciiLower c] := by
      unfold strings.unicodeToLower asciiLower
      rw [if_pos (by omega)]
      by_cases hu : 0x41 ≤ c ∧ c ≤ 0x5A
      · rw [if_pos hu]; unfold strings.EncodeRune; rw [if_pos (by omega)]
      · rw [if_neg hu]; unfold strings.EncodeRune; rw [if_pos hc]
    rw [this]; rfl

/-- An ASCII text anywhere in a message comes out of `strings.ToLower` with its
upper-case letters lowered, at some position of the result. -/
theorem strings.ToLower_ascii_infix (caseTable : Nat → Nat) (a T b : GoString)
    (hT : ∀ c ∈ T, c < 0x80) :
    strings.Contains (strings.ToLower caseTable (a ++ T ++ b)) (T.map asciiLower) = true := by
  rcases T with _ | ⟨c, T⟩
  · rw [strings.Contains_iff]; exact List.nil_infix
  · have hc : c < 0x80 := hT c (List.mem_cons_self _ _)
    unfold strings.ToLower
    have e : a ++ c :: T ++ b = a ++ c :: (T ++ b) := by simp
    rw [e, strings.runes_append c (T ++ b) hc a.length a (le_refl _)]
    have e2 : c :: (T ++ b) = (c :: T) ++ b := rfl
    rw [e2, strings.runes_ascii (c :: T) b hT, List.flatMap_append, List.flatMap_append,
      strings.flatMap_lower_ascii caseTable (c :: T) hT, ← List.append_assoc]
    exact strings.Contains_append _ _ _

/-! ## Commit validator: the properties -/

/-- C24: with the blocking rule enabled, ValidateCommitMessage returns an error
exactly when the lower-cased message contains a term of the banned list; the
error is the one that names the first term of the list that occurs in it; a
message that holds at any position an ASCII spelling, in any letter case, of a
banned term is rejected; and CreateCommit returns the error of
ValidateCommitMessage without running any git command. -/
theorem ValidateCommitMessage_blocks (caseTable : Nat → Nat)
    (conventionalPattern : GoString → Bool) (cfg : KCCConfig) (git : Git)
    (repoPath message : GoString) (files : List GoString)
    (hb : cfg.BlockAIAttribution = true) :
    ((∃ err, ValidateCommitMessage caseTable cfg message = some err) ↔
      ∃ term ∈ bannedTerms,
        strings.Contains (strings.ToLower caseTable message) term = true) ∧
    (∀ err, ValidateCommitMessage caseTable cfg message = some err →
      ∃ before term after, bannedTerms = before ++ term :: after ∧
        (∀ t ∈ before, strings.Contains (strings.ToLower caseTable message) t = false) ∧
        strings.Contains (strings.ToLower caseTable message) term = true ∧
        err = blockedError term ∧ strings.Contains err term = true) ∧
    (∀ a T b : GoString, message = a ++ T ++ b → (∀ c ∈ T, c < 0x80) →
      T.map asciiLower ∈ bannedTerms →
      ∃ err, ValidateCommitMessage caseTable cfg message = some err) ∧
    (∀ err, ValidateCommitMessage caseTable cfg message = some err →
      CreateCommit caseTable conventionalPattern cfg git repoPath message files =
        (some err, [])) := by
  have hv : ValidateCommitMessage caseTable cfg message =
      checkTerms bannedTerms (strings.ToLower caseTable message) := by
    simp [ValidateCommitMessage, hb]
  have hiff : (∃ err, ValidateCommitMessage caseTable cfg message = some err) ↔
      ∃ term ∈ bannedTerms,
        strings.Contains (strings.ToLower caseTable message) term = true := by
    rw [hv]
    constructor
    · rintro ⟨err, he⟩
      obtain ⟨before, term, after, hl, _, hc, _⟩ := (checkTerms_eq_some _ _ _).1 he
      exact ⟨term, by rw [hl]; simp, hc⟩
    · rintro ⟨term, hmem, hc⟩
      cases hck : checkTerms bannedTerms (strings.ToLower caseTable message) with
      | some err => exact ⟨err, rfl⟩
      | none =>
        have := (checkTerms_eq_none _ _).1 hck term hmem
        rw [hc] at this
        exact absurd this (by simp)
  refine ⟨hiff, ?_, ?_, ?_⟩
  · intro err he
    rw [hv] at he
    obtain ⟨before, term, after, hl, hbf, hc, herr⟩ := (checkTerms_eq_some _ _ _).1 he
    refine ⟨before, term, after, hl, hbf, hc, herr, ?_⟩
    rw [herr]
    exact strings.Contains_append _ _ _
  · intro a T b hm hT hmem
    apply hiff.2
    refine ⟨_, hmem, ?_⟩
    rw [hm]
    exact strings.ToLower_ascii_infix caseTable a T b hT
  · intro err he
    simp only [CreateCommit, he]

set_option maxRecDepth 100000 in
/-- A message with the trailer `Co-Authored-By: Claude` is rejected under the
blocking rule: `ValidateCommitMessage_blocks` gives the error naming `claude`,
the first listed term that occurs, and CreateCommit runs no git command. -/
theorem ValidateCommitMessage_blocks_witness :
    CreateCommit id (fun _ => true)
        ⟨lit "Dev", lit "dev@example.com", lit "/repo", true, true⟩
        (fun _ => .ok []) (lit "/repo")
        (lit "feat: add size\n\nCo-Authored-By: Claude") [] =
      (some (blockedError (lit "claude")), []) :=
  (ValidateCommitMessage_blocks id (fun _ => true)
    ⟨lit "Dev", lit "dev@example.com", lit "/repo", true, true⟩ (fun _ => .ok [])
    (lit "/repo") (lit "feat: add size\n\nCo-Authored-By: Claude") [] rfl).2.2.2
    (blockedError (lit "claude")) (by decide)

/-! ## Commit validator: the shorter list -/

theorem checkTerms_skip_absent (before after : List GoString) (t m : GoString)
    (h : strings.Contains m t = false) :
    checkTerms (before ++ t :: after) m = checkTerms (before ++ after) m := by
  induction before with
  | nil => simp [checkTerms, h]
  | cons x xs ih => rw [List.cons_append, List.cons_append, checkTerms, checkTerms, ih]

theorem checkTerms_found_before (before : List GoString) (m : GoString)
    (h : ∃ e ∈ before, strings.Contains m e = true) (xs ys : List GoString) :
    checkTerms (before ++ xs) m = checkTerms (before ++ ys) m := by
  induction before with
  | nil => obtain ⟨e, he, _⟩ := h; exact absurd he (List.not_mem_nil _)
  | cons x rest ih =>
    simp only [List.cons_append, checkTerms]
    by_cases hx : strings.Contains m x = true
    · rw [if_pos hx, if_pos hx]
    · rw [if_neg hx, if_neg hx]
      apply ih
      obtain ⟨e, he, hc⟩ := h
      rcases List.mem_cons.1 he with rfl | he
      · exact absurd hc hx
      · exact ⟨e, he, hc⟩

/-- A term that contains an earlier term of the list can be left out. -/
theorem checkTerms_skip (before after : List GoString) (t e m : GoString)
    (he : e ∈ before) (hc : strings.Contains t e = true) :
    checkTerms (before ++ t :: after) m = checkTerms (before ++ after) m := by
  cases hm : strings.Contains m t with
  | false => exact checkTerms_skip_absent before after t m hm
  | true =>
    apply checkTerms_found_before
    refine ⟨e, he, ?_⟩
    rw [strings.Contains_iff] at hm hc ⊢
    exact hc.trans hm

set_option maxRecDepth 100000 in
theorem checkTerms_reduced (m : GoString) :
    checkTerms bannedTerms m = checkTerms reducedTerms m := by
  have h0 : checkTerms
      ([lit "claude", lit "anthropic", lit "gemini", lit "openai", lit "gpt"] ++
        lit "chatgpt" ::
        [lit "co-authored-by: claude", lit "co-authored-by: gemini",
         lit "co-authored-by: chatgpt", lit "noreply@anthropic.com",
         lit "noreply@openai.com", lit "🤖 generated", lit "ai-generated",
         lit "generated with claude", lit "generated with gemini"]) m =
    checkTerms
      ([lit "claude", lit "anthropic", lit "gemini", lit "openai", lit "gpt"] ++
        [lit "co-authored-by: claude", lit "co-authored-by: gemini",
         lit "co-authored-by: chatgpt", lit "noreply@anthropic.com",
         lit "noreply@openai.com", lit "🤖 generated", lit "ai-generated",
         lit "generated with claude", lit "generated with gemini"]) m :=
    checkTerms_skip
      [lit "claude", lit "anthropic", lit "gemini", lit "openai", lit "gpt"]
      [lit "co-authored-by: claude", lit "co-authored-by: gemini",
       lit "co-authored-by: chatgpt", lit "noreply@anthropic.com",
       lit "noreply@openai.com", lit "🤖 generated", lit "ai-generated",
       lit "generated with claude", lit "generated with gemini"]
      (lit "chatgpt") (lit "gpt") m (by simp) rfl
  have h1 : checkTerms
      ([lit "claude", lit "anthropic", lit "gemini", lit "openai", lit "gpt"] ++
        lit "co-authored-by: claude" ::
        [lit "co-authored-by: gemini", lit "co-authored-by: chatgpt",
         lit "noreply@anthropic.com", lit "noreply@openai.com", lit "🤖 generated",
         lit "ai-generated", lit "generated with claude", lit "generated with gemini"]) m =
    checkTerms
      ([lit "claude", lit "anthropic", lit "gemini", lit "openai", lit "gpt"] ++
        [lit "co-authored-by: gemini", lit "co-authored-by: chatgpt",
         lit "noreply@anthropic.com", lit "noreply@openai.com", lit "🤖 generated",
         lit "ai-generated", lit "generated with claude", lit "generated with gemini"]) m :=
    checkTerms_skip
      [lit "claude", lit "anthropic", lit "gemini", lit "openai", lit "gpt"]
      [lit "co-authored-by: gemini", lit "co-authored-by: chatgpt",
       lit "noreply@anthropic.com", lit "noreply@openai.com", lit "🤖 generated",
       lit "ai-generated", lit "generated with claude", lit "generated with gemini"]
      (lit "co-authored-by: claude") (lit "claude") m (by simp) rfl
  have h2 : checkTerms
      ([lit "claude", lit "anthropic", lit "gemini", lit "openai", lit "gpt"] ++
        lit "co-authored-by: gemini" ::
        [lit "co-authored-by: chatgpt", lit "noreply@anthropic.com",
         lit "noreply@openai.com", lit "🤖 generated", lit "ai-generated",
         lit "generated with claude", lit "generated with gemini"]) m =
    checkTerms
      ([lit "claude", lit "anthropic", lit "gemini", lit "openai", lit "gpt"] ++
        [lit "co-authored-by: chatgpt", lit "noreply@anthropic.com",
         lit "noreply@openai.com", lit "🤖 generated", lit "ai-generated",
         lit "generated with claude", lit "generated with gemini"]) m :=
    checkTerms_skip
      [lit "claude", lit "anthropic", lit "gemini", lit "openai", lit "gpt"]
      [lit "co-authored-by: chatgpt", lit "noreply@anthropic.com",
       lit "noreply@openai.com", lit "🤖 generated", lit "ai-generated",
       lit "generated with claude", lit "generated with gemini"]
      (lit "co-authored-by: gemini") (lit "gemini") m (by simp) rfl
  have h3 : checkTerms
      ([lit "claude", lit "anthropic", lit "gemini", lit "openai", lit "gpt"] ++
        lit "co-authored-by: chatgpt" ::
        [lit "noreply@anthropic.com", lit "noreply@openai.com", lit "🤖 generated",
         lit "ai-generated", lit "generated with claude", lit "generated with gemini"]) m =
    checkTerms
      ([lit "claude", lit "anthropic", lit "gemini", lit "openai", lit "gpt"] ++
        [lit "noreply@anthropic.com", lit "noreply@openai.com", lit "🤖 generated",
         lit "ai-generated", lit "generated with claude", lit "generated with gemini"]) m :=
    checkTerms_skip
      [lit "claude", lit "anthropic", lit "gemini", lit "openai", lit "gpt"]
      [lit "noreply@anthropic.com", lit "noreply@openai.com", lit "🤖 generated",
       lit "ai-generated", lit "generated with claude", lit "generated with gemini"]
      (lit "co-authored-by: chatgpt") (lit "gpt") m (by simp) rfl
  have h4 : checkTerms
      ([lit "claude", lit "anthropic", lit "gemini", lit "openai", lit "gpt"] ++
        lit "noreply@anthropic.com" ::
        [lit "noreply@openai.com", lit "🤖 generated", lit "ai-generated",
         lit "generated with claude", lit "generated with gemini"]) m =
    checkTerms
      ([lit "claude", lit "anthropic", lit "gemini", lit "openai", lit "gpt"] ++
        [lit "noreply@openai.com", lit "🤖 generated", lit "ai-generated",
         lit "generated with claude", lit "generated with gemini"]) m :=
    checkTerms_skip
      [lit "claude", lit "anthropic", lit "gemini", lit "openai", lit "gpt"]
      [lit "noreply@openai.com", lit "🤖 generated", lit "ai-generated",
       lit "generated with claude", lit "generated with gemini"]
      (lit "noreply@anthropic.com") (lit "anthropic") m (by simp) rfl
  have h5 : checkTerms
      ([lit "claude", lit "anthropic", lit "gemini", lit "openai", lit "gpt"] ++
        lit "noreply@openai.com" ::
        [lit "🤖 generated", lit "ai-generated", lit "generated with claude",
         lit "generated with gemini"]) m =
    checkTerms
      ([lit "claude", lit "anthropic", lit "gemini", lit "openai", lit "gpt"] ++
        [lit "🤖 generated", lit "ai-generated", lit "generated with claude",
         lit "generated with gemini"]) m :=
    checkTerms_skip
      [lit "claude", lit "anthropic", lit "gemini", lit "openai", lit "gpt"]
      [lit "🤖 generated", lit "ai-generated", lit "generated with claude",
       lit "generated with gemini"]
      (lit "noreply@openai.com") (lit "openai") m (by simp) rfl
  have h6 : checkTerms
      ([lit "claude", lit "anthropic", lit "gemini", lit "openai", lit "gpt",
        lit "🤖 generated", lit "ai-generated"] ++
        lit "generated with claude" ::
        [lit "generated with gemini"]) m =
    checkTerms
      ([lit "claude", lit "anthropic", lit "gemini", lit "openai", lit "gpt",
        lit "🤖 generated", lit "ai-generated"] ++
        [lit "generated with gemini"]) m :=
    checkTerms_skip
      [lit "claude", lit "anthropic", lit "gemini", lit "openai", lit "gpt",
       lit "🤖 generated", lit "ai-generated"]
      [lit "generated with gemini"]
      (lit "generated with claude") (lit "claude") m (by simp) rfl
  have h7 : checkTerms
      ([lit "claude", lit "anthropic", lit "gemini", lit "openai", lit "gpt",
        lit "🤖 generated", lit "ai-generated"] ++
        lit "generated with gemini" ::
        []) m =
    checkTerms
      ([lit "claude", lit "anthropic", lit "gemini", lit "openai", lit "gpt",
        lit "🤖 generated", lit "ai-generated"] ++
        []) m :=
    checkTerms_skip
      [lit "claude", lit "anthropic", lit "gemini", lit "openai", lit "gpt",
       lit "🤖 generated", lit "ai-generated"]
      []
      (lit "generated with gemini") (lit "gemini") m (by simp) rfl
  exact h0.trans (h1.trans (h2.trans (h3.trans (h4.trans (h5.trans (h6.trans h7))))))

set_option maxRecDepth 100000 in
/-- C30: for every configuration and every message ValidateCommitMessage, with
its 15-entry list, returns what the same check returns with the 7 entries
`claude`, `anthropic`, `gemini`, `openai`, `gpt`, `🤖 generated` and
`ai-generated`; each of the 8 other entries contains an earlier entry of the
list; and an error of ValidateCommitMessage always names one of the 7. -/
theorem ValidateCommitMessage_reduced (caseTable : Nat → Nat) (cfg : KCCConfig)
    (message : GoString) :
    ValidateCommitMessage caseTable cfg message =
      ValidateCommitMessageReduced caseTable cfg message ∧
    bannedTerms.length = 15 ∧ reducedTerms.length = 7 ∧
    (∀ t ∈ reducedTerms, t ∈ bannedTerms) ∧
    (∀ i, i < 15 → bannedTerms.getD i [] ∉ reducedTerms →
      ∃ j, j < i ∧
        strings.Contains (bannedTerms.getD i []) (bannedTerms.getD j []) = true) ∧
    (∀ err, ValidateCommitMessage caseTable cfg message = some err →
      ∃ term ∈ reducedTerms, err = blockedError term) := by
  have heq : ValidateCommitMessage caseTable cfg message =
      ValidateCommitMessageReduced caseTable cfg message := by
    unfold ValidateCommitMessage ValidateCommitMessageReduced
    split_ifs
    · rfl
    · exact checkTerms_reduced _
  refine ⟨heq, rfl, rfl, by decide, by decide, ?_⟩
  intro err he
  rw [heq] at he
  unfold ValidateCommitMessageReduced at he
  split_ifs at he
  obtain ⟨before, term, after, hl, _, _, herr⟩ := (checkTerms_eq_some _ _ _).1 he
  exact ⟨term, by rw [hl]; simp, herr⟩

/-! ## Searches: lemmas -/

theorem strings.trimRightSpace_isPrefix (fuel : Nat) (s : GoString) :
    strings.trimRightSpace fuel s <+: s := by
  induction fuel generalizing s with
  | zero => exact List.prefix_refl _
  | succ n ih =>
    unfold strings.trimRightSpace
    cases (strings.spaceEncodings.find? (fun e => strings.HasPrefix s.reverse e.reverse)).map
        List.length with
    | none => exact List.prefix_refl _
    | some k => exact (ih _).trans (List.take_prefix _ _)

/-- An output that holds a byte outside every white-space encoding has a
match. -/
theorem parseMatches_ne_nil (output : GoString) (b : Nat) (hb : b ∈ output)
    (hns : b ∉ strings.spaceBytes) : parseMatches output ≠ [] := by
  have hT : b ∈ strings.TrimSpace output := by
    rcases strings.TrimSpace_bytes output b hb with h | h
    · exact h
    · exact absurd h hns
  unfold parseMatches
  unfold strings.TrimSpace at hT ⊢
  simp only at hT ⊢
  generalize hl : strings.trimLeftSpace output.length output = tl at hT ⊢
  have hlead : strings.leadingSpace tl = none := by
    rw [← hl]; exact strings.leadingSpace_trimLeftSpace _ _ (le_refl _)
  have hpre := strings.trimRightSpace_isPrefix tl.length tl
  generalize strings.trimRightSpace tl.length tl = T at hT hpre
  rcases T with _ | ⟨c, T⟩
  · exact absurd hT (List.not_mem_nil _)
  · obtain ⟨rest, hrest⟩ := hpre
    have hc : c ≠ 0x0A := by
      rintro rfl
      have hfind : strings.spaceEncodings.find? (fun e => strings.HasPrefix tl e) = none := by
        unfold strings.leadingSpace at hlead
        simpa using hlead
      have := List.find?_eq_none.1 hfind [0x0A] (by decide)
      rw [← hrest] at this
      simp [strings.HasPrefix] at this
    unfold strings.Split
    rw [if_neg hc]
    cases strings.Split T 0x0A with
    | nil => simp [removeEmpty]
    | cons l ls => simp [removeEmpty]

theorem findOutput_eq_nil (repo : List GoString) (root : GoString)
    (needle ending : PlainName)
    (h : ∀ p ∈ repo, strings.HasPrefix p root = true →
      nameMatches needle ending (baseName p) = false) :
    findOutput repo root needle ending = [] := by
  unfold findOutput
  have : repo.filter (fun p =>
      strings.HasPrefix p root && nameMatches needle ending (baseName p)) = [] := by
    rw [List.filter_eq_nil_iff]
    intro p hp
    cases hr : strings.HasPrefix p root with
    | false => simp
    | true => simp [h p hp hr]
  rw [this]; rfl

theorem findOutput_mem (repo : List GoString) (root : GoString)
    (needle ending : PlainName) (p : GoString)
    (hp : p ∈ repo) (hr : strings.HasPrefix p root = true)
    (hm : nameMatches needle ending (baseName p) = true) :
    ∀ b ∈ p, b ∈ findOutput repo root needle ending := by
  intro b hb
  unfold findOutput
  rw [List.mem_flatten]
  refine ⟨p ++ [0x0A], ?_, List.mem_append_left _ hb⟩
  rw [List.mem_map]
  exact ⟨p, List.mem_filter.2 ⟨hp, by simp [hr, hm]⟩, rfl⟩

/-- A plain name holds no slash. -/
theorem PlainName.no_slash (n : PlainName) : 0x2F ∉ n.val := by
  intro hmem
  have h := n.plain
  unfold isPlainName at h
  rw [List.all_eq_true] at h
  have := h 0x2F hmem
  revert this
  decide

/-! ## Searches: letter case -/

theorem nameMatches_Contains (needle ending : PlainName) (base : GoString)
    (h : nameMatches needle ending base = true) :
    strings.Contains base needle.val = true := by
  unfold nameMatches at h
  rw [Bool.and_eq_true] at h
  rw [strings.Contains_iff] at h ⊢
  exact h.2.trans (List.take_prefix _ _).isInfix

theorem mem_of_apis (p : GoString) (h : strings.HasPrefix p (lit "apis/") = true) :
    0x61 ∈ p := by
  rw [strings.HasPrefix_iff] at h
  exact h.subset (by decide)

theorem FindResource_of_lower (caseTable : Nat → Nat) (sh : Shell)
    (fileExists : GoString → Bool) (r1 r2 : GoString)
    (h : strings.ToLower caseTable r1 = strings.ToLower caseTable r2)
    (loc : ResourceLocation) (h1 : FindResource caseTable sh fileExists r1 = .ok loc) :
    FindResource caseTable sh fileExists r2 = .ok loc := by
  unfold FindResource at h1 ⊢
  simp only [h] at h1
  simp only
  cases hsh : sh (findCmd (strings.ToLower caseTable r2)) with
  | error e => simp [hsh] at h1
  | ok output =>
    simp only [hsh] at h1 ⊢
    cases hm : parseMatches output with
    | nil => simp [hm] at h1
    | cons first others =>
      simp only [hm] at h1 ⊢
      exact h1

theorem DetectControllerType_of_lower (caseTable : Nat → Nat) (sh : Shell)
    (r1 r2 : GoString)
    (h : strings.ToLower caseTable r1 = strings.ToLower caseTable r2)
    (info : ControllerTypeInfo) (h1 : DetectControllerType caseTable sh r1 = .ok info) :
    DetectControllerType caseTable sh r2 = .ok { info with Resource := r2 } := by
  obtain ⟨directOutput, tfOutput, hd, ht⟩ := DetectControllerType_ok caseTable sh r1 info h1
  rw [DetectControllerType_eq caseTable sh r1 directOutput tfOutput hd ht] at h1
  rw [h] at hd ht
  rw [DetectControllerType_eq caseTable sh r2 directOutput tfOutput hd ht]
  have h1 := (Except.ok.inj h1).symm
  subst h1
  cases parseMatches directOutput with
  | cons location rest => rfl
  | nil =>
    cases parseMatches tfOutput with
    | cons location rest => rfl
    | nil => rfl

set_option maxRecDepth 100000 in
/-- C23, as stated, fails: the base name of `apis/svcy/v1/Widget_types.go`
contains the resource name `Widget` and ends with `_types.go`, and in a
repository that holds this one file neither FindResource nor
DetectControllerType matches it for any of the resource names `widget`,
`Widget` and `WIDGET`: all three are searched as `widget`, which `find -name`
compares byte for byte with the file name. -/
theorem lowered_name_search_counterexample :
    nameMatches ⟨lit "Widget", by decide⟩ underscoreTypesGo
      (baseName (lit "apis/svcy/v1/Widget_types.go")) = true ∧
    ∀ r ∈ [lit "widget", lit "Widget", lit "WIDGET"],
      strings.ToLower id r = lit "widget" ∧
      FindResource id capitalShell (fun p => decide (p ∈ capitalRepo)) r =
        .error (notFoundError r (lit "widget")) ∧
      DetectControllerType id capitalShell r =
        .ok { Resource := r, Type_ := lit "unknown", Location := none,
              MigrationNeeded := false, HasDirectTypes := false,
              HasTerraformTypes := false, HasProto := false, ProtoLocation := none,
              Service := none, Version := none } := by
  refine ⟨by decide, ?_⟩
  intro r hr
  simp only [List.mem_cons, List.mem_singleton, List.not_mem_nil, or_false] at hr
  rcases hr with rfl | rfl | rfl <;> decide

/-- C23, amended: only the resource name is brought to lower case; the file
name is compared as it is.  Resource names with the same lower-cased form give
the same location from FindResource and the same classification from
DetectControllerType, up to the echoed name, whatever the shell prints.  For a
resource name whose lower-cased form is a plain name (ASCII letters, digits,
`_`, `-` and `.` only, so no glob or shell metacharacter) and searches that
print every path below `apis/` whose base name contains that form before the
ending: a file with such a base name is found, whatever the letter case of the
resource name; and when no base name of the repository contains the
lower-cased form byte for byte, nothing is found. -/
theorem lowered_name_search (caseTable : Nat → Nat) (sh : Shell)
    (fileExists : GoString → Bool) (r1 r2 : GoString)
    (h : strings.ToLower caseTable r1 = strings.ToLower caseTable r2) :
    (∀ loc, FindResource caseTable sh fileExists r1 = .ok loc ↔
      FindResource caseTable sh fileExists r2 = .ok loc) ∧
    (∀ info, DetectControllerType caseTable sh r1 = .ok info →
      DetectControllerType caseTable sh r2 = .ok { info with Resource := r2 }) ∧
    (∀ (lower : PlainName) (repo : List GoString) (tfOutput : GoString),
      strings.ToLower caseTable r1 = lower.val →
      sh (findCmd lower.val) = .ok (findOutput repo (lit "apis/") lower typesGo) →
      sh (directTypesCmd lower.val) =
        .ok (findOutput repo (lit "apis/") lower underscoreTypesGo) →
      sh (tfTypesCmd lower.val) = .ok tfOutput →
      ((∃ p ∈ repo, strings.HasPrefix p (lit "apis/") = true ∧
          nameMatches lower typesGo (baseName p) = true) →
        FindResource caseTable sh fileExists r2 ≠ .error (notFoundError r2 lower.val)) ∧
      ((∃ p ∈ repo, strings.HasPrefix p (lit "apis/") = true ∧
          nameMatches lower underscoreTypesGo (baseName p) = true) →
        ∃ info, DetectControllerType caseTable sh r2 = .ok info ∧
          info.Type_ = lit "direct" ∧ info.HasDirectTypes = true) ∧
      ((∀ p ∈ repo, strings.Contains (baseName p) lower.val = false) →
        FindResource caseTable sh fileExists r2 = .error (notFoundError r2 lower.val) ∧
        ∃ info, DetectControllerType caseTable sh r2 = .ok info ∧
          info.HasDirectTypes = false)) := by
  have hspace : (0x61 : Nat) ∉ strings.spaceBytes := by decide
  refine ⟨fun loc => ⟨FindResource_of_lower caseTable sh fileExists r1 r2 h loc,
    FindResource_of_lower caseTable sh fileExists r2 r1 h.symm loc⟩,
    DetectControllerType_of_lower caseTable sh r1 r2 h, ?_⟩
  intro lower repo tfOutput hl1 hfind hdirect htf
  have hl2 : strings.ToLower caseTable r2 = lower.val := by rw [← h]; exact hl1
  rw [← hl2] at hfind hdirect htf
  refine ⟨?_, ?_, ?_⟩
  · rintro ⟨p, hp, hr, hm⟩
    have hne := parseMatches_ne_nil _ 0x61
      (findOutput_mem repo _ _ _ p hp hr hm 0x61 (mem_of_apis p hr)) hspace
    obtain ⟨first, others, hl⟩ := List.exists_cons_of_ne_nil hne
    unfold FindResource
    simp only [hfind, hl]
    split_ifs
    · intro heq
      have hu : lit "unexpected types file path format: " =
          0x75 :: lit "nexpected types file path format: " := by decide
      have hR : lit "Resource not found: " = 0x52 :: lit "esource not found: " := by decide
      have heq := Except.error.inj heq
      unfold notFoundError at heq
      rw [hu, hR] at heq
      simp at heq
    · simp
  · rintro ⟨p, hp, hr, hm⟩
    have hne := parseMatches_ne_nil _ 0x61
      (findOutput_mem repo _ _ _ p hp hr hm 0x61 (mem_of_apis p hr)) hspace
    obtain ⟨first, others, hl⟩ := List.exists_cons_of_ne_nil hne
    rw [DetectControllerType_eq caseTable sh r2 _ tfOutput hdirect htf, hl]
    exact ⟨_, rfl, rfl, rfl⟩
  · intro hno
    have hnil : ∀ ending, findOutput repo (lit "apis/") lower ending = [] := by
      intro ending
      apply findOutput_eq_nil
      intro p hp _
      cases hm : nameMatches lower ending (baseName p) with
      | false => rfl
      | true =>
        have := nameMatches_Contains _ _ _ hm
        rw [hno p hp] at this
        exact absurd this (by simp)
    have hpm : parseMatches [] = [] := by decide
    rw [hnil] at hfind hdirect
    constructor
    · unfold FindResource
      simp only [hfind, hpm, notFoundError]
      rw [hl2]
    · rw [DetectControllerType_eq caseTable sh r2 _ tfOutput hdirect htf, hpm]
      cases parseMatches tfOutput with
      | nil => exact ⟨_, rfl, rfl⟩
      | cons location rest => exact ⟨_, rfl, rfl⟩

set_option maxRecDepth 100000 in
/-- In a repository that holds `apis/svcy/v1/widget_types.go` the resource
names `Widget` and `WIDGET` have the same lower-cased form, the plain name
`widget`, and `lowered_name_search` gives the classification `direct` for
`WIDGET`. -/
theorem lowered_name_search_witness :
    ∃ info, DetectControllerType id lowerShell (lit "WIDGET") = .ok info ∧
      info.Type_ = lit "direct" ∧ info.HasDirectTypes = true :=
  ((lowered_name_search id lowerShell (fun p => decide (p ∈ lowerRepo)) (lit "Widget")
    (lit "WIDGET") (by decide)).2.2
      widgetName lowerRepo [] (by decide) (by decide) (by decide) (by decide)).2.1
    ⟨lit "apis/svcy/v1/widget_types.go", by decide, by decide, by decide⟩

/-! ## Phase model: the types file on the legacy path -/

theorem baseName_append (a b : GoString) (hb : 0x2F ∉ b) :
    baseName (a ++ lit "/" ++ b) = b := by
  unfold baseName
  rw [lit_slash, List.append_assoc, List.singleton_append, strings.Split_append_sep,
    strings.Split_of_not_mem b 0x2F hb, List.getLastD_concat]

theorem nameMatches_self (needle ending : PlainName) :
    nameMatches needle ending (needle.val ++ ending.val) = true := by
  unfold nameMatches strings.HasSuffix
  rw [Bool.and_eq_true]
  constructor
  · rw [strings.HasPrefix_iff, List.reverse_append]
    exact List.prefix_append _ _
  · rw [List.length_append, Nat.add_sub_cancel, List.take_left']
    · exact Contains_self needle.val
    · rfl

/-- Under the search model of the direct tree a resource with a plain
lower-cased name that is not classified `direct` has no types file at the
place phase 2 looks for it. -/
theorem types_file_absent (caseTable : Nat → Nat) (sh : Shell) (resource : GoString)
    (repo : List GoString) (info : ControllerTypeInfo) (service version : GoString)
    (lower : PlainName)
    (hlower : strings.ToLower caseTable resource = lower.val)
    (hdirect : sh (directTypesCmd lower.val) =
      .ok (findOutput repo (lit "apis/") lower underscoreTypesGo))
    (hdet : DetectControllerType caseTable sh resource = .ok info)
    (hnd : info.Type_ ≠ lit "direct") :
    lit "apis/" ++ service ++ lit "/" ++ version ++ lit "/" ++ lower.val ++
      lit "_types.go" ∉ repo := by
  have hspace : (0x61 : Nat) ∉ strings.spaceBytes := by decide
  obtain ⟨directOutput, tfOutput, hd, ht⟩ :=
    DetectControllerType_ok caseTable sh resource info hdet
  have hout : directOutput = findOutput repo (lit "apis/") lower underscoreTypesGo := by
    rw [hlower, hdirect] at hd
    exact (Except.ok.inj hd).symm
  rw [DetectControllerType_eq caseTable sh resource _ _ hd ht] at hdet
  have hdet := (Except.ok.inj hdet).symm
  cases hdl : parseMatches directOutput with
  | cons location rest =>
    rw [hdl] at hdet
    rw [hdet] at hnd
    exact absurd rfl hnd
  | nil =>
    have hslash2 : 0x2F ∉ lower.val ++ lit "_types.go" := by
      rw [List.mem_append]
      rintro (h | h)
      · exact lower.no_slash h
      · revert h; decide
    intro hmem
    have hpre : strings.HasPrefix (lit "apis/" ++ service ++ lit "/" ++ version ++ lit "/" ++
        lower.val ++ lit "_types.go") (lit "apis/") = true := by
      rw [strings.HasPrefix_iff]
      simp only [List.append_assoc]
      exact List.prefix_append _ _
    have hbase : baseName (lit "apis/" ++ service ++ lit "/" ++ version ++ lit "/" ++
        lower.val ++ lit "_types.go") = lower.val ++ lit "_types.go" := by
      have := baseName_append (lit "apis/" ++ service ++ lit "/" ++ version)
        (lower.val ++ lit "_types.go") hslash2
      simpa only [List.append_assoc] using this
    have hne2 := parseMatches_ne_nil _ 0x61
      (findOutput_mem repo (lit "apis/") lower underscoreTypesGo _ hmem hpre
        (by rw [hbase]; exact nameMatches_self lower underscoreTypesGo) 0x61
        (mem_of_apis _ hpre)) hspace
    rw [← hout] at hne2
    exact hne2 hdl

set_option maxRecDepth 100000 in
/-- C27, as stated, fails: the resource name `Wid$((1+1))` holds no glob
metacharacter (`*`, `?`, `[`, backslash), but `sh` replaces `$((1+1))` by `2`
between the double quotes of the search commands.  In the repository
`arithRepo` the search of the direct tree therefore misses the file
`apis/svcy/v1beta1/wid$((1+1))_types.go`, the resource is classified
`terraform` through `wid2_types.go` of the legacy tree, and
GetMigrationStatus, which probes the paths as they are, reports phase 2 and
all other phases `completed`, 7 of 7, with phase 7 as the current phase. -/
theorem GetMigrationStatus_types_absent_counterexample :
    (∀ b ∈ [0x2A, 0x3F, 0x5B, 0x5C], b ∉ lit "Wid$((1+1))") ∧
    lit "apis/svcy/v1beta1/wid$((1+1))_types.go" ∈ arithRepo ∧
    DetectControllerType id arithShell (lit "Wid$((1+1))") =
      .ok { Resource := lit "Wid$((1+1))", Type_ := lit "terraform",
            Location := some (lit "pkg/clients/generated/apis/svcy/v1beta1/wid2_types.go"),
            MigrationNeeded := true, HasDirectTypes := false, HasTerraformTypes := true,
            HasProto := true,
            ProtoLocation :=
              some (lit "mockgcp/third_party/googleapis/google/cloud/svcy/v1/widget.proto"),
            Service := some (lit "svcy"), Version := some (lit "v1beta1") } ∧
    (GetMigrationStatus id (DetectControllerType id arithShell (lit "Wid$((1+1))"))
        (fun p => decide (p ∈ arithRepo)) (lit "Wid$((1+1))")).toOption.map
        (fun ms => (ms.OverallProgress, ms.CurrentPhase.Number,
          ms.Phases.map (fun p => (p.Number, p.Status)))) =
      some (lit "7/7 phases", 7,
        [(1, lit "completed"), (2, lit "completed"), (3, lit "completed"),
         (4, lit "completed"), (5, lit "completed"), (6, lit "completed"),
         (7, lit "completed")]) := by
  decide

/-- C27, amended: let the repository be the set of paths `repo`, a path exist
exactly when it is in `repo`, the lower-cased resource name be a plain name
(ASCII letters, digits, `_`, `-` and `.` only, so that it holds no glob
metacharacter, nothing the shell expands and no slash), and the search of the
direct tree print every path below `apis/` whose base name matches
`*<lower>*_types.go`.  When GetMigrationStatus takes its non-direct branch,
the phase 2 file `apis/<service>/<version>/<lower>_types.go` is not in the
repository, phase 2 is not `completed`, the current phase is phase 1 or
phase 2, at most 6 phases are counted as completed, and the status does not
report all 7 phases completed. -/
theorem GetMigrationStatus_types_absent (caseTable : Nat → Nat) (sh : Shell)
    (resource : GoString) (repo : List GoString) (info : ControllerTypeInfo)
    (service version : GoString) (lower : PlainName)
    (hlower : strings.ToLower caseTable resource = lower.val)
    (hdirect : sh (directTypesCmd lower.val) =
      .ok (findOutput repo (lit "apis/") lower underscoreTypesGo))
    (hdet : DetectControllerType caseTable sh resource = .ok info)
    (hnd : info.Type_ ≠ lit "direct") (hs : info.Service = some service)
    (hv : info.Version = some version) :
    lit "apis/" ++ service ++ lit "/" ++ version ++ lit "/" ++
      strings.ToLower caseTable resource ++ lit "_types.go" ∉ repo ∧
    ∃ ms, GetMigrationStatus caseTable (DetectControllerType caseTable sh resource)
        (fun p => decide (p ∈ repo)) resource = .ok ms ∧
      ms.Phases.length = 7 ∧
      (∀ p ∈ ms.Phases, p.Number = 2 → p.Status ≠ lit "completed") ∧
      (ms.CurrentPhase.Number = 1 ∨ ms.CurrentPhase.Number = 2) ∧
      completedCount ms.Phases ≤ 6 ∧
      ¬ (∀ p ∈ ms.Phases, p.Status = lit "completed") ∧
      ms.OverallProgress ≠ lit "7/7 phases" := by
  have habs : lit "apis/" ++ service ++ lit "/" ++ version ++ lit "/" ++
      strings.ToLower caseTable resource ++ lit "_types.go" ∉ repo := by
    rw [hlower]
    exact types_file_absent caseTable sh resource repo info service version lower hlower
      hdirect hdet hnd
  refine ⟨habs, ?_⟩
  rw [hdet]
  refine ⟨_, GetMigrationStatus_eq caseTable info _ resource service version hnd hs hv, ?_⟩
  simp only
  have hnum := phases_numbers (fun p => decide (p ∈ repo)) (protoLocationOf info service)
    service version (strings.ToLower caseTable resource)
  have hfacts := phaseStatus_facts (fun p => decide (p ∈ repo))
    (protoLocationOf info service) service version (strings.ToLower caseTable resource)
  have hmem2 : phaseStatusOf (fun p => decide (p ∈ repo))
      { number := 2, name := lit "API Types",
        files := [(lit "types", lit "apis/" ++ service ++ lit "/" ++ version ++ lit "/" ++
          strings.ToLower caseTable resource ++ lit "_types.go")] } ∈
      (phases (protoLocationOf info service) service version
        (strings.ToLower caseTable resource)).map
        (phaseStatusOf (fun p => decide (p ∈ repo))) := by
    simp [phases]
  have hst2 : (phaseStatusOf (fun p => decide (p ∈ repo))
      { number := 2, name := lit "API Types",
        files := [(lit "types", lit "apis/" ++ service ++ lit "/" ++ version ++ lit "/" ++
          strings.ToLower caseTable resource ++ lit "_types.go")] }).Status ≠
      lit "completed" := by
    rw [phaseStatusOf_single]
    simp only [habs, decide_False, Bool.false_eq_true, if_false]
    decide
  generalize hp2 : phaseStatusOf (fun p => decide (p ∈ repo))
      { number := 2, name := lit "API Types",
        files := [(lit "types", lit "apis/" ++ service ++ lit "/" ++ version ++ lit "/" ++
          strings.ToLower caseTable resource ++ lit "_types.go")] } = p2 at hmem2 hst2
  have hn2 : p2.Number = 2 := by rw [← hp2]; rfl
  generalize hl : (phases (protoLocationOf info service) service version
    (strings.ToLower caseTable resource)).map
      (phaseStatusOf (fun p => decide (p ∈ repo))) = l at hnum hfacts hmem2
  have hne : l ≠ [] := List.ne_nil_of_mem hmem2
  have hcur := currentPhaseOf_spec l hne (by rw [hnum]; decide)
  have hlen : l.length = 7 := by
    have := congrArg List.length hnum
    simpa using this
  have huniq : ∀ p ∈ l, p.Number = 2 → p = p2 := by
    intro p hp hn
    have hpw : (l.map (fun p => p.Number)).Pairwise (fun a b => a < b) := by
      rw [hnum]; decide
    rw [List.pairwise_map] at hpw
    have hpw2 : l.Pairwise (fun a b => a.Number ≠ b.Number) :=
      hpw.imp (fun hab => Nat.ne_of_lt hab)
    by_contra hne2
    exact hpw2.forall (fun _ _ hab => hab.symm) hp hmem2 hne2 (by rw [hn, hn2])
  have hc : completedCount l ≤ 6 := by
    rw [completedCount_eq]
    have := (@List.length_filter_lt_length_iff_exists _
      (fun p => decide (p.Status = lit "completed")) l).2 ⟨p2, hmem2, by simpa using hst2⟩
    omega
  refine ⟨hlen, ?_, ?_, hc, ?_, ?_⟩
  · intro p hp hn
    rw [huniq p hp hn]
    exact hst2
  · have hle : ¬ p2.Number < (currentPhaseOf l).Number := fun hlt =>
      hst2 (hcur.2.1 p2 hmem2 hlt)
    have hnn := (hfacts _ hcur.1).2.1
    simp only [List.mem_cons, Prod.mk.injEq, List.mem_singleton, List.not_mem_nil,
      or_false] at hnn
    rcases hnn with h | h | h | h | h | h | h <;> omega
  · intro hall
    exact hst2 (hall p2 hmem2)
  · rw [hlen]
    generalize completedCount l = c at hc
    interval_cases c <;> decide

set_option maxRecDepth 100000 in
/-- In the repository `legacyRepo` the resource `Widget`, searched as the plain
name `widget`, is on the legacy path and every later artifact exists:
`GetMigrationStatus_types_absent` applies, so its current phase is phase 1 or
phase 2. -/
theorem GetMigrationStatus_types_absent_witness :
    ∃ ms, GetMigrationStatus id (DetectControllerType id legacyShell (lit "Widget"))
        (fun p => decide (p ∈ legacyRepo)) (lit "Widget") = .ok ms ∧
      (ms.CurrentPhase.Number = 1 ∨ ms.CurrentPhase.Number = 2) ∧
      completedCount ms.Phases ≤ 6 := by
  obtain ⟨_, ms, h, _, _, hcur, hcount, _, _⟩ :=
    GetMigrationStatus_types_absent id legacyShell (lit "Widget") legacyRepo betaInfo
      (lit "svcy") (lit "v1beta1") widgetName (by decide) (by decide) (by decide)
      (by decide) (by decide) (by decide)
  exact ⟨ms, h, hcur, hcount⟩

/-! ## Field inserter: a second call -/

theorem findIdx_eq_of_getD (p : GoString → Bool) (xs : List GoString) (i : Nat)
    (h : i < xs.length) (hp : p (xs.getD i []) = true)
    (hlt : ∀ j, j < i → p (xs.getD j []) = false) : xs.findIdx p = i := by
  rw [List.findIdx_eq h]
  refine ⟨by rwa [List.getD_eq_getElem _ _ h] at hp, fun j hji => ?_⟩
  have := hlt j hji
  rwa [List.getD_eq_getElem _ _ (by omega)] at this

theorem getD_of_findIdx (p : GoString → Bool) (xs : List GoString)
    (h : xs.findIdx p < xs.length) :
    p (xs.getD (xs.findIdx p) []) = true ∧
      ∀ j, j < xs.findIdx p → p (xs.getD j []) = false := by
  have := (@List.findIdx_eq _ p xs _ h).1 rfl
  refine ⟨by rw [List.getD_eq_getElem _ _ h]; exact this.1, fun j hj => ?_⟩
  rw [List.getD_eq_getElem _ _ (by omega)]
  exact this.2 j hj

theorem openingLine_eq_some (lines : List GoString) (marker : GoString) (o : Nat) :
    openingLine lines marker = some o ↔
      o < lines.length ∧ strings.Contains (lines.getD o []) marker = true ∧
        ∀ i, i < o → strings.Contains (lines.getD i []) marker = false := by
  unfold openingLine
  simp only
  constructor
  · intro h
    split_ifs at h with hlt
    have ho := Option.some.inj h
    have := getD_of_findIdx (fun l => strings.Contains l marker) lines hlt
    rw [ho] at this hlt
    exact ⟨hlt, this.1, this.2⟩
  · rintro ⟨h1, h2, h3⟩
    have := findIdx_eq_of_getD (fun l => strings.Contains l marker) lines o h1 h2 h3
    rw [this, if_pos h1]

theorem closingLine_of_opening (lines : List GoString) (marker : GoString) (o c : Nat)
    (ho : openingLine lines marker = some o) (hoc : o < c) (hc : c < lines.length)
    (ht : strings.TrimSpace (lines.getD c []) = lit "\x7d")
    (hn : ∀ j, o < j → j < c → strings.TrimSpace (lines.getD j []) ≠ lit "\x7d") :
    closingLine lines marker = some c := by
  unfold closingLine
  rw [ho]
  simp only
  have hk : (lines.drop (o + 1)).findIdx
      (fun l => decide (strings.TrimSpace l = lit "\x7d")) = c - (o + 1) := by
    apply findIdx_eq_of_getD
    · rw [List.length_drop]; omega
    · rw [getD_drop, show o + 1 + (c - (o + 1)) = c by omega]
      simpa using ht
    · intro j hj
      rw [getD_drop]
      simpa using hn (o + 1 + j) (by omega) (by omega)
  rw [hk, show o + 1 + (c - (o + 1)) = c by omega, if_pos hc]

theorem strings.isInfix_of_mem_Split (s : GoString) (sep : Nat) :
    ∀ l ∈ strings.Split s sep, l <:+: s := by
  induction s with
  | nil =>
    intro l hl
    simp only [strings.Split, List.mem_singleton] at hl
    rw [hl]
  | cons c cs ih =>
    intro l hl
    unfold strings.Split at hl
    split_ifs at hl with hc
    · rcases List.mem_cons.1 hl with rfl | hl
      · exact List.nil_infix
      · exact (ih l hl).trans (List.suffix_cons c cs).isInfix
    · cases hs : strings.Split cs sep with
      | nil =>
        rw [hs] at hl
        simp only [List.mem_singleton] at hl
        rw [hl]
        exact (List.prefix_append [c] cs).isInfix
      | cons x xs =>
        rw [hs] at hl
        simp only [List.mem_cons] at hl
        rcases hl with rfl | hl
        · have hx : x <+: cs := by
            have hj := strings.Join_Split cs sep
            rw [hs] at hj
            cases xs with
            | nil => simp only [strings.Join] at hj; rw [hj]
            | cons y ys =>
              simp only [strings.Join] at hj
              rw [← hj, List.append_assoc]
              exact List.prefix_append _ _
          exact (List.cons_prefix_cons.2 ⟨rfl, hx⟩).isInfix
        · exact (ih l (by rw [hs]; exact List.mem_cons_of_mem _ hl)).trans
            (List.suffix_cons c cs).isInfix

theorem strings.joinedPrefix_of_ne_nil (B : List GoString) (sep : GoString) (hB : B ≠ []) :
    strings.joinedPrefix B sep = strings.Join B sep ++ sep := by
  induction B with
  | nil => exact absurd rfl hB
  | cons b bs ih =>
    cases bs with
    | nil => simp [strings.joinedPrefix, strings.Join]
    | cons x xs =>
      have := ih (by simp)
      simp only [strings.joinedPrefix, List.flatMap_cons] at this ⊢
      rw [this]
      simp [strings.Join]

/-- Joining is not changed by joining a block of consecutive elements first. -/
theorem strings.Join_block (X B Y : List GoString) (sep : GoString) (hB : B ≠ [])
    (hY : Y ≠ []) :
    strings.Join (X ++ B ++ Y) sep = strings.Join (X ++ [strings.Join B sep] ++ Y) sep := by
  have h1 : strings.Join (X ++ (B ++ Y)) sep =
      strings.joinedPrefix X sep ++ strings.Join (B ++ Y) sep :=
    strings.Join_append _ _ _ (by simp [hB])
  have h2 : strings.Join (B ++ Y) sep = strings.joinedPrefix B sep ++ strings.Join Y sep :=
    strings.Join_append _ _ _ hY
  have h3 : strings.Join (X ++ ([strings.Join B sep] ++ Y)) sep =
      strings.joinedPrefix X sep ++ strings.Join ([strings.Join B sep] ++ Y) sep :=
    strings.Join_append _ _ _ (by simp)
  have h4 : strings.Join ([strings.Join B sep] ++ Y) sep =
      strings.joinedPrefix [strings.Join B sep] sep ++ strings.Join Y sep :=
    strings.Join_append _ _ _ hY
  rw [List.append_assoc, List.append_assoc, h1, h2, h3, h4,
    strings.joinedPrefix_of_ne_nil B sep hB]
  simp [strings.joinedPrefix]

theorem buildFieldDefinition_eq_Join (fieldName goType jsonName protoPath description :
    GoString) :
    buildFieldDefinition fieldName goType jsonName protoPath description =
      strings.Join (fieldLines fieldName goType jsonName protoPath description) [0x0A] := by
  unfold buildFieldDefinition fieldLines
  rw [lit_newline]
  by_cases h : description = [] <;> simp [h]

theorem getGoType_newline (fieldType resource fieldName goType : GoString)
    (hr : 0x0A ∉ resource) (hf : 0x0A ∉ fieldName)
    (h : getGoType fieldType resource fieldName = .ok goType) : 0x0A ∉ goType := by
  unfold getGoType at h
  split_ifs at h
  all_goals have h := (Except.ok.inj h).symm
  all_goals subst h
  · decide
  · decide
  · decide
  · decide
  · simp only [List.mem_append, not_or]
    exact ⟨⟨⟨by decide, hr⟩, by decide⟩, hf⟩

theorem jsonNameOf_newline (params : AddFieldParams) (hf : 0x0A ∉ params.FieldName)
    (hj : 0x0A ∉ params.JSONName) : 0x0A ∉ jsonNameOf params := by
  unfold jsonNameOf
  split_ifs
  · unfold toCamelCase
    rcases hfn : params.FieldName with _ | ⟨c, rest⟩
    · simp
    · rw [hfn] at hf
      simp only [List.mem_cons, not_or] at hf
      simp only [List.mem_append, not_or]
      refine ⟨?_, hf.2⟩
      unfold strings.ToLowerByte
      split_ifs <;> (simp; try omega)
  · exact hj

theorem fieldLines_newline (fieldName goType jsonName protoPath description : GoString)
    (h1 : 0x0A ∉ fieldName) (h2 : 0x0A ∉ goType) (h3 : 0x0A ∉ jsonName)
    (h4 : 0x0A ∉ protoPath) (h5 : 0x0A ∉ description) :
    ∀ l ∈ fieldLines fieldName goType jsonName protoPath description, 0x0A ∉ l := by
  have ha : (0x0A : Nat) ∉ lit "\t// " := by decide
  have hb : (0x0A : Nat) ∉ lit "\t// +kcc:proto=" := by decide
  have hc : (0x0A : Nat) ∉ lit "\t" := by decide
  have hd : (0x0A : Nat) ∉ lit " " := by decide
  have he : (0x0A : Nat) ∉ lit " `json:\"" := by decide
  have hf : (0x0A : Nat) ∉ lit ",omitempty\"`" := by decide
  intro l hl
  unfold fieldLines at hl
  rw [List.mem_append] at hl
  rcases hl with hl | hl
  · split_ifs at hl
    · simp only [List.mem_singleton] at hl
      rw [hl]; simp only [List.mem_append, not_or]; exact ⟨ha, h5⟩
    · exact absurd hl (List.not_mem_nil _)
  · simp only [List.mem_cons, List.mem_singleton, List.not_mem_nil, or_false] at hl
    rcases hl with rfl | rfl
    · simp only [List.mem_append, not_or]; exact ⟨hb, h4⟩
    · simp only [List.mem_append, not_or]
      exact ⟨⟨⟨⟨⟨⟨hc, h1⟩, hd⟩, h2⟩, he⟩, h3⟩, hf⟩

theorem Split_buildFieldDefinition (fieldName goType jsonName protoPath description :
    GoString)
    (h1 : 0x0A ∉ fieldName) (h2 : 0x0A ∉ goType) (h3 : 0x0A ∉ jsonName)
    (h4 : 0x0A ∉ protoPath) (h5 : 0x0A ∉ description) :
    strings.Split (buildFieldDefinition fieldName goType jsonName protoPath description)
        0x0A =
      fieldLines fieldName goType jsonName protoPath description := by
  rw [buildFieldDefinition_eq_Join, strings.Split_Join _ _ (by simp [fieldLines]),
    strings.flatMap_Split_of_not_mem _ _
      (fieldLines_newline fieldName goType jsonName protoPath description h1 h2 h3 h4 h5)]

theorem TrimSpace_ne_closing (line : GoString) (b : Nat) (hb : b ∈ line)
    (hns : b ∉ strings.spaceBytes) (hne : b ≠ 0x7D) :
    strings.TrimSpace line ≠ lit "\x7d" := by
  intro ht
  rcases strings.TrimSpace_bytes line b hb with h | h
  · rw [ht] at h
    have : lit "\x7d" = [0x7D] := by decide
    rw [this, List.mem_singleton] at h
    exact hne h
  · exact hns h

theorem fieldLines_not_closing (fieldName goType jsonName protoPath description :
    GoString) :
    ∀ l ∈ fieldLines fieldName goType jsonName protoPath description,
      strings.TrimSpace l ≠ lit "\x7d" := by
  have hs : (0x2F : Nat) ∉ strings.spaceBytes := by decide
  have hq : (0x60 : Nat) ∉ strings.spaceBytes := by decide
  intro l hl
  unfold fieldLines at hl
  rw [List.mem_append] at hl
  rcases hl with hl | hl
  · split_ifs at hl
    · simp only [List.mem_singleton] at hl
      rw [hl]
      exact TrimSpace_ne_closing _ 0x2F (List.mem_append_left _ (by decide)) hs (by decide)
    · exact absurd hl (List.not_mem_nil _)
  · simp only [List.mem_cons, List.mem_singleton, List.not_mem_nil, or_false] at hl
    rcases hl with rfl | rfl
    · exact TrimSpace_ne_closing _ 0x2F (List.mem_append_left _ (by decide)) hs (by decide)
    · exact TrimSpace_ne_closing _ 0x60 (List.mem_append_right _ (by decide)) hq (by decide)

theorem fieldLines_last (fieldName goType jsonName protoPath description : GoString) :
    (fieldLines fieldName goType jsonName protoPath description).length ≥ 2 ∧
    strings.Contains
      ((fieldLines fieldName goType jsonName protoPath description).getD
        ((fieldLines fieldName goType jsonName protoPath description).length - 1) [])
      (lit "`json:") = true := by
  have hl : lit " `json:\"" = lit " " ++ lit "`json:" ++ lit "\"" := by decide
  have hc : strings.Contains (lit "\t" ++ fieldName ++ lit " " ++ goType ++ lit " `json:\"" ++
      jsonName ++ lit ",omitempty\"`") (lit "`json:") = true := by
    rw [hl]
    have := strings.Contains_append (lit "\t" ++ fieldName ++ lit " " ++ goType ++ lit " ")
      (lit "`json:") (lit "\"" ++ jsonName ++ lit ",omitempty\"`")
    simpa only [List.append_assoc] using this
  unfold fieldLines
  by_cases hd : description = []
  · simp only [hd, ne_eq, not_true_eq_false, if_false, List.nil_append]
    exact ⟨by simp, hc⟩
  · simp only [hd, ne_eq, not_false_eq_true, if_true]
    exact ⟨by simp, hc⟩

theorem getD_splice_middle (L B : List GoString) (p i : Nat) (hp : p ≤ L.length)
    (hi : i < B.length) : (L.take p ++ B ++ L.drop p).getD (p + i) [] = B.getD i [] := by
  simp only [List.getD_eq_getElem?_getD]
  rw [List.getElem?_append_left (by simp; omega),
    List.getElem?_append_right (by simp)]
  congr 2
  simp
  omega

theorem getD_mem (B : List GoString) (i : Nat) (hi : i < B.length) : B.getD i [] ∈ B := by
  rw [List.getD_eq_getElem _ _ hi]
  exact List.getElem_mem _

/-- The scan of a text into which a block of lines was spliced at the
insertion point: when no line of the block contains the opening marker or
trims to a closing brace and the last line of the block carries the
serialization tag, the new insertion point is right after the block, or at
the top again when the first one was at the top. -/
theorem findInsertionPoint_spliced (content content1 parentType : GoString)
    (B : List GoString) (p : Nat)
    (hp : findInsertionPoint content parentType = (p : Int))
    (hsplit : strings.Split content1 0x0A =
      (strings.Split content 0x0A).take p ++ B ++ (strings.Split content 0x0A).drop p)
    (hB1 : ∀ l ∈ B, strings.Contains l (structMarker parentType) = false)
    (hB2 : ∀ l ∈ B, strings.TrimSpace l ≠ lit "\x7d")
    (hB3 : 1 ≤ B.length)
    (hB4 : strings.Contains (B.getD (B.length - 1) []) (lit "`json:") = true) :
    findInsertionPoint content1 parentType = ((p + B.length : Nat) : Int) ∨
      (p = 0 ∧ findInsertionPoint content1 parentType = 0) := by
  have hne : findInsertionPoint content parentType ≠ -1 := by rw [hp]; omega
  obtain ⟨p0, c, hp0, hc, hpc, hcl⟩ := findInsertionPoint_bounds content parentType hne
  have hpp : p0 = p := by rw [hp] at hp0; exact_mod_cast hp0.symm
  subst hpp
  obtain ⟨o, ho, hoc, _, htc, hnc, hr⟩ := findInsertionPoint_some content parentType c hc
  obtain ⟨hol, hom, hob⟩ := (openingLine_eq_some _ _ _).1 ho
  generalize hL : strings.Split content 0x0A = L at *
  generalize hm : structMarker parentType = m at *
  have hpL : p0 ≤ L.length := by omega
  have G1 : ∀ i, i < p0 → (L.take p0 ++ B ++ L.drop p0).getD i [] = L.getD i [] :=
    fun i hi => getD_splice_before L B p0 i hi hpL
  have G2 : ∀ i, i < B.length →
      (L.take p0 ++ B ++ L.drop p0).getD (p0 + i) [] = B.getD i [] :=
    fun i hi => getD_splice_middle L B p0 i hpL hi
  have G3 : ∀ i, (L.take p0 ++ B ++ L.drop p0).getD (p0 + B.length + i) [] =
      L.getD (p0 + i) [] :=
    fun i => getD_splice_after L B p0 i hpL
  have hlen : (L.take p0 ++ B ++ L.drop p0).length = L.length + B.length := by
    simp only [List.length_append, List.length_take, List.length_drop]
    omega
  have hclose : o < p0 → ∀ k, p0 ≤ k → k < c + B.length → o < k →
      strings.TrimSpace ((L.take p0 ++ B ++ L.drop p0).getD k []) ≠ lit "\x7d" := by
    intro hop k hk1 hk2 hk3
    by_cases hk : k < p0 + B.length
    · have := G2 (k - p0) (by omega)
      rw [show p0 + (k - p0) = k by omega] at this
      rw [this]
      exact hB2 _ (getD_mem B _ (by omega))
    · have := G3 (k - p0 - B.length)
      rw [show p0 + B.length + (k - p0 - B.length) = k by omega] at this
      rw [this]
      exact hnc _ (by omega) (by omega)
  have hcl1 : strings.TrimSpace ((L.take p0 ++ B ++ L.drop p0).getD (c + B.length) []) =
      lit "\x7d" := by
    have := G3 (c - p0)
    rw [show p0 + B.length + (c - p0) = c + B.length by omega,
      show p0 + (c - p0) = c by omega] at this
    rw [this]; exact htc
  rcases hr with ⟨j, hoj, hjc, _, hafter, hres⟩ | ⟨hnone, hres⟩
  · left
    have hpj : p0 = j + 1 := by rw [hp] at hres; exact_mod_cast hres
    have ho1 : openingLine (L.take p0 ++ B ++ L.drop p0) m = some o := by
      rw [openingLine_eq_some]
      refine ⟨by omega, by rw [G1 o (by omega)]; exact hom, fun i hi => ?_⟩
      rw [G1 i (by omega)]; exact hob i hi
    have hc1 : closingLine (L.take p0 ++ B ++ L.drop p0) m = some (c + B.length) := by
      apply closingLine_of_opening _ _ o _ ho1 (by omega) (by omega) hcl1
      intro k hk1 hk2
      by_cases hk : k < p0
      · rw [G1 k hk]; exact hnc k hk1 (by omega)
      · exact hclose (by omega) k (by omega) hk2 hk1
    have hlast : findInsertionPoint content1 parentType =
        ((p0 + B.length - 1 : Nat) : Int) + 1 := by
      apply findInsertionPoint_last_field content1 parentType o (c + B.length)
        (p0 + B.length - 1)
      · rw [hsplit, hm]; exact ho1
      · rw [hsplit, hm]; exact hc1
      · omega
      · omega
      · rw [hsplit, hm]
        have := G2 (B.length - 1) (by omega)
        rw [show p0 + (B.length - 1) = p0 + B.length - 1 by omega] at this
        rw [this]
        unfold isFieldLine
        rw [hB4, hB1 _ (getD_mem B _ (by omega))]
        rfl
      · intro k hk1 hk2
        rw [hsplit, hm]
        have := G3 (k - p0 - B.length)
        rw [show p0 + B.length + (k - p0 - B.length) = k by omega] at this
        rw [this]
        exact hafter _ (by omega) (by omega)
    rw [hlast]
    omega
  · right
    have hp00 : p0 = 0 := by rw [hp] at hres; exact_mod_cast hres
    refine ⟨hp00, ?_⟩
    have ho1 : openingLine (L.take p0 ++ B ++ L.drop p0) m = some (o + B.length) := by
      rw [openingLine_eq_some]
      refine ⟨by omega, ?_, fun i hi => ?_⟩
      · have := G3 o
        rw [show p0 + B.length + o = o + B.length by omega, show p0 + o = o by omega] at this
        rw [this]; exact hom
      · by_cases hiB : i < B.length
        · have := G2 i hiB
          rw [show p0 + i = i by omega] at this
          rw [this]
          exact hB1 _ (getD_mem B i hiB)
        · have := G3 (i - B.length)
          rw [show p0 + B.length + (i - B.length) = i by omega,
            show p0 + (i - B.length) = i - B.length by omega] at this
          rw [this]
          exact hob _ (by omega)
    have hc1 : closingLine (L.take p0 ++ B ++ L.drop p0) m = some (c + B.length) := by
      apply closingLine_of_opening _ _ (o + B.length) _ ho1 (by omega) (by omega) hcl1
      intro k hk1 hk2
      have := G3 (k - B.length)
      rw [show p0 + B.length + (k - B.length) = k by omega,
        show p0 + (k - B.length) = k - B.length by omega] at this
      rw [this]
      exact hnc _ (by omega) (by omega)
    rw [← hsplit, ← hm] at hc1 ho1
    obtain ⟨o1, ho1', _, _, _, _, hr1⟩ :=
      findInsertionPoint_some content1 parentType (c + B.length) hc1
    have hoo : o1 = o + B.length := by
      rw [ho1] at ho1'; exact (Option.some.inj ho1').symm
    subst hoo
    rcases hr1 with ⟨j, hj1, hj2, hjf, _, _⟩ | ⟨_, hres1⟩
    · exfalso
      rw [hsplit, hm] at hjf
      have := G3 (j - B.length)
      rw [show p0 + B.length + (j - B.length) = j by omega,
        show p0 + (j - B.length) = j - B.length by omega] at this
      rw [this, hnone _ (by omega) (by omega)] at hjf
      exact absurd hjf (by simp)
    · exact hres1

theorem AddField_eq (content typesFile : GoString) (params : AddFieldParams)
    (goType : GoString) (p : Nat)
    (hg : getGoType params.FieldType params.Resource params.FieldName = .ok goType)
    (hp : findInsertionPoint content (parentTypeOf params) = (p : Int)) :
    AddField (.ok content) none typesFile params =
      ⟨.ok ([0xC3, 0xA2, 0xC5, 0x93, 0xE2, 0x80, 0xA6] ++ lit " Added field to " ++
          typesFile ++ lit "\n\n" ++
          buildFieldDefinition params.FieldName goType (jsonNameOf params) params.ProtoPath
            params.Description),
        some (strings.Join ((strings.Split content 0x0A).take p ++
          [buildFieldDefinition params.FieldName goType (jsonNameOf params)
            params.ProtoPath params.Description] ++
          (strings.Split content 0x0A).drop p) [0x0A])⟩ := by
  have hne : ¬ ((p : Int) = -1) := by omega
  unfold AddField
  simp only [hg, hp, hne, if_false, Int.toNat_ofNat, lit_newline, List.nil_append]

/-- Two insertions of the same text at the same line. -/
theorem strings.Join_insert_twice (L : List GoString) (f : GoString) (sep p : Nat)
    (hp : p < L.length) :
    strings.Join (L.take p ++ [f] ++ ([f] ++ L.drop p)) [sep] =
      (strings.Join L [sep]).take (lineStart L p) ++ (f ++ [sep]) ++ (f ++ [sep]) ++
        (strings.Join L [sep]).drop (lineStart L p) := by
  have hlen : (L.take p).length = p := by rw [List.length_take]; omega
  have ht : (L.take p ++ [f] ++ L.drop p).take p = L.take p := by
    rw [List.append_assoc, List.take_append_of_le_length (by omega), List.take_take,
      Nat.min_self]
  have hd : (L.take p ++ [f] ++ L.drop p).drop p = [f] ++ L.drop p := by
    rw [List.append_assoc, List.drop_append_of_le_length (by omega),
      List.drop_of_length_le (by omega)]
    rfl
  have hls : lineStart (L.take p ++ [f] ++ L.drop p) p = lineStart L p := by
    unfold lineStart; rw [ht]
  have h1 := strings.Join_insert (L.take p ++ [f] ++ L.drop p) f sep p
    (by simp only [List.length_append, List.length_take, List.length_drop,
      List.length_singleton]; omega)
  rw [ht, hd, hls, strings.Join_insert L f sep p hp] at h1
  have hoff : ((strings.Join L [sep]).take (lineStart L p)).length = lineStart L p := by
    rw [List.length_take]
    have := strings.lineStart_le L sep p hp
    omega
  rw [h1]
  have e1 : ((strings.Join L [sep]).take (lineStart L p) ++ (f ++ [sep]) ++
      (strings.Join L [sep]).drop (lineStart L p)).take (lineStart L p) =
      (strings.Join L [sep]).take (lineStart L p) := by
    rw [List.append_assoc, List.take_append_of_le_length (by omega), List.take_take,
      Nat.min_self]
  have e2 : ((strings.Join L [sep]).take (lineStart L p) ++ (f ++ [sep]) ++
      (strings.Join L [sep]).drop (lineStart L p)).drop (lineStart L p) =
      (f ++ [sep]) ++ (strings.Join L [sep]).drop (lineStart L p) := by
    rw [List.append_assoc, List.drop_append_of_le_length (by omega),
      List.drop_of_length_le (by omega)]
    rfl
  rw [e1, e2]
  simp only [List.append_assoc]

set_option maxRecDepth 100000 in
/-- C22, as stated, fails: the description of `quotingField` quotes the opening
line of `WidgetSpec`, which is empty in `gadgetWidgetTypes`.  The first call
succeeds and inserts the block at line 0; the second call succeeds too, takes
the quoted line for the opening line and inserts the block after the field of
`GadgetSpec`, so the two copies of the block are not consecutive. -/
theorem AddField_second_call_counterexample :
    (0x0A ∉ quotingField.Resource ∧ 0x0A ∉ quotingField.FieldName ∧
      0x0A ∉ quotingField.FieldType ∧ 0x0A ∉ quotingField.ProtoPath ∧
      0x0A ∉ quotingField.ParentType ∧ 0x0A ∉ quotingField.Description ∧
      0x0A ∉ quotingField.JSONName) ∧
    findInsertionPoint gadgetWidgetTypes (parentTypeOf quotingField) = 0 ∧
    (AddField (.ok gadgetWidgetTypes) none widgetTypesPath quotingField).result.isOk = true ∧
    (AddField (.ok gadgetWidgetTypes) none widgetTypesPath quotingField).written =
      some gadgetWidgetTypesOnce ∧
    (AddField (.ok gadgetWidgetTypesOnce) none widgetTypesPath quotingField).result.isOk =
      true ∧
    (AddField (.ok gadgetWidgetTypesOnce) none widgetTypesPath quotingField).written =
      some gadgetWidgetTypesTwice ∧
    gadgetWidgetTypesTwice ≠
      (buildFieldDefinition quotingField.FieldName (lit "*int64") (jsonNameOf quotingField)
          quotingField.ProtoPath quotingField.Description ++ lit "\n") ++
        (buildFieldDefinition quotingField.FieldName (lit "*int64") (jsonNameOf quotingField)
          quotingField.ProtoPath quotingField.Description ++ lit "\n") ++
        gadgetWidgetTypes := by
  decide

/-- C22, amended: for every file content and every newline-free parameter set
for which AddField succeeds and whose rendered field block does not contain
the opening marker of the parent type, calling AddField again with the same
parameters on the rewritten content also succeeds and writes the original
content with two consecutive copies of the rendered field block, each followed
by a line break, inserted at the byte offset where the line of the first
insertion point begins. -/
theorem AddField_second_call (content typesFile : GoString) (params : AddFieldParams)
    (out goType : GoString)
    (hnl : newlineFree params)
    (h : (AddField (.ok content) none typesFile params).result = .ok out)
    (hg : getGoType params.FieldType params.Resource params.FieldName = .ok goType)
    (hmk : strings.Contains
      (buildFieldDefinition params.FieldName goType (jsonNameOf params) params.ProtoPath
        params.Description) (structMarker (parentTypeOf params)) = false) :
    ∃ (p : Nat) (content1 out2 : GoString),
      findInsertionPoint content (parentTypeOf params) = (p : Int) ∧
      (AddField (.ok content) none typesFile params).written = some content1 ∧
      (AddField (.ok content1) none typesFile params).result = .ok out2 ∧
      (AddField (.ok content1) none typesFile params).written =
        some (content.take (lineStart (strings.Split content 0x0A) p) ++
          (buildFieldDefinition params.FieldName goType (jsonNameOf params)
            params.ProtoPath params.Description ++ lit "\n") ++
          (buildFieldDefinition params.FieldName goType (jsonNameOf params)
            params.ProtoPath params.Description ++ lit "\n") ++
          content.drop (lineStart (strings.Split content 0x0A) p)) := by
  obtain ⟨hn1, hn2, _, hn4, _, hn6, hn7⟩ := hnl
  obtain ⟨goType1, p, hg1, hp, hplt, hw, hsplit⟩ :=
    AddField_splice content typesFile none params out h
  have hgg : goType1 = goType := by rw [hg] at hg1; exact (Except.ok.inj hg1).symm
  subst hgg
  have hsp := Split_buildFieldDefinition params.FieldName goType1 (jsonNameOf params)
    params.ProtoPath params.Description hn2
    (getGoType_newline _ _ _ _ hn1 hn2 hg) (jsonNameOf_newline params hn2 hn7) hn4 hn6
  have hjoin := buildFieldDefinition_eq_Join params.FieldName goType1 (jsonNameOf params)
    params.ProtoPath params.Description
  have hlast := fieldLines_last params.FieldName goType1 (jsonNameOf params)
    params.ProtoPath params.Description
  have hnc := fieldLines_not_closing params.FieldName goType1 (jsonNameOf params)
    params.ProtoPath params.Description
  generalize hfd : buildFieldDefinition params.FieldName goType1 (jsonNameOf params)
    params.ProtoPath params.Description = fd at *
  generalize hB : fieldLines params.FieldName goType1 (jsonNameOf params)
    params.ProtoPath params.Description = B at *
  generalize hL : strings.Split content 0x0A = L at *
  have hB1 : ∀ l ∈ B, strings.Contains l (structMarker (parentTypeOf params)) = false := by
    intro l hl
    cases hc : strings.Contains l (structMarker (parentTypeOf params)) with
    | false => rfl
    | true =>
      have hin : l <:+: fd := by
        have := strings.isInfix_of_mem_Split fd 0x0A l (by rw [hsp]; exact hl)
        exact this
      rw [strings.Contains_iff] at hc
      have := (strings.Contains_iff _ _).2 (hc.trans hin)
      rw [hmk] at this
      exact absurd this (by simp)
  have hBne : B ≠ [] := by
    intro h0; rw [h0] at hlast; simp at hlast
  rw [hsp] at hsplit
  generalize hC1 : strings.Join (L.take p ++ [fd] ++ L.drop p) [0x0A] = content1 at *
  have hfinal := strings.Join_insert_twice L fd 0x0A p hplt
  have hcontent : strings.Join L [0x0A] = content := by rw [← hL]; exact strings.Join_Split _ _
  rw [hcontent] at hfinal
  have hdne : L.drop p ≠ [] := by
    intro h0; have := congrArg List.length h0; simp at this; omega
  have hlenT : (L.take p).length = p := by rw [List.length_take]; omega
  rcases findInsertionPoint_spliced content content1 (parentTypeOf params) B p hp
      (by rw [hL]; exact hsplit) hB1 hnc (by omega) hlast.2 with hp1 | ⟨hp0, hp1⟩
  · have hcall := AddField_eq content1 typesFile params goType1 (p + B.length) hg hp1
    rw [hfd, hsplit] at hcall
    refine ⟨p, content1, _, hp, hw, by rw [hcall], ?_⟩
    rw [hcall]
    simp only [Option.some.injEq]
    rw [lit_newline, ← hfinal]
    have ht : (L.take p ++ B ++ L.drop p).take (p + B.length) = L.take p ++ B := by
      rw [List.take_append_of_le_length (by simp only [List.length_append]; omega),
        List.take_of_length_le (by simp only [List.length_append]; omega)]
    have hd : (L.take p ++ B ++ L.drop p).drop (p + B.length) = L.drop p := by
      rw [List.drop_append_of_le_length (by simp only [List.length_append]; omega),
        List.drop_of_length_le (by simp only [List.length_append]; omega)]
      rfl
    rw [ht, hd, List.append_assoc (L.take p ++ B),
      strings.Join_block (L.take p) B ([fd] ++ L.drop p) [0x0A] hBne (by simp), ← hjoin]
  · subst hp0
    have hcall := AddField_eq content1 typesFile params goType1 0 hg (by rw [hp1]; rfl)
    rw [hfd, hsplit] at hcall
    refine ⟨0, content1, _, hp, hw, by rw [hcall], ?_⟩
    rw [hcall]
    simp only [Option.some.injEq]
    rw [lit_newline, ← hfinal]
    simp only [List.take_zero, List.drop_zero, List.nil_append]
    have := strings.Join_block [fd] B L [0x0A] hBne (by simpa using hdne)
    rw [← hjoin] at this
    simpa only [List.append_assoc] using this

set_option maxRecDepth 100000 in
/-- The scenario of the specification is a successful call with a newline-free
parameter set whose block does not contain the opening marker:
`AddField_second_call` gives the duplicate field of a second call. -/
theorem AddField_second_call_witness :
    ∃ (p : Nat) (content1 out2 : GoString),
      findInsertionPoint widgetTypes (parentTypeOf sizeField) = (p : Int) ∧
      (AddField (.ok widgetTypes) none widgetTypesPath sizeField).written = some content1 ∧
      (AddField (.ok content1) none widgetTypesPath sizeField).result = .ok out2 ∧
      (AddField (.ok content1) none widgetTypesPath sizeField).written =
        some (widgetTypes.take (lineStart (strings.Split widgetTypes 0x0A) p) ++
          (buildFieldDefinition sizeField.FieldName (lit "*int64") (jsonNameOf sizeField)
            sizeField.ProtoPath sizeField.Description ++ lit "\n") ++
          (buildFieldDefinition sizeField.FieldName (lit "*int64") (jsonNameOf sizeField)
            sizeField.ProtoPath sizeField.Description ++ lit "\n") ++
          widgetTypes.drop (lineStart (strings.Split widgetTypes 0x0A) p)) :=
  AddField_second_call widgetTypes widgetTypesPath sizeField
    ([0xC3, 0xA2, 0xC5, 0x93, 0xE2, 0x80, 0xA6] ++ lit " Added field to " ++
      widgetTypesPath ++ lit "\n\n" ++ sizeBlock)
    (lit "*int64")
    ⟨by decide, by decide, by decide, by decide, by decide, by decide, by decide⟩
    (by decide) (by decide) (by decide)

end KccMcp
